import Mathlib

/-!
# Shallow embedding of the random Verilog datapath generator

This file embeds the generation core of the repository (signal registry,
operation model, control blocks, configuration, and the `NetlistGenerator`
engine of `netlist_generator.cpp`) and proves/refutes the frozen claims
about it.

Modelling conventions:
* The C++ `std::mt19937` stream together with the distribution objects is
  replaced by an explicit oracle (`List Nat`): every random draw the C++
  code performs (`uniform_int_distribution`, `bernoulli_distribution`,
  `discrete_distribution`) consumes exactly one oracle element, in the
  exact program order of the source.  Claims quantified over "every seed"
  are proved for every oracle; counterexamples name a concrete oracle.
* `shared_ptr` identity and creation order are modelled by a global
  creation stamp: each `Signal` and each `Operation` records the value of
  a monotonically increasing counter at the moment of its creation
  (`Signal.uid`, `Operation.stamp`), mirroring allocation order.
* C++ `int` fields are modelled as `Int`; C++ `double` weights are
  modelled as exact rationals (`ℚ`).  The only use the engine makes of a
  weight is the comparison against `0` (eligibility for the discrete
  draw), which the rational model preserves.
* C++ `%` and `/` on `int` are truncated division, modelled by
  `Int.tmod` / `Int.tdiv`.
-/

/-- `SignalType` from `signal.h`. -/
inductive SignalType where
  | INPUT
  | OUTPUT
  | WIRE
  | REG
deriving DecidableEq, Repr

/-- `Signal` from `signal.h`: name, bit width, role, signedness.  The
`uid` field models the creation order of the underlying `shared_ptr`
(see the module docstring). -/
structure Signal where
  uid : Nat
  name : String
  width : Int
  type : SignalType
  is_signed : Bool
deriving DecidableEq, Repr

instance : Inhabited Signal := ⟨⟨0, "", 0, SignalType.WIRE, false⟩⟩

/-- `OpType` from `operation.h`, in the source's declaration order. -/
inductive OpType where
  | ADD | SUB | MULT | DIV | MOD
  | AND | OR | XOR | NOT | NAND | NOR | XNOR
  | EQ | NEQ | LT | GT | LTE | GTE
  | SLL | SRL | SRA
  | RED_AND | RED_OR | RED_XOR | RED_NAND | RED_NOR | RED_XNOR
  | MUX2 | MUX4
  | CONCAT
  | REPLICATE
  | CONDITIONAL
deriving DecidableEq, Repr

/-- Numeric value of an `OpType` in the C++ enum declaration order; used
for the range comparisons (`op_type >= OpType::ADD && op_type <= OpType::MOD`)
in `generateDatapath`. -/
def opTypeIdx : OpType → Nat
  | .ADD => 0 | .SUB => 1 | .MULT => 2 | .DIV => 3 | .MOD => 4
  | .AND => 5 | .OR => 6 | .XOR => 7 | .NOT => 8 | .NAND => 9 | .NOR => 10 | .XNOR => 11
  | .EQ => 12 | .NEQ => 13 | .LT => 14 | .GT => 15 | .LTE => 16 | .GTE => 17
  | .SLL => 18 | .SRL => 19 | .SRA => 20
  | .RED_AND => 21 | .RED_OR => 22 | .RED_XOR => 23
  | .RED_NAND => 24 | .RED_NOR => 25 | .RED_XNOR => 26
  | .MUX2 => 27 | .MUX4 => 28
  | .CONCAT => 29
  | .REPLICATE => 30
  | .CONDITIONAL => 31

/-- `Operation` from `operation.h`: kind, output signal, ordered operand
list, depth and pipeline stage (both initialised to `0` by the
constructor).  `stamp` models the creation order of the `shared_ptr`. -/
structure Operation where
  type : OpType
  output : Signal
  inputs : List Signal
  depth : Int
  stage : Int
  stamp : Nat
deriving DecidableEq, Repr

instance : Inhabited Operation :=
  ⟨⟨OpType.ADD, default, [], 0, 0, 0⟩⟩

/-- `Operation::addInput` from `operation.cpp`. -/
def Operation.addInput (op : Operation) (sig : Signal) : Operation :=
  { op with inputs := op.inputs ++ [sig] }

/-- `Operation::isUnary` from `operation.cpp`. -/
def Operation.isUnary (t : OpType) : Bool :=
  t = OpType.NOT ||
  t = OpType.RED_AND || t = OpType.RED_OR || t = OpType.RED_XOR ||
  t = OpType.RED_NAND || t = OpType.RED_NOR || t = OpType.RED_XNOR

/-- `Operation::isBinary` from `operation.cpp`. -/
def Operation.isBinary (t : OpType) : Bool :=
  t = OpType.ADD || t = OpType.SUB || t = OpType.MULT ||
  t = OpType.DIV || t = OpType.MOD ||
  t = OpType.AND || t = OpType.OR || t = OpType.XOR ||
  t = OpType.NAND || t = OpType.NOR || t = OpType.XNOR ||
  t = OpType.EQ || t = OpType.NEQ || t = OpType.LT ||
  t = OpType.GT || t = OpType.LTE || t = OpType.GTE ||
  t = OpType.SLL || t = OpType.SRL || t = OpType.SRA

/-- `Operation::isTernary` from `operation.cpp`. -/
def Operation.isTernary (t : OpType) : Bool :=
  t = OpType.MUX2 || t = OpType.CONDITIONAL

/-- `Operation::getRequiredOperands` from `operation.cpp`. -/
def Operation.getRequiredOperands (t : OpType) : Nat :=
  if Operation.isUnary t then 1
  else if Operation.isBinary t then 2
  else if Operation.isTernary t then 3
  else if t = OpType.MUX4 then 5
  else if t = OpType.CONCAT then 2
  else 0

/-- `ControlType` from `control_block.h`. -/
inductive ControlType where
  | CASE_STATEMENT
  | IF_ELSE_CHAIN
  | ALWAYS_COMB
  | ALWAYS_FF
deriving DecidableEq, Repr

/-- `CaseItem` from `control_block.h`. -/
structure CaseItem where
  value : Int
  operations : List Operation
  assignments : List (Signal × Signal)
deriving DecidableEq, Repr

/-- `ConditionalBranch` from `control_block.h`: `condition = none` models
the `nullptr` condition of a final `else` branch. -/
structure ConditionalBranch where
  condition : Option Signal
  operations : List Operation
  assignments : List (Signal × Signal)
deriving DecidableEq, Repr

/-- `ControlBlock` from `control_block.h`. -/
structure ControlBlock where
  type : ControlType
  select : Option Signal
  cases : List CaseItem
  default_assignments : List (Signal × Signal)
  branches : List ConditionalBranch
deriving DecidableEq, Repr

instance : Inhabited ControlBlock :=
  ⟨⟨ControlType.CASE_STATEMENT, none, [], [], []⟩⟩

/-- `ControlBlock::addCase` from `control_block.cpp`. -/
def ControlBlock.addCase (cb : ControlBlock) (value : Int) : ControlBlock :=
  { cb with cases := cb.cases ++ [⟨value, [], []⟩] }

/-- Helper for `ControlBlock::addCaseOperation`: append `op` to the first
case whose value matches (the C++ loop returns after the first match). -/
def addCaseOpAux : List CaseItem → Int → Operation → List CaseItem
  | [], _, _ => []
  | c :: cs, v, op =>
    if c.value = v then { c with operations := c.operations ++ [op] } :: cs
    else c :: addCaseOpAux cs v op

/-- `ControlBlock::addCaseOperation` from `control_block.cpp`. -/
def ControlBlock.addCaseOperation (cb : ControlBlock) (v : Int) (op : Operation) :
    ControlBlock :=
  { cb with cases := addCaseOpAux cb.cases v op }

/-- Helper for `ControlBlock::addCaseAssignment`. -/
def addCaseAsgAux : List CaseItem → Int → Signal → Signal → List CaseItem
  | [], _, _, _ => []
  | c :: cs, v, o, i =>
    if c.value = v then { c with assignments := c.assignments ++ [(o, i)] } :: cs
    else c :: addCaseAsgAux cs v o i

/-- `ControlBlock::addCaseAssignment` from `control_block.cpp`. -/
def ControlBlock.addCaseAssignment (cb : ControlBlock) (v : Int) (o i : Signal) :
    ControlBlock :=
  { cb with cases := addCaseAsgAux cb.cases v o i }

/-- `ControlBlock::setDefaultCase` from `control_block.cpp`. -/
def ControlBlock.setDefaultCase (cb : ControlBlock)
    (assigns : List (Signal × Signal)) : ControlBlock :=
  { cb with default_assignments := assigns }

/-- `ControlBlock::addBranch` from `control_block.cpp`. -/
def ControlBlock.addBranch (cb : ControlBlock) (cond : Signal) : ControlBlock :=
  { cb with branches := cb.branches ++ [⟨some cond, [], []⟩] }

/-- `ControlBlock::addElseBranch` from `control_block.cpp`. -/
def ControlBlock.addElseBranch (cb : ControlBlock) : ControlBlock :=
  { cb with branches := cb.branches ++ [⟨none, [], []⟩] }

/-- Helper modelling `branches_[idx]` mutation guarded by
`idx < branches_.size()`: out-of-range indices leave the list unchanged. -/
def setBranchAux (f : ConditionalBranch → ConditionalBranch) :
    List ConditionalBranch → Nat → List ConditionalBranch
  | [], _ => []
  | b :: bs, 0 => f b :: bs
  | b :: bs, n + 1 => b :: setBranchAux f bs n

/-- `ControlBlock::addBranchOperation` from `control_block.cpp`. -/
def ControlBlock.addBranchOperation (cb : ControlBlock) (idx : Nat)
    (op : Operation) : ControlBlock :=
  { cb with branches :=
      setBranchAux (fun b => { b with operations := b.operations ++ [op] }) cb.branches idx }

/-- `ControlBlock::addBranchAssignment` from `control_block.cpp`. -/
def ControlBlock.addBranchAssignment (cb : ControlBlock) (idx : Nat)
    (o i : Signal) : ControlBlock :=
  { cb with branches :=
      setBranchAux (fun b => { b with assignments := b.assignments ++ [(o, i)] }) cb.branches idx }

/-- `GeneratorConfig` from `config.h`.  C++ `int` fields are `Int`,
`double` weight fields are exact rationals.  The control-flow fields
(`generate_case_statements` … `cases_per_statement`) are declared in the
header but never initialised by the constructor; here they are ordinary
fields of the structure. -/
structure GeneratorConfig where
  seed : Nat
  module_name : String
  num_inputs : Int
  num_outputs : Int
  input_width_min : Int
  input_width_max : Int
  output_width_min : Int
  output_width_max : Int
  num_operations : Int
  max_depth : Int
  num_pipeline_stages : Int
  weight_arithmetic : ℚ
  weight_logical : ℚ
  weight_comparison : ℚ
  weight_shift : ℚ
  weight_mux : ℚ
  weight_concat : ℚ
  weight_reduction : ℚ
  weight_add : ℚ
  weight_sub : ℚ
  weight_mult : ℚ
  weight_div : ℚ
  weight_mod : ℚ
  weight_sll : ℚ
  weight_srl : ℚ
  weight_sra : ℚ
  use_parameters : Bool
  use_signed : Bool
  use_tristate : Bool
  generate_testbench : Bool
  generate_case_statements : Bool
  generate_if_else_chains : Bool
  generate_sharing_opportunities : Bool
  num_case_statements : Int
  num_if_else_chains : Int
  cases_per_statement : Int
  output_file : String
  verbose : Bool

/-- The state of one `NetlistGenerator` run: the pseudo-random oracle
(replacing `rng_`), the signal tables, the operation and control-block
sequences, the shared wire/register name counter, and the global creation
stamp (see the module docstring). -/
structure GenState where
  oracle : List Nat
  inputs : List Signal
  outputs : List Signal
  wires : List Signal
  regs : List Signal
  operations : List Operation
  control_blocks : List ControlBlock
  signal_counter : Nat
  stamp : Nat
deriving DecidableEq, Repr

/-- Pop one raw value from the oracle (one RNG draw; `0` if exhausted). -/
def drawNat (s : GenState) : Nat × GenState :=
  (s.oracle.headD 0, { s with oracle := s.oracle.tail })

/-- `NetlistGenerator::randomInt(min, max)`: one draw from
`uniform_int_distribution<int>(min, max)`.  A value in `[lo, hi]` when
`lo ≤ hi` (an empty range is undefined behaviour in the source; modelled
as `lo`). -/
def randomInt (lo hi : Int) (s : GenState) : Int × GenState :=
  let (r, s) := drawNat s
  let span := (hi - lo + 1).toNat
  (lo + Int.ofNat (if span = 0 then 0 else r % span), s)

/-- `NetlistGenerator::randomBool(p)`: one draw from
`bernoulli_distribution(p)`.  The probability argument only shapes the
distribution; the support is `{false, true}`, modelled by the parity of
the raw draw. -/
def randomBool (_p : ℚ) (s : GenState) : Bool × GenState :=
  let (r, s) := drawNat s
  (decide (r % 2 = 1), s)

/-- `NetlistGenerator::selectRandomSignal`: `nullptr` (no draw) on an
empty candidate list, otherwise one uniform index draw. -/
def selectRandomSignal (candidates : List Signal) (s : GenState) :
    Option Signal × GenState :=
  if candidates.isEmpty then (none, s)
  else
    let (r, s) := drawNat s
    (candidates.get? (r % candidates.length), s)

/-- One draw of `op_list[randomInt(0, op_list.size() - 1)]`, the pattern
used for the logical/comparison/reduction kind pick. -/
def randomPick (l : List OpType) (s : GenState) : OpType × GenState :=
  let (r, s) := drawNat s
  (l.getD (r % l.length) OpType.ADD, s)

/-- One draw of `std::discrete_distribution` over the listed
(weight, kind) pairs: the support is exactly the entries with positive
weight.  An all-nonpositive (or empty) weight list is undefined behaviour
in the source (`types[dist(rng_)]` on an empty vector); modelled as
`ADD` without consuming a draw. -/
def weightedChoice (pairs : List (ℚ × OpType)) (s : GenState) : OpType × GenState :=
  if ((pairs.filter (fun p => 0 < p.1)).map Prod.snd).isEmpty then (OpType.ADD, s)
  else
    let (r, s) := drawNat s
    (((pairs.filter (fun p => 0 < p.1)).map Prod.snd).getD
      (r % ((pairs.filter (fun p => 0 < p.1)).map Prod.snd).length) OpType.ADD, s)

/-- `NetlistGenerator::selectRandomOpType`: the category-level weighted
draw; a category participates only when its weight is `> 0` and is
represented by its sentinel kind (`ADD`, `AND`, `EQ`, `SLL`, `MUX2`,
`CONCAT`, `RED_AND`). -/
def selectRandomOpType (cfg : GeneratorConfig) (s : GenState) : OpType × GenState :=
  weightedChoice
    [(cfg.weight_arithmetic, OpType.ADD),
     (cfg.weight_logical, OpType.AND),
     (cfg.weight_comparison, OpType.EQ),
     (cfg.weight_shift, OpType.SLL),
     (cfg.weight_mux, OpType.MUX2),
     (cfg.weight_concat, OpType.CONCAT),
     (cfg.weight_reduction, OpType.RED_AND)] s

/-- `NetlistGenerator::selectArithmeticOpType`: the arithmetic
sub-category weighted draw. -/
def selectArithmeticOpType (cfg : GeneratorConfig) (s : GenState) : OpType × GenState :=
  weightedChoice
    [(cfg.weight_add, OpType.ADD),
     (cfg.weight_sub, OpType.SUB),
     (cfg.weight_mult, OpType.MULT),
     (cfg.weight_div, OpType.DIV),
     (cfg.weight_mod, OpType.MOD)] s

/-- `NetlistGenerator::selectShiftOpType`. -/
def selectShiftOpType (cfg : GeneratorConfig) (s : GenState) : OpType × GenState :=
  weightedChoice
    [(cfg.weight_sll, OpType.SLL),
     (cfg.weight_srl, OpType.SRL),
     (cfg.weight_sra, OpType.SRA)] s

/-- `NetlistGenerator::generateRandomWidth`: a width drawn from the input
width range. -/
def generateRandomWidth (cfg : GeneratorConfig) (s : GenState) : Int × GenState :=
  randomInt cfg.input_width_min cfg.input_width_max s

/-- `NetlistGenerator::createWire`: allocate `wire_<counter>` and append
it to the wire table. -/
def createWire (width : Int) (is_signed : Bool) (s : GenState) : Signal × GenState :=
  let w : Signal :=
    ⟨s.stamp, "wire_" ++ toString s.signal_counter, width, SignalType.WIRE, is_signed⟩
  (w, { s with wires := s.wires ++ [w],
               signal_counter := s.signal_counter + 1,
               stamp := s.stamp + 1 })

/-- `NetlistGenerator::createReg`: allocate `reg_<counter>` and append it
to the register table (the counter is shared with `createWire`). -/
def createReg (width : Int) (is_signed : Bool) (s : GenState) : Signal × GenState :=
  let rg : Signal :=
    ⟨s.stamp, "reg_" ++ toString s.signal_counter, width, SignalType.REG, is_signed⟩
  (rg, { s with regs := s.regs ++ [rg],
                signal_counter := s.signal_counter + 1,
                stamp := s.stamp + 1 })

/-- `std::make_shared<Operation>(type, output)`: depth and stage start at
`0` (the `Operation` constructor); the creation stamp is recorded. -/
def newOperation (t : OpType) (out : Signal) (s : GenState) : Operation × GenState :=
  (⟨t, out, [], 0, 0, s.stamp⟩, { s with stamp := s.stamp + 1 })

/-- `NetlistGenerator::getAvailableSignals`: all inputs plus all wires
created so far (outputs and registers are never operand candidates). -/
def getAvailableSignals (s : GenState) : List Signal :=
  s.inputs ++ s.wires

/-- `NetlistGenerator::generateInputs`.  Note the short-circuit of
`config_.use_signed && randomBool(0.5)`: the Bernoulli draw happens only
when signed generation is enabled. -/
def generateInputs (cfg : GeneratorConfig) (s : GenState) : GenState :=
  (List.range cfg.num_inputs.toNat).foldl
    (fun s i =>
      let rW := generateRandomWidth cfg s
      let rS := if cfg.use_signed then randomBool (1 / 2) rW.2 else (false, rW.2)
      let sig : Signal := ⟨rS.2.stamp, "in_" ++ toString i, rW.1, SignalType.INPUT, rS.1⟩
      { rS.2 with inputs := rS.2.inputs ++ [sig], stamp := rS.2.stamp + 1 })
    s

/-- `NetlistGenerator::generateOutputs`. -/
def generateOutputs (cfg : GeneratorConfig) (s : GenState) : GenState :=
  (List.range cfg.num_outputs.toNat).foldl
    (fun s i =>
      let rW := randomInt cfg.output_width_min cfg.output_width_max s
      let rS := if cfg.use_signed then randomBool (1 / 2) rW.2 else (false, rW.2)
      let sig : Signal := ⟨rS.2.stamp, "out_" ++ toString i, rW.1, SignalType.OUTPUT, rS.1⟩
      { rS.2 with outputs := rS.2.outputs ++ [sig], stamp := rS.2.stamp + 1 })
    s

/-- `NetlistGenerator::generateArithmeticOp`: the width is
`max(w(a), w(b))`, overridden to `w(a) + w(b)` for `MULT`
("Multiplier produces wider result"). -/
def generateArithmeticOp (cfg : GeneratorConfig) (available : List Signal)
    (s : GenState) : Option Operation × GenState :=
  let rT := selectArithmeticOpType cfg s
  let rA := selectRandomSignal available rT.2
  let rB := selectRandomSignal available rA.2
  match rA.1, rB.1 with
  | some a, some b =>
    let out_width := if rT.1 = OpType.MULT then a.width + b.width
                     else max a.width b.width
    let rW := createWire out_width (a.is_signed || b.is_signed) rB.2
    let rO := newOperation rT.1 rW.1 rW.2
    (some ((rO.1.addInput a).addInput b), rO.2)
  | _, _ => (none, rB.2)

/-- `NetlistGenerator::generateLogicalOp`. -/
def generateLogicalOp (available : List Signal) (s : GenState) :
    Option Operation × GenState :=
  let rT := randomPick
    [OpType.AND, OpType.OR, OpType.XOR, OpType.NOT,
     OpType.NAND, OpType.NOR, OpType.XNOR] s
  if rT.1 = OpType.NOT then
    let rA := selectRandomSignal available rT.2
    match rA.1 with
    | some a =>
      let rW := createWire a.width a.is_signed rA.2
      let rO := newOperation OpType.NOT rW.1 rW.2
      (some (rO.1.addInput a), rO.2)
    | none => (none, rA.2)
  else
    let rA := selectRandomSignal available rT.2
    let rB := selectRandomSignal available rA.2
    match rA.1, rB.1 with
    | some a, some b =>
      let rW := createWire (max a.width b.width) false rB.2
      let rO := newOperation rT.1 rW.1 rW.2
      (some ((rO.1.addInput a).addInput b), rO.2)
    | _, _ => (none, rB.2)

/-- `NetlistGenerator::generateComparisonOp`: 1-bit unsigned result. -/
def generateComparisonOp (available : List Signal) (s : GenState) :
    Option Operation × GenState :=
  let rT := randomPick
    [OpType.EQ, OpType.NEQ, OpType.LT, OpType.GT, OpType.LTE, OpType.GTE] s
  let rA := selectRandomSignal available rT.2
  let rB := selectRandomSignal available rA.2
  match rA.1, rB.1 with
  | some a, some b =>
    let rW := createWire 1 false rB.2
    let rO := newOperation rT.1 rW.1 rW.2
    (some ((rO.1.addInput a).addInput b), rO.2)
  | _, _ => (none, rB.2)

/-- `NetlistGenerator::generateShiftOp`: the shifted operand's width and
signedness. -/
def generateShiftOp (cfg : GeneratorConfig) (available : List Signal)
    (s : GenState) : Option Operation × GenState :=
  let rT := selectShiftOpType cfg s
  let rA := selectRandomSignal available rT.2
  let rB := selectRandomSignal available rA.2
  match rA.1, rB.1 with
  | some a, some b =>
    let rW := createWire a.width a.is_signed rB.2
    let rO := newOperation rT.1 rW.1 rW.2
    (some ((rO.1.addInput a).addInput b), rO.2)
  | _, _ => (none, rB.2)

/-- The MUX4 data-input collection loop: four `selectRandomSignal` draws,
keeping the non-null results. -/
def collectMuxData (available : List Signal) (n : Nat) (s : GenState) :
    List Signal × GenState :=
  (List.range n).foldl
    (fun (p : List Signal × GenState) _ =>
      let rD := selectRandomSignal available p.2
      match rD.1 with
      | some d => (p.1 ++ [d], rD.2)
      | none => (p.1, rD.2))
    ([], s)

/-- `NetlistGenerator::generateMuxOp`: `randomBool(0.3)` picks MUX4 vs
MUX2; a MUX4 selector narrower than 2 bits (or null) is replaced by a
fresh unconnected 2-bit wire. -/
def generateMuxOp (available : List Signal) (s : GenState) :
    Option Operation × GenState :=
  let rM := randomBool (3 / 10) s
  if rM.1 = false then
    let rSel := selectRandomSignal available rM.2
    let rA := selectRandomSignal available rSel.2
    let rB := selectRandomSignal available rA.2
    match rSel.1, rA.1, rB.1 with
    | some sel, some a, some b =>
      let rW := createWire (max a.width b.width) (a.is_signed || b.is_signed) rB.2
      let rO := newOperation OpType.MUX2 rW.1 rW.2
      (some (((rO.1.addInput sel).addInput a).addInput b), rO.2)
    | _, _, _ => (none, rB.2)
  else
    let rSel := selectRandomSignal available rM.2
    let rS :=
      match rSel.1 with
      | some sel => if sel.width < 2 then createWire 2 false rSel.2 else (sel, rSel.2)
      | none => createWire 2 false rSel.2
    let rD := collectMuxData available 4 rS.2
    if rD.1.length < 4 then (none, rD.2)
    else
      let rW := createWire (rD.1.headD default).width false rD.2
      let rO := newOperation OpType.MUX4 rW.1 rW.2
      (some (rD.1.foldl (fun op d => op.addInput d) (rO.1.addInput rS.1)), rO.2)

/-- The CONCAT operand collection loop. -/
def collectConcatInputs (available : List Signal) (n : Nat) (s : GenState) :
    List Signal × GenState :=
  (List.range n).foldl
    (fun (p : List Signal × GenState) _ =>
      let rD := selectRandomSignal available p.2
      match rD.1 with
      | some d => (p.1 ++ [d], rD.2)
      | none => (p.1, rD.2))
    ([], s)

/-- Sum of the collected operand widths (the `total_width` accumulator of
`generateConcatOp`). -/
def totalWidth (l : List Signal) : Int :=
  l.foldl (fun w sig => w + sig.width) 0

/-- `NetlistGenerator::generateConcatOp`: 2–4 operand draws; emitted only
when at least 2 non-null operands were collected. -/
def generateConcatOp (available : List Signal) (s : GenState) :
    Option Operation × GenState :=
  let rN := randomInt 2 4 s
  let rI := collectConcatInputs available rN.1.toNat rN.2
  if rI.1.length < 2 then (none, rI.2)
  else
    let rW := createWire (totalWidth rI.1) false rI.2
    let rO := newOperation OpType.CONCAT rW.1 rW.2
    (some (rI.1.foldl (fun op d => op.addInput d) rO.1), rO.2)

/-- `NetlistGenerator::generateReductionOp`: 1-bit unsigned result. -/
def generateReductionOp (available : List Signal) (s : GenState) :
    Option Operation × GenState :=
  let rT := randomPick
    [OpType.RED_AND, OpType.RED_OR, OpType.RED_XOR,
     OpType.RED_NAND, OpType.RED_NOR, OpType.RED_XNOR] s
  let rA := selectRandomSignal available rT.2
  match rA.1 with
  | some a =>
    let rW := createWire 1 false rA.2
    let rO := newOperation rT.1 rW.1 rW.2
    (some (rO.1.addInput a), rO.2)
  | none => (none, rA.2)

/-- The dispatch-on-enum-range `if`/`else` ladder of the `generateDatapath`
loop body, factored on the drawn kind `t`. -/
def dispatchOp (cfg : GeneratorConfig) (t : OpType) (available : List Signal)
    (s : GenState) : Option Operation × GenState :=
  if opTypeIdx OpType.ADD ≤ opTypeIdx t ∧ opTypeIdx t ≤ opTypeIdx OpType.MOD then
    generateArithmeticOp cfg available s
  else if opTypeIdx OpType.AND ≤ opTypeIdx t ∧ opTypeIdx t ≤ opTypeIdx OpType.XNOR then
    generateLogicalOp available s
  else if opTypeIdx OpType.EQ ≤ opTypeIdx t ∧ opTypeIdx t ≤ opTypeIdx OpType.GTE then
    generateComparisonOp available s
  else if opTypeIdx OpType.SLL ≤ opTypeIdx t ∧ opTypeIdx t ≤ opTypeIdx OpType.SRA then
    generateShiftOp cfg available s
  else if t = OpType.MUX2 ∨ t = OpType.MUX4 then
    generateMuxOp available s
  else if t = OpType.CONCAT then
    generateConcatOp available s
  else if opTypeIdx OpType.RED_AND ≤ opTypeIdx t ∧ opTypeIdx t ≤ opTypeIdx OpType.RED_XNOR then
    generateReductionOp available s
  else (none, s)

/-- The `if (op) operations_.push_back(op)` tail of the loop body. -/
def pushOp (r : Option Operation × GenState) : GenState :=
  match r.1 with
  | some op => { r.2 with operations := r.2.operations ++ [op] }
  | none => r.2

/-- One iteration of the `generateDatapath` loop: kind draw, operand pool
(falling back to the inputs when empty), dispatch on the kind's enum
range, and append on success. -/
def datapathStep (cfg : GeneratorConfig) (s : GenState) : GenState :=
  let rT := selectRandomOpType cfg s
  let available :=
    if (getAvailableSignals rT.2).isEmpty then rT.2.inputs
    else getAvailableSignals rT.2
  pushOp (dispatchOp cfg rT.1 available rT.2)

/-- `NetlistGenerator::generateDatapath`: `num_operations` attempts. -/
def generateDatapath (cfg : GeneratorConfig) (s : GenState) : GenState :=
  (List.range cfg.num_operations.toNat).foldl (fun s _ => datapathStep cfg s) s

/-- `NetlistGenerator::generatePipeline`: sets every operation's stage to
`depth * num_pipeline_stages / max_depth` (C++ truncated `int`
division), using the operation's depth at this point of the run. -/
def generatePipeline (cfg : GeneratorConfig) (s : GenState) : GenState :=
  { s with operations :=
      s.operations.map (fun op =>
        { op with stage :=
            Int.tdiv (op.depth * cfg.num_pipeline_stages) cfg.max_depth }) }

/-- `NetlistGenerator::assignDepths`: depth := (index in creation order)
mod `max_depth` (C++ truncated `%`). -/
def assignDepths (cfg : GeneratorConfig) (s : GenState) : GenState :=
  { s with operations :=
      s.operations.enum.map (fun p =>
        { p.2 with depth := Int.tmod (Int.ofNat p.1) cfg.max_depth }) }

/-- `NetlistGenerator::connectOutputs`: for each declared output, draw
one source from the pool and build an assignment `Operation` — which is
then dropped on the floor: the local `shared_ptr` is never stored in
`operations_` or anywhere else, so the state retains no record of the
connection (only the oracle advances and the creation stamp ticks). -/
def connectOutputs (s : GenState) : GenState :=
  let available := getAvailableSignals s
  s.outputs.foldl
    (fun s output =>
      if available.isEmpty then s
      else
        let rS := selectRandomSignal available s
        match rS.1 with
        | some source =>
          let rO := newOperation OpType.AND output rS.2
          let _ := (rO.1.addInput source).addInput source
          rO.2
        | none => rS.2)
    s

/-- One iteration of the per-output body of a single case value in
`generateCaseStatements`: either a fresh arithmetic operation feeding the
register (sharing-opportunity path, probability 0.7) or a direct
pass-through assignment. -/
def caseOutputStep (cfg : GeneratorConfig) (available : List Signal)
    (case_val : Int) (output : Signal) (p : ControlBlock × GenState) :
    ControlBlock × GenState :=
  let rSh :=
    if cfg.generate_sharing_opportunities then randomBool (7 / 10) p.2
    else (false, p.2)
  if rSh.1 then
    let rA := selectRandomSignal available rSh.2
    let rB := selectRandomSignal available rA.2
    match rA.1, rB.1 with
    | some a, some b =>
      let rT := selectArithmeticOpType cfg rB.2
      let rW := createWire (max a.width b.width) (a.is_signed || b.is_signed) rT.2
      let rO := newOperation rT.1 rW.1 rW.2
      (((p.1.addCaseOperation case_val ((rO.1.addInput a).addInput b)).addCaseAssignment
          case_val output rW.1), rO.2)
    | _, _ => (p.1, rB.2)
  else
    let rI := selectRandomSignal available rSh.2
    match rI.1 with
    | some inp => (p.1.addCaseAssignment case_val output inp, rI.2)
    | none => (p.1, rI.2)

/-- One iteration of the register-output creation loop: a fresh register
with a random width and optional random signedness. -/
def blockOutputsBody (cfg : GeneratorConfig) (p : List Signal × GenState)
    (_i : Nat) : List Signal × GenState :=
  let rW := generateRandomWidth cfg p.2
  let rS := if cfg.use_signed then randomBool (1 / 2) rW.2 else (false, rW.2)
  let rR := createReg rW.1 rS.1 rS.2
  (p.1 ++ [rR.1], rR.2)

/-- The register-output creation loop shared by `generateCaseStatements`
and `generateIfElseChains`: 1–3 fresh registers with random widths. -/
def createBlockOutputs (cfg : GeneratorConfig) (n : Nat) (s : GenState) :
    List Signal × GenState :=
  (List.range n).foldl (blockOutputsBody cfg) ([], s)

/-- One iteration of the default-case assignment collection loop. -/
def defaultAssignBody (available : List Signal)
    (p : List (Signal × Signal) × GenState) (output : Signal) :
    List (Signal × Signal) × GenState :=
  let rI := selectRandomSignal available p.2
  match rI.1 with
  | some inp => (p.1 ++ [(output, inp)], rI.2)
  | none => (p.1, rI.2)

/-- The default-case assignment collection loop of
`generateCaseStatements`. -/
def collectDefaultAssigns (available : List Signal) (case_outputs : List Signal)
    (s : GenState) : List (Signal × Signal) × GenState :=
  case_outputs.foldl (defaultAssignBody available) ([], s)

/-- One iteration of the `generateCaseStatements` outer loop: selector
pick, case-count computation `min(1 << min(width, 4), cases_per_statement)`,
register outputs, per-case population, default case, and push. -/
def caseStatementStep (cfg : GeneratorConfig) (s : GenState) : GenState :=
  let available := getAvailableSignals s
  if available.isEmpty then s
  else
    let rSel := selectRandomSignal available s
    match rSel.1 with
    | none => rSel.2
    | some selector =>
      let max_case_value : Int :=
        min (2 ^ (min selector.width 4).toNat) cfg.cases_per_statement
      let cb0 : ControlBlock := ⟨ControlType.CASE_STATEMENT, some selector, [], [], []⟩
      let rN := randomInt 1 3 rSel.2
      let rOuts := createBlockOutputs cfg rN.1.toNat rN.2
      let rCB :=
        (List.range max_case_value.toNat).foldl
          (fun (p : ControlBlock × GenState) case_val =>
            rOuts.1.foldl
              (fun q output => caseOutputStep cfg available (Int.ofNat case_val) output q)
              (p.1.addCase (Int.ofNat case_val), p.2))
          (cb0, rOuts.2)
      let rDef := collectDefaultAssigns available rOuts.1 rCB.2
      { rDef.2 with control_blocks :=
          rDef.2.control_blocks ++ [rCB.1.setDefaultCase rDef.1] }

/-- `NetlistGenerator::generateCaseStatements`: the repetition count is
`num_case_statements` when positive, else 2 when the boolean flag is set,
else 0. -/
def generateCaseStatements (cfg : GeneratorConfig) (s : GenState) : GenState :=
  let n : Nat :=
    if 0 < cfg.num_case_statements then cfg.num_case_statements.toNat
    else if cfg.generate_case_statements then 2 else 0
  (List.range n).foldl (fun s _ => caseStatementStep cfg s) s

/-- One iteration of the per-output body of one branch in
`generateIfElseChains`: with sharing enabled and probability 0.8, a fresh
`MULT` ("the deliberately expensive op") with width `w(a) + w(b)` drives
the register; otherwise a direct assignment. -/
def branchOutputStep (cfg : GeneratorConfig) (available : List Signal)
    (branch : Nat) (output : Signal) (p : ControlBlock × GenState) :
    ControlBlock × GenState :=
  let rSh :=
    if cfg.generate_sharing_opportunities then randomBool (4 / 5) p.2
    else (false, p.2)
  if rSh.1 then
    let rA := selectRandomSignal available rSh.2
    let rB := selectRandomSignal available rA.2
    match rA.1, rB.1 with
    | some a, some b =>
      let rW := createWire (a.width + b.width) (a.is_signed || b.is_signed) rB.2
      let rO := newOperation OpType.MULT rW.1 rW.2
      (((p.1.addBranchOperation branch ((rO.1.addInput a).addInput b)).addBranchAssignment
          branch output rW.1), rO.2)
    | _, _ => (p.1, rB.2)
  else
    let rI := selectRandomSignal available rSh.2
    match rI.1 with
    | some inp => (p.1.addBranchAssignment branch output inp, rI.2)
    | none => (p.1, rI.2)

/-- One branch of an if/else chain: all but the last get a condition
drawn from the pool (a null condition skips the whole branch, `continue`),
the last is the unconditional else; then the per-output body. -/
def branchStep (cfg : GeneratorConfig) (available : List Signal)
    (num_branches : Nat) (shared_outputs : List Signal) (branch : Nat)
    (p : ControlBlock × GenState) : ControlBlock × GenState :=
  if branch < num_branches - 1 then
    let rC := selectRandomSignal available p.2
    match rC.1 with
    | none => (p.1, rC.2)
    | some cond =>
      shared_outputs.foldl
        (fun q output => branchOutputStep cfg available branch output q)
        (p.1.addBranch cond, rC.2)
  else
    shared_outputs.foldl
      (fun q output => branchOutputStep cfg available branch output q)
      (p.1.addElseBranch, p.2)

/-- One iteration of the `generateIfElseChains` outer loop: needs at
least 3 pool signals; 1–3 shared register outputs; 2–4 branches. -/
def ifElseChainStep (cfg : GeneratorConfig) (s : GenState) : GenState :=
  let available := getAvailableSignals s
  if available.length < 3 then s
  else
    let cb0 : ControlBlock := ⟨ControlType.IF_ELSE_CHAIN, none, [], [], []⟩
    let rN := randomInt 1 3 s
    let rOuts := createBlockOutputs cfg rN.1.toNat rN.2
    let rB := randomInt 2 4 rOuts.2
    let rCB :=
      (List.range rB.1.toNat).foldl
        (fun (p : ControlBlock × GenState) branch =>
          branchStep cfg available rB.1.toNat rOuts.1 branch p)
        (cb0, rB.2)
    { rCB.2 with control_blocks := rCB.2.control_blocks ++ [rCB.1] }

/-- `NetlistGenerator::generateIfElseChains`. -/
def generateIfElseChains (cfg : GeneratorConfig) (s : GenState) : GenState :=
  let n : Nat :=
    if 0 < cfg.num_if_else_chains then cfg.num_if_else_chains.toNat
    else if cfg.generate_if_else_chains then 2 else 0
  (List.range n).foldl (fun s _ => ifElseChainStep cfg s) s

/-- The inner operation loop of one sharing group in
`generateSharingOpportunities`: 70% `MULT` (width `w(a)+w(b)`), else
`ADD` (width `max`), appended directly to the main operation sequence. -/
def sharingOpStep (_cfg : GeneratorConfig) (available : List Signal)
    (s : GenState) : GenState :=
  let rA := selectRandomSignal available s
  let rB := selectRandomSignal available rA.2
  match rA.1, rB.1 with
  | some a, some b =>
    let rM := randomBool (7 / 10) rB.2
    let op_type := if rM.1 then OpType.MULT else OpType.ADD
    let out_width := if op_type = OpType.MULT then a.width + b.width
                     else max a.width b.width
    let rW := createWire out_width (a.is_signed || b.is_signed) rM.2
    let rO := newOperation op_type rW.1 rW.2
    { rO.2 with operations := rO.2.operations ++ [(rO.1.addInput a).addInput b] }
  | _, _ => rB.2

/-- One sharing group: an "enable" pick (recorded nowhere) and 2–3
standalone operations. -/
def sharingGroupStep (cfg : GeneratorConfig) (available : List Signal)
    (s : GenState) : GenState :=
  let rE := selectRandomSignal available s
  match rE.1 with
  | none => rE.2
  | some _ =>
    let rN := randomInt 2 3 rE.2
    (List.range rN.1.toNat).foldl
      (fun s _ => sharingOpStep cfg available s) rN.2

/-- `NetlistGenerator::generateSharingOpportunities`: needs at least 4
pool signals; 1–3 groups. -/
def generateSharingOpportunities (cfg : GeneratorConfig) (s : GenState) : GenState :=
  let available := getAvailableSignals s
  if available.length < 4 then s
  else
    let rN := randomInt 1 3 s
    (List.range rN.1.toNat).foldl
      (fun s _ => sharingGroupStep cfg available s) rN.2

/-- `NetlistGenerator::generateControlBlocks`. -/
def generateControlBlocks (cfg : GeneratorConfig) (s : GenState) : GenState :=
  let s :=
    if cfg.generate_case_statements ∨ 0 < cfg.num_case_statements then
      generateCaseStatements cfg s
    else s
  let s :=
    if cfg.generate_if_else_chains ∨ 0 < cfg.num_if_else_chains then
      generateIfElseChains cfg s
    else s
  if cfg.generate_sharing_opportunities then generateSharingOpportunities cfg s
  else s

/-- The empty run state (fresh `NetlistGenerator`), seeded with an
oracle. -/
def initState (oracle : List Nat) : GenState :=
  ⟨oracle, [], [], [], [], [], [], 0, 0⟩

/-- `NetlistGenerator::generate`: the phase sequence of the source —
inputs, outputs, datapath, pipeline tagging (only when
`num_pipeline_stages > 0`), control blocks, output connection, depth
assignment. -/
def generate (cfg : GeneratorConfig) (oracle : List Nat) : GenState :=
  let s := initState oracle
  let s := generateInputs cfg s
  let s := generateOutputs cfg s
  let s := generateDatapath cfg s
  let s := if 0 < cfg.num_pipeline_stages then generatePipeline cfg s else s
  let s := generateControlBlocks cfg s
  let s := connectOutputs s
  assignDepths cfg s

/-- `GeneratorConfig::validate` from `config.cpp`: the exact chain of
checks of the source (note: `max_depth`, `num_pipeline_stages` and the
control-flow counts are never examined). -/
def GeneratorConfig.validate (cfg : GeneratorConfig) : Bool :=
  if cfg.num_inputs < 1 ∨ 1000 < cfg.num_inputs then false
  else if cfg.num_outputs < 1 ∨ 1000 < cfg.num_outputs then false
  else if cfg.input_width_min < 1 ∨ cfg.input_width_max < cfg.input_width_min then false
  else if cfg.output_width_min < 1 ∨ cfg.output_width_max < cfg.output_width_min then false
  else if cfg.num_operations < 1 then false
  else if cfg.weight_arithmetic + cfg.weight_logical + cfg.weight_comparison +
          cfg.weight_shift + cfg.weight_mux + cfg.weight_concat +
          cfg.weight_reduction ≤ 0 then false
  else true

/-- `std::stod` abstracted to an exact decimal-fraction reader over ℚ:
an optional integer part, an optional `.` and fraction digits.  `none`
models a parse exception. -/
def parseRat? (s : String) : Option ℚ :=
  match s.splitOn "." with
  | [a] => a.toInt?.map (fun n => (n : ℚ))
  | [a, b] =>
    match a.toInt?, b.toNat? with
    | some i, some f =>
      let mag : ℚ := ((i.natAbs : ℚ)) + (f : ℚ) / ((10 : ℚ) ^ b.length)
      some (if s.startsWith "-" then -mag else mag)
    | _, _ => none
  | _ => none

/-- `seed = <value>`: `std::stoul` + assignment (one dispatch arm of
`loadFromFile`). -/
def updSeed (cfg : GeneratorConfig) (value : String) : Option GeneratorConfig :=
  value.toNat?.map (fun v => { cfg with seed := v })

/-- `module_name = <value>` dispatch arm. -/
def updModuleName (cfg : GeneratorConfig) (value : String) : Option GeneratorConfig :=
  some { cfg with module_name := value }

/-- `num_inputs = <value>` dispatch arm. -/
def updNumInputs (cfg : GeneratorConfig) (value : String) : Option GeneratorConfig :=
  value.toInt?.map (fun v => { cfg with num_inputs := v })

/-- `num_outputs = <value>` dispatch arm. -/
def updNumOutputs (cfg : GeneratorConfig) (value : String) : Option GeneratorConfig :=
  value.toInt?.map (fun v => { cfg with num_outputs := v })

/-- `input_width_min = <value>` dispatch arm. -/
def updInputWidthMin (cfg : GeneratorConfig) (value : String) : Option GeneratorConfig :=
  value.toInt?.map (fun v => { cfg with input_width_min := v })

/-- `input_width_max = <value>` dispatch arm. -/
def updInputWidthMax (cfg : GeneratorConfig) (value : String) : Option GeneratorConfig :=
  value.toInt?.map (fun v => { cfg with input_width_max := v })

/-- `output_width_min = <value>` dispatch arm. -/
def updOutputWidthMin (cfg : GeneratorConfig) (value : String) : Option GeneratorConfig :=
  value.toInt?.map (fun v => { cfg with output_width_min := v })

/-- `output_width_max = <value>` dispatch arm. -/
def updOutputWidthMax (cfg : GeneratorConfig) (value : String) : Option GeneratorConfig :=
  value.toInt?.map (fun v => { cfg with output_width_max := v })

/-- `num_operations = <value>` dispatch arm. -/
def updNumOperations (cfg : GeneratorConfig) (value : String) : Option GeneratorConfig :=
  value.toInt?.map (fun v => { cfg with num_operations := v })

/-- `max_depth = <value>` dispatch arm. -/
def updMaxDepth (cfg : GeneratorConfig) (value : String) : Option GeneratorConfig :=
  value.toInt?.map (fun v => { cfg with max_depth := v })

/-- `num_pipeline_stages = <value>` dispatch arm. -/
def updNumPipelineStages (cfg : GeneratorConfig) (value : String) : Option GeneratorConfig :=
  value.toInt?.map (fun v => { cfg with num_pipeline_stages := v })

/-- `weight_arithmetic = <value>` dispatch arm. -/
def updWeightArithmetic (cfg : GeneratorConfig) (value : String) : Option GeneratorConfig :=
  (parseRat? value).map (fun v => { cfg with weight_arithmetic := v })

/-- `weight_logical = <value>` dispatch arm. -/
def updWeightLogical (cfg : GeneratorConfig) (value : String) : Option GeneratorConfig :=
  (parseRat? value).map (fun v => { cfg with weight_logical := v })

/-- `weight_comparison = <value>` dispatch arm. -/
def updWeightComparison (cfg : GeneratorConfig) (value : String) : Option GeneratorConfig :=
  (parseRat? value).map (fun v => { cfg with weight_comparison := v })

/-- `weight_shift = <value>` dispatch arm. -/
def updWeightShift (cfg : GeneratorConfig) (value : String) : Option GeneratorConfig :=
  (parseRat? value).map (fun v => { cfg with weight_shift := v })

/-- `weight_mux = <value>` dispatch arm. -/
def updWeightMux (cfg : GeneratorConfig) (value : String) : Option GeneratorConfig :=
  (parseRat? value).map (fun v => { cfg with weight_mux := v })

/-- `weight_concat = <value>` dispatch arm. -/
def updWeightConcat (cfg : GeneratorConfig) (value : String) : Option GeneratorConfig :=
  (parseRat? value).map (fun v => { cfg with weight_concat := v })

/-- `weight_reduction = <value>` dispatch arm. -/
def updWeightReduction (cfg : GeneratorConfig) (value : String) : Option GeneratorConfig :=
  (parseRat? value).map (fun v => { cfg with weight_reduction := v })

/-- `output_file = <value>` dispatch arm. -/
def updOutputFile (cfg : GeneratorConfig) (value : String) : Option GeneratorConfig :=
  some { cfg with output_file := value }

/-- `verbose = <value>` dispatch arm (`value == "true" || value == "1"`). -/
def updVerbose (cfg : GeneratorConfig) (value : String) : Option GeneratorConfig :=
  some { cfg with verbose := decide (value = "true" ∨ value = "1") }

/-- The recognised-key dispatch chain of `loadFromFile`, in source
order; an unrecognised key only warns and assigns nothing. -/
def configDispatch (cfg : GeneratorConfig) (key value : String) : Option GeneratorConfig :=
  if key = "seed" then updSeed cfg value
  else if key = "module_name" then updModuleName cfg value
  else if key = "num_inputs" then updNumInputs cfg value
  else if key = "num_outputs" then updNumOutputs cfg value
  else if key = "input_width_min" then updInputWidthMin cfg value
  else if key = "input_width_max" then updInputWidthMax cfg value
  else if key = "output_width_min" then updOutputWidthMin cfg value
  else if key = "output_width_max" then updOutputWidthMax cfg value
  else if key = "num_operations" then updNumOperations cfg value
  else if key = "max_depth" then updMaxDepth cfg value
  else if key = "num_pipeline_stages" then updNumPipelineStages cfg value
  else if key = "weight_arithmetic" then updWeightArithmetic cfg value
  else if key = "weight_logical" then updWeightLogical cfg value
  else if key = "weight_comparison" then updWeightComparison cfg value
  else if key = "weight_shift" then updWeightShift cfg value
  else if key = "weight_mux" then updWeightMux cfg value
  else if key = "weight_concat" then updWeightConcat cfg value
  else if key = "weight_reduction" then updWeightReduction cfg value
  else if key = "output_file" then updOutputFile cfg value
  else if key = "verbose" then updVerbose cfg value
  else some cfg

/-- One line of `GeneratorConfig::loadFromFile`: skip empty/comment
lines and lines without `=` (or with nothing after `=`, where the C++
`getline` for the value fails); otherwise trim key and value and run the
recognised-key dispatch chain.  `none` models a parse exception
(`std::stoi`/`std::stoul`/`std::stod` throwing), which makes the whole
load return `false`. -/
def applyConfigLine (cfg : GeneratorConfig) (line : String) : Option GeneratorConfig :=
  if line.isEmpty ∨ line.front = '#' then some cfg
  else
    match line.splitOn "=" with
    | [] => some cfg
    | [_] => some cfg
    | k :: vs =>
      if String.intercalate "=" vs = "" then some cfg
      else configDispatch cfg k.trim (String.intercalate "=" vs).trim

/-- The line loop of `loadFromFile`: stops (returning `false`) at the
first parse exception, keeping the assignments of the earlier lines. -/
def loadLinesAux : GeneratorConfig → List String → Bool × GeneratorConfig
  | cfg, [] => (true, cfg)
  | cfg, l :: ls =>
    match applyConfigLine cfg l with
    | some cfg2 => loadLinesAux cfg2 ls
    | none => (false, cfg)

/-- `GeneratorConfig::loadFromFile`, over the file's line list (the
stream I/O is abstracted away): processes each line, then returns
`validate()`. -/
def GeneratorConfig.loadFromFile (cfg : GeneratorConfig) (lines : List String) :
    Bool × GeneratorConfig :=
  let p := loadLinesAux cfg lines
  if p.1 then (p.2.validate, p.2) else (false, p.2)

/-- A state that differs from `s` only in the remaining oracle (the
footprint of a pure random draw). -/
def withOracle (s : GenState) (o : List Nat) : GenState :=
  { s with oracle := o }

/-- All operations held inside a control block (case bodies and branch
bodies). -/
def blockOps (cb : ControlBlock) : List Operation :=
  cb.cases.flatMap CaseItem.operations ++ cb.branches.flatMap ConditionalBranch.operations

/-- An operation is part of the exposed graph if it is in the main
operation sequence or inside some control block. -/
def inGraph (s : GenState) (op : Operation) : Prop :=
  op ∈ s.operations ∨ ∃ cb ∈ s.control_blocks, op ∈ blockOps cb

instance (s : GenState) (op : Operation) : Decidable (inGraph s op) := by
  unfold inGraph; infer_instance

/-- The arity demanded by `Operation::getRequiredOperands`: exact for
every kind except concatenation, where 2 is a minimum. -/
def requiredOperandsOk (op : Operation) : Prop :=
  if op.type = OpType.CONCAT then 2 ≤ op.inputs.length
  else op.inputs.length = Operation.getRequiredOperands op.type

instance : DecidablePred requiredOperandsOk := fun op => by
  unfold requiredOperandsOk; infer_instance

/-- Invariant satisfied by every operation the generator ever retains,
at the moment of its creation: correct arity, a fresh wire as output,
operands created strictly earlier, and depth/stage still `0`. -/
def OpGood (op : Operation) : Prop :=
  requiredOperandsOk op ∧
  op.output.type = SignalType.WIRE ∧
  (∀ sig ∈ op.inputs, sig.uid < op.stamp) ∧
  op.depth = 0 ∧ op.stage = 0

/-- What survives of `OpGood` after the final `assignDepths` pass (which
rewrites only the depth field). -/
def OpGoodFinal (op : Operation) : Prop :=
  requiredOperandsOk op ∧
  op.output.type = SignalType.WIRE ∧
  (∀ sig ∈ op.inputs, sig.uid < op.stamp) ∧
  op.stage = 0

/-- The mutual-exclusivity structure of one control block: a single list
of register outputs written, in the same order, by every case, by the
default case (for case statements), and by every branch. -/
def GoodBlock (cb : ControlBlock) : Prop :=
  ∃ regs : List Signal,
    (∀ r ∈ regs, r.type = SignalType.REG) ∧
    (∀ c ∈ cb.cases, c.assignments.map Prod.fst = regs) ∧
    (cb.type = ControlType.CASE_STATEMENT →
      cb.default_assignments.map Prod.fst = regs) ∧
    (∀ b ∈ cb.branches, b.assignments.map Prod.fst = regs)

/-- Every operand candidate (input or wire) was created before the
current stamp. -/
def PoolGood (s : GenState) : Prop :=
  (∀ sig ∈ s.inputs, sig.uid < s.stamp) ∧
  (∀ sig ∈ s.wires, sig.uid < s.stamp)

/-- The run-wide invariant maintained by every phase before
`assignDepths`. -/
def GenInv (s : GenState) : Prop :=
  PoolGood s ∧
  (∀ op ∈ s.operations, OpGood op) ∧
  (∀ cb ∈ s.control_blocks, (∀ op ∈ blockOps cb, OpGood op) ∧ GoodBlock cb)

/-- The configuration fields `loadFromFile` can never touch: the six
control-flow parameters and the eight per-subcategory weights. -/
def sameControlParams (a b : GeneratorConfig) : Prop :=
  a.generate_case_statements = b.generate_case_statements ∧
  a.generate_if_else_chains = b.generate_if_else_chains ∧
  a.generate_sharing_opportunities = b.generate_sharing_opportunities ∧
  a.num_case_statements = b.num_case_statements ∧
  a.num_if_else_chains = b.num_if_else_chains ∧
  a.cases_per_statement = b.cases_per_statement ∧
  a.weight_add = b.weight_add ∧ a.weight_sub = b.weight_sub ∧
  a.weight_mult = b.weight_mult ∧ a.weight_div = b.weight_div ∧
  a.weight_mod = b.weight_mod ∧ a.weight_sll = b.weight_sll ∧
  a.weight_srl = b.weight_srl ∧ a.weight_sra = b.weight_sra

/-- A fixed small configuration used for the concrete runs below: one
8-bit unsigned input, one 8-bit output, one `add`-weighted arithmetic
operation, no control flow. -/
def cfgBase : GeneratorConfig :=
  { seed := 0, module_name := "m", num_inputs := 1, num_outputs := 1,
    input_width_min := 8, input_width_max := 8,
    output_width_min := 8, output_width_max := 8,
    num_operations := 1, max_depth := 10, num_pipeline_stages := 0,
    weight_arithmetic := 1, weight_logical := 0, weight_comparison := 0,
    weight_shift := 0, weight_mux := 0, weight_concat := 0, weight_reduction := 0,
    weight_add := 1, weight_sub := 0, weight_mult := 0, weight_div := 0, weight_mod := 0,
    weight_sll := 0, weight_srl := 0, weight_sra := 0,
    use_parameters := false, use_signed := false, use_tristate := false,
    generate_testbench := false,
    generate_case_statements := false, generate_if_else_chains := false,
    generate_sharing_opportunities := false,
    num_case_statements := 0, num_if_else_chains := 0, cases_per_statement := 0,
    output_file := "o", verbose := false }

/-- Configuration producing one case statement with a sharing-path
`MULT` inside its single case (multiplication is the only arithmetic
kind with positive weight). -/
def cfgCaseMult : GeneratorConfig :=
  { cfgBase with
    weight_add := 0, weight_mult := 1,
    generate_sharing_opportunities := true,
    num_case_statements := 1, cases_per_statement := 1 }

/-- Oracle for `cfgCaseMult`: all draws pick the first candidate, except
the `randomBool(0.7)` draw inside the case body, which picks the
sharing (operation) path. -/
def oracleCaseMult : List Nat := [0, 0, 0, 0, 0, 0, 0, 0, 0, 1, 0, 0, 0, 0, 0]

/-- The concrete scenario of the spec (§8): two 8-bit unsigned inputs,
one 8-bit output, a single `add` operation. -/
def cfgScenario : GeneratorConfig :=
  { cfgBase with num_inputs := 2 }

/-- Oracle for `cfgScenario`: every draw picks the first candidate. -/
def oracleScenario : List Nat := [0, 0, 0, 0, 0, 0, 0, 0]

/-- Two `add` operations, `max_depth = 2`, two pipeline stages: the
operation at index 1 receives depth 1 from `assignDepths` but its stage
was computed earlier, from depth 0. -/
def cfgPipeline : GeneratorConfig :=
  { cfgBase with
    num_outputs := 0, num_operations := 2, max_depth := 2,
    num_pipeline_stages := 2 }

/-- Oracle for `cfgPipeline`: every draw picks the first candidate. -/
def oraclePipeline : List Nat := [0, 0, 0, 0, 0, 0, 0, 0, 0]

/-- No inputs, positive mux weight: a failed 4-way-mux attempt leaves a
fallback selector wire behind, which a later `add` attempt can consume. -/
def cfgNoInputsMux : GeneratorConfig :=
  { cfgBase with
    num_inputs := 0, num_outputs := 0, num_operations := 2,
    weight_mux := 1 }

/-- Oracle for `cfgNoInputsMux`: first attempt draws the mux category
and the MUX4 variant, second attempt draws the arithmetic category. -/
def oracleNoInputsMux : List Nat := [1, 1, 0, 0, 0, 0]

/-- No inputs and zero mux weight (the amended C5 hypothesis). -/
def cfgNoInputs : GeneratorConfig :=
  { cfgBase with num_inputs := 0, num_operations := 2 }

/-- A configuration with `max_depth = 0` that `validate` accepts. -/
def cfgDepth0 : GeneratorConfig :=
  { cfgBase with max_depth := 0 }

/-- The state footprint common to every step of a run before
`assignDepths`: declared inputs and outputs do not change, the creation
stamp only grows, and every wire is either an old one or was created
below the new stamp. -/
def StateFrame (s s' : GenState) : Prop :=
  s'.inputs = s.inputs ∧ s'.outputs = s.outputs ∧
  s.stamp ≤ s'.stamp ∧
  (∀ w ∈ s'.wires, w ∈ s.wires ∨ w.uid < s'.stamp)

/-- The contract of the seven `generateXOp` helpers: apart from new
wires and consumed oracle, the state is untouched, and any returned
operation satisfies `OpGood`. -/
def GenOpSpec (s : GenState) (r : Option Operation × GenState) : Prop :=
  StateFrame s r.2 ∧ r.2.regs = s.regs ∧ r.2.operations = s.operations ∧
  r.2.control_blocks = s.control_blocks ∧
  (∀ op, r.1 = some op → OpGood op)

theorem sameControlParams_refl (a : GeneratorConfig) : sameControlParams a a := by
  unfold sameControlParams
  exact ⟨rfl, rfl, rfl, rfl, rfl, rfl, rfl, rfl, rfl, rfl, rfl, rfl, rfl, rfl⟩

theorem sameControlParams_trans {a b c : GeneratorConfig}
    (h1 : sameControlParams a b) (h2 : sameControlParams b c) :
    sameControlParams a c := by
  unfold sameControlParams at h1 h2 ⊢
  obtain ⟨x1, x2, x3, x4, x5, x6, x7, x8, x9, x10, x11, x12, x13, x14⟩ := h1
  obtain ⟨y1, y2, y3, y4, y5, y6, y7, y8, y9, y10, y11, y12, y13, y14⟩ := h2
  exact ⟨x1.trans y1, x2.trans y2, x3.trans y3, x4.trans y4, x5.trans y5,
    x6.trans y6, x7.trans y7, x8.trans y8, x9.trans y9, x10.trans y10,
    x11.trans y11, x12.trans y12, x13.trans y13, x14.trans y14⟩

theorem updSeed_frame {cfg cfg2 : GeneratorConfig} {value : String}
    (h : updSeed cfg value = some cfg2) : sameControlParams cfg2 cfg := by
  unfold updSeed at h
  simp only [Option.map_eq_some'] at h
  obtain ⟨v, -, rfl⟩ := h
  unfold sameControlParams
  exact ⟨rfl, rfl, rfl, rfl, rfl, rfl, rfl, rfl, rfl, rfl, rfl, rfl, rfl, rfl⟩

theorem updNumInputs_frame {cfg cfg2 : GeneratorConfig} {value : String}
    (h : updNumInputs cfg value = some cfg2) : sameControlParams cfg2 cfg := by
  unfold updNumInputs at h
  simp only [Option.map_eq_some'] at h
  obtain ⟨v, -, rfl⟩ := h
  unfold sameControlParams
  exact ⟨rfl, rfl, rfl, rfl, rfl, rfl, rfl, rfl, rfl, rfl, rfl, rfl, rfl, rfl⟩

theorem updNumOutputs_frame {cfg cfg2 : GeneratorConfig} {value : String}
    (h : updNumOutputs cfg value = some cfg2) : sameControlParams cfg2 cfg := by
  unfold updNumOutputs at h
  simp only [Option.map_eq_some'] at h
  obtain ⟨v, -, rfl⟩ := h
  unfold sameControlParams
  exact ⟨rfl, rfl, rfl, rfl, rfl, rfl, rfl, rfl, rfl, rfl, rfl, rfl, rfl, rfl⟩

theorem updInputWidthMin_frame {cfg cfg2 : GeneratorConfig} {value : String}
    (h : updInputWidthMin cfg value = some cfg2) : sameControlParams cfg2 cfg := by
  unfold updInputWidthMin at h
  simp only [Option.map_eq_some'] at h
  obtain ⟨v, -, rfl⟩ := h
  unfold sameControlParams
  exact ⟨rfl, rfl, rfl, rfl, rfl, rfl, rfl, rfl, rfl, rfl, rfl, rfl, rfl, rfl⟩

theorem updInputWidthMax_frame {cfg cfg2 : GeneratorConfig} {value : String}
    (h : updInputWidthMax cfg value = some cfg2) : sameControlParams cfg2 cfg := by
  unfold updInputWidthMax at h
  simp only [Option.map_eq_some'] at h
  obtain ⟨v, -, rfl⟩ := h
  unfold sameControlParams
  exact ⟨rfl, rfl, rfl, rfl, rfl, rfl, rfl, rfl, rfl, rfl, rfl, rfl, rfl, rfl⟩

theorem updOutputWidthMin_frame {cfg cfg2 : GeneratorConfig} {value : String}
    (h : updOutputWidthMin cfg value = some cfg2) : sameControlParams cfg2 cfg := by
  unfold updOutputWidthMin at h
  simp only [Option.map_eq_some'] at h
  obtain ⟨v, -, rfl⟩ := h
  unfold sameControlParams
  exact ⟨rfl, rfl, rfl, rfl, rfl, rfl, rfl, rfl, rfl, rfl, rfl, rfl, rfl, rfl⟩

theorem updOutputWidthMax_frame {cfg cfg2 : GeneratorConfig} {value : String}
    (h : updOutputWidthMax cfg value = some cfg2) : sameControlParams cfg2 cfg := by
  unfold updOutputWidthMax at h
  simp only [Option.map_eq_some'] at h
  obtain ⟨v, -, rfl⟩ := h
  unfold sameControlParams
  exact ⟨rfl, rfl, rfl, rfl, rfl, rfl, rfl, rfl, rfl, rfl, rfl, rfl, rfl, rfl⟩

theorem updNumOperations_frame {cfg cfg2 : GeneratorConfig} {value : String}
    (h : updNumOperations cfg value = some cfg2) : sameControlParams cfg2 cfg := by
  unfold updNumOperations at h
  simp only [Option.map_eq_some'] at h
  obtain ⟨v, -, rfl⟩ := h
  unfold sameControlParams
  exact ⟨rfl, rfl, rfl, rfl, rfl, rfl, rfl, rfl, rfl, rfl, rfl, rfl, rfl, rfl⟩

theorem updMaxDepth_frame {cfg cfg2 : GeneratorConfig} {value : String}
    (h : updMaxDepth cfg value = some cfg2) : sameControlParams cfg2 cfg := by
  unfold updMaxDepth at h
  simp only [Option.map_eq_some'] at h
  obtain ⟨v, -, rfl⟩ := h
  unfold sameControlParams
  exact ⟨rfl, rfl, rfl, rfl, rfl, rfl, rfl, rfl, rfl, rfl, rfl, rfl, rfl, rfl⟩

theorem updNumPipelineStages_frame {cfg cfg2 : GeneratorConfig} {value : String}
    (h : updNumPipelineStages cfg value = some cfg2) : sameControlParams cfg2 cfg := by
  unfold updNumPipelineStages at h
  simp only [Option.map_eq_some'] at h
  obtain ⟨v, -, rfl⟩ := h
  unfold sameControlParams
  exact ⟨rfl, rfl, rfl, rfl, rfl, rfl, rfl, rfl, rfl, rfl, rfl, rfl, rfl, rfl⟩

theorem updWeightArithmetic_frame {cfg cfg2 : GeneratorConfig} {value : String}
    (h : updWeightArithmetic cfg value = some cfg2) : sameControlParams cfg2 cfg := by
  unfold updWeightArithmetic at h
  simp only [Option.map_eq_some'] at h
  obtain ⟨v, -, rfl⟩ := h
  unfold sameControlParams
  exact ⟨rfl, rfl, rfl, rfl, rfl, rfl, rfl, rfl, rfl, rfl, rfl, rfl, rfl, rfl⟩

theorem updWeightLogical_frame {cfg cfg2 : GeneratorConfig} {value : String}
    (h : updWeightLogical cfg value = some cfg2) : sameControlParams cfg2 cfg := by
  unfold updWeightLogical at h
  simp only [Option.map_eq_some'] at h
  obtain ⟨v, -, rfl⟩ := h
  unfold sameControlParams
  exact ⟨rfl, rfl, rfl, rfl, rfl, rfl, rfl, rfl, rfl, rfl, rfl, rfl, rfl, rfl⟩

theorem updWeightComparison_frame {cfg cfg2 : GeneratorConfig} {value : String}
    (h : updWeightComparison cfg value = some cfg2) : sameControlParams cfg2 cfg := by
  unfold updWeightComparison at h
  simp only [Option.map_eq_some'] at h
  obtain ⟨v, -, rfl⟩ := h
  unfold sameControlParams
  exact ⟨rfl, rfl, rfl, rfl, rfl, rfl, rfl, rfl, rfl, rfl, rfl, rfl, rfl, rfl⟩

theorem updWeightShift_frame {cfg cfg2 : GeneratorConfig} {value : String}
    (h : updWeightShift cfg value = some cfg2) : sameControlParams cfg2 cfg := by
  unfold updWeightShift at h
  simp only [Option.map_eq_some'] at h
  obtain ⟨v, -, rfl⟩ := h
  unfold sameControlParams
  exact ⟨rfl, rfl, rfl, rfl, rfl, rfl, rfl, rfl, rfl, rfl, rfl, rfl, rfl, rfl⟩

theorem updWeightMux_frame {cfg cfg2 : GeneratorConfig} {value : String}
    (h : updWeightMux cfg value = some cfg2) : sameControlParams cfg2 cfg := by
  unfold updWeightMux at h
  simp only [Option.map_eq_some'] at h
  obtain ⟨v, -, rfl⟩ := h
  unfold sameControlParams
  exact ⟨rfl, rfl, rfl, rfl, rfl, rfl, rfl, rfl, rfl, rfl, rfl, rfl, rfl, rfl⟩

theorem updWeightConcat_frame {cfg cfg2 : GeneratorConfig} {value : String}
    (h : updWeightConcat cfg value = some cfg2) : sameControlParams cfg2 cfg := by
  unfold updWeightConcat at h
  simp only [Option.map_eq_some'] at h
  obtain ⟨v, -, rfl⟩ := h
  unfold sameControlParams
  exact ⟨rfl, rfl, rfl, rfl, rfl, rfl, rfl, rfl, rfl, rfl, rfl, rfl, rfl, rfl⟩

theorem updWeightReduction_frame {cfg cfg2 : GeneratorConfig} {value : String}
    (h : updWeightReduction cfg value = some cfg2) : sameControlParams cfg2 cfg := by
  unfold updWeightReduction at h
  simp only [Option.map_eq_some'] at h
  obtain ⟨v, -, rfl⟩ := h
  unfold sameControlParams
  exact ⟨rfl, rfl, rfl, rfl, rfl, rfl, rfl, rfl, rfl, rfl, rfl, rfl, rfl, rfl⟩

theorem updModuleName_frame {cfg cfg2 : GeneratorConfig} {value : String}
    (h : updModuleName cfg value = some cfg2) : sameControlParams cfg2 cfg := by
  unfold updModuleName at h
  simp only [Option.some.injEq] at h
  subst h
  unfold sameControlParams
  exact ⟨rfl, rfl, rfl, rfl, rfl, rfl, rfl, rfl, rfl, rfl, rfl, rfl, rfl, rfl⟩

theorem updOutputFile_frame {cfg cfg2 : GeneratorConfig} {value : String}
    (h : updOutputFile cfg value = some cfg2) : sameControlParams cfg2 cfg := by
  unfold updOutputFile at h
  simp only [Option.some.injEq] at h
  subst h
  unfold sameControlParams
  exact ⟨rfl, rfl, rfl, rfl, rfl, rfl, rfl, rfl, rfl, rfl, rfl, rfl, rfl, rfl⟩

theorem updVerbose_frame {cfg cfg2 : GeneratorConfig} {value : String}
    (h : updVerbose cfg value = some cfg2) : sameControlParams cfg2 cfg := by
  unfold updVerbose at h
  simp only [Option.some.injEq] at h
  subst h
  unfold sameControlParams
  exact ⟨rfl, rfl, rfl, rfl, rfl, rfl, rfl, rfl, rfl, rfl, rfl, rfl, rfl, rfl⟩

theorem configDispatch_frame {cfg cfg2 : GeneratorConfig} {key value : String}
    (h : configDispatch cfg key value = some cfg2) : sameControlParams cfg2 cfg := by
  unfold configDispatch at h
  by_cases k0 : key = "seed"
  · rw [if_pos k0] at h
    exact updSeed_frame h
  rw [if_neg k0] at h
  by_cases k1 : key = "module_name"
  · rw [if_pos k1] at h
    exact updModuleName_frame h
  rw [if_neg k1] at h
  by_cases k2 : key = "num_inputs"
  · rw [if_pos k2] at h
    exact updNumInputs_frame h
  rw [if_neg k2] at h
  by_cases k3 : key = "num_outputs"
  · rw [if_pos k3] at h
    exact updNumOutputs_frame h
  rw [if_neg k3] at h
  by_cases k4 : key = "input_width_min"
  · rw [if_pos k4] at h
    exact updInputWidthMin_frame h
  rw [if_neg k4] at h
  by_cases k5 : key = "input_width_max"
  · rw [if_pos k5] at h
    exact updInputWidthMax_frame h
  rw [if_neg k5] at h
  by_cases k6 : key = "output_width_min"
  · rw [if_pos k6] at h
    exact updOutputWidthMin_frame h
  rw [if_neg k6] at h
  by_cases k7 : key = "output_width_max"
  · rw [if_pos k7] at h
    exact updOutputWidthMax_frame h
  rw [if_neg k7] at h
  by_cases k8 : key = "num_operations"
  · rw [if_pos k8] at h
    exact updNumOperations_frame h
  rw [if_neg k8] at h
  by_cases k9 : key = "max_depth"
  · rw [if_pos k9] at h
    exact updMaxDepth_frame h
  rw [if_neg k9] at h
  by_cases k10 : key = "num_pipeline_stages"
  · rw [if_pos k10] at h
    exact updNumPipelineStages_frame h
  rw [if_neg k10] at h
  by_cases k11 : key = "weight_arithmetic"
  · rw [if_pos k11] at h
    exact updWeightArithmetic_frame h
  rw [if_neg k11] at h
  by_cases k12 : key = "weight_logical"
  · rw [if_pos k12] at h
    exact updWeightLogical_frame h
  rw [if_neg k12] at h
  by_cases k13 : key = "weight_comparison"
  · rw [if_pos k13] at h
    exact updWeightComparison_frame h
  rw [if_neg k13] at h
  by_cases k14 : key = "weight_shift"
  · rw [if_pos k14] at h
    exact updWeightShift_frame h
  rw [if_neg k14] at h
  by_cases k15 : key = "weight_mux"
  · rw [if_pos k15] at h
    exact updWeightMux_frame h
  rw [if_neg k15] at h
  by_cases k16 : key = "weight_concat"
  · rw [if_pos k16] at h
    exact updWeightConcat_frame h
  rw [if_neg k16] at h
  by_cases k17 : key = "weight_reduction"
  · rw [if_pos k17] at h
    exact updWeightReduction_frame h
  rw [if_neg k17] at h
  by_cases k18 : key = "output_file"
  · rw [if_pos k18] at h
    exact updOutputFile_frame h
  rw [if_neg k18] at h
  by_cases k19 : key = "verbose"
  · rw [if_pos k19] at h
    exact updVerbose_frame h
  rw [if_neg k19] at h
  injection h with h
  subst h
  exact sameControlParams_refl cfg

theorem applyConfigLine_frame {cfg cfg2 : GeneratorConfig} {l : String}
    (h : applyConfigLine cfg l = some cfg2) : sameControlParams cfg2 cfg := by
  unfold applyConfigLine at h
  repeat' split at h
  all_goals first
    | exact configDispatch_frame h
    | (injection h with h; subst h; exact sameControlParams_refl cfg)

theorem loadLinesAux_frame : ∀ (lines : List String) (cfg : GeneratorConfig),
    sameControlParams (loadLinesAux cfg lines).2 cfg
  | [], cfg => sameControlParams_refl cfg
  | l :: ls, cfg => by
    rcases h : applyConfigLine cfg l with _ | cfg2
    · simp only [loadLinesAux, h]
      exact sameControlParams_refl cfg
    · simp only [loadLinesAux, h]
      exact sameControlParams_trans (loadLinesAux_frame ls cfg2) (applyConfigLine_frame h)

/-- C9: `GeneratorConfig::loadFromFile` assigns only the keys its
dispatch chain recognises; for every starting configuration and every
file content, the six control-flow parameters
(`generate_case_statements`, `generate_if_else_chains`,
`generate_sharing_opportunities`, `num_case_statements`,
`num_if_else_chains`, `cases_per_statement`) and the eight
per-subcategory weights (`weight_add` … `weight_sra`) of the resulting
configuration are exactly those of the starting one. -/
theorem C9_loadFromFile_frame (cfg : GeneratorConfig) (lines : List String) :
    sameControlParams (cfg.loadFromFile lines).2 cfg := by
  have key : (cfg.loadFromFile lines).2 = (loadLinesAux cfg lines).2 := by
    unfold GeneratorConfig.loadFromFile
    by_cases hb : (loadLinesAux cfg lines).1 = true <;> simp [hb]
  rw [key]
  exact loadLinesAux_frame lines cfg

/-- C10: `GeneratorConfig::validate` returns `true` exactly when the
input/output counts are in `[1, 1000]`, both width ranges are well
formed with positive minima, `num_operations ≥ 1`, and the seven
category weights have a strictly positive sum; `max_depth` is never
examined, so the configuration `cfgDepth0` with `max_depth = 0` is
accepted. -/
theorem C10_validate_characterisation :
    (∀ cfg : GeneratorConfig, cfg.validate = true ↔
      (1 ≤ cfg.num_inputs ∧ cfg.num_inputs ≤ 1000 ∧
       1 ≤ cfg.num_outputs ∧ cfg.num_outputs ≤ 1000 ∧
       1 ≤ cfg.input_width_min ∧ cfg.input_width_min ≤ cfg.input_width_max ∧
       1 ≤ cfg.output_width_min ∧ cfg.output_width_min ≤ cfg.output_width_max ∧
       1 ≤ cfg.num_operations ∧
       0 < cfg.weight_arithmetic + cfg.weight_logical + cfg.weight_comparison +
           cfg.weight_shift + cfg.weight_mux + cfg.weight_concat +
           cfg.weight_reduction)) ∧
    (cfgDepth0.max_depth = 0 ∧ cfgDepth0.validate = true) := by
  have main : ∀ cfg : GeneratorConfig, cfg.validate = true ↔
      (1 ≤ cfg.num_inputs ∧ cfg.num_inputs ≤ 1000 ∧
       1 ≤ cfg.num_outputs ∧ cfg.num_outputs ≤ 1000 ∧
       1 ≤ cfg.input_width_min ∧ cfg.input_width_min ≤ cfg.input_width_max ∧
       1 ≤ cfg.output_width_min ∧ cfg.output_width_min ≤ cfg.output_width_max ∧
       1 ≤ cfg.num_operations ∧
       0 < cfg.weight_arithmetic + cfg.weight_logical + cfg.weight_comparison +
           cfg.weight_shift + cfg.weight_mux + cfg.weight_concat +
           cfg.weight_reduction) := by
    intro cfg
    unfold GeneratorConfig.validate
    split_ifs with h1 h2 h3 h4 h5 h6
    · simp only [Bool.false_eq_true, false_iff]
      rintro ⟨a1, a2, -⟩
      omega
    · simp only [Bool.false_eq_true, false_iff]
      rintro ⟨-, -, a3, a4, -⟩
      omega
    · simp only [Bool.false_eq_true, false_iff]
      rintro ⟨-, -, -, -, a5, a6, -⟩
      omega
    · simp only [Bool.false_eq_true, false_iff]
      rintro ⟨-, -, -, -, -, -, a7, a8, -⟩
      omega
    · simp only [Bool.false_eq_true, false_iff]
      rintro ⟨-, -, -, -, -, -, -, -, a9, -⟩
      omega
    · simp only [Bool.false_eq_true, false_iff]
      rintro ⟨-, -, -, -, -, -, -, -, -, a10⟩
      exact absurd a10 (not_lt.mpr h6)
    · simp only [true_iff]
      push_neg at h1 h2 h3 h4 h5 h6
      refine ⟨by omega, by omega, by omega, by omega, by omega, by omega,
        by omega, by omega, by omega, h6⟩
  refine ⟨main, rfl, (main cfgDepth0).mpr ?_⟩
  norm_num [cfgDepth0, cfgBase]

theorem assignDepths_operations (cfg : GeneratorConfig) (s : GenState) :
    (assignDepths cfg s).operations = s.operations.enum.map
      (fun p => { p.2 with depth := Int.tmod (Int.ofNat p.1) cfg.max_depth }) := rfl

theorem assignDepths_getD (cfg : GeneratorConfig) (s : GenState) (i : Nat)
    (hi : i < s.operations.length) :
    ((assignDepths cfg s).operations.getD i default).depth
      = Int.tmod (Int.ofNat i) cfg.max_depth := by
  simp [assignDepths, List.getD_eq_getElem?_getD, List.getElem?_map, hi,
    List.getElem?_eq_getElem]

/-- C6: after generation completes, the operation at index `i` of the
exposed operation sequence has depth `i % max_depth` (for a positive
`max_depth`; `max_depth ≤ 0` makes the C++ `%` undefined behaviour). -/
theorem C6_depth_is_index_mod (cfg : GeneratorConfig) (oracle : List Nat)
    (hd : 0 < cfg.max_depth) (i : Nat)
    (hi : i < (generate cfg oracle).operations.length) :
    (((generate cfg oracle).operations.getD i default).depth : Int)
      = (i : Int) % cfg.max_depth := by
  obtain ⟨s', hs'⟩ : ∃ s', generate cfg oracle = assignDepths cfg s' := ⟨_, rfl⟩
  rw [hs'] at hi ⊢
  have hi' : i < s'.operations.length := by
    simpa [assignDepths] using hi
  rw [assignDepths_getD cfg s' i hi']
  lift cfg.max_depth to ℕ using hd.le with dn hdn
  rfl

/-- Witness for C6 at the concrete scenario run. -/
theorem C6_depth_is_index_mod_witness :
    0 < cfgScenario.max_depth ∧
    0 < (generate cfgScenario oracleScenario).operations.length ∧
    ((generate cfgScenario oracleScenario).operations.getD 0 default).depth
      = (0 : Int) % cfgScenario.max_depth :=
  ⟨by decide, by decide,
   C6_depth_is_index_mod cfgScenario oracleScenario (by decide) 0 (by decide)⟩

/-- C1 (code-bug evidence): in the concrete run `cfgCaseMult` /
`oracleCaseMult`, the generated case statement contains a `MULT`
operation whose operand widths are 8 and 8 but whose output width is 8,
not `8 + 8`: `generateCaseStatements` computes `max(w(a), w(b))` even
for `MULT`, unlike `generateArithmeticOp`, `generateIfElseChains` and
`generateSharingOpportunities`, which all use `w(a) + w(b)`. -/
theorem C1_case_mult_width_eval :
    ∃ cb ∈ (generate cfgCaseMult oracleCaseMult).control_blocks,
      ∃ c ∈ cb.cases, ∃ op ∈ c.operations,
        op.type = OpType.MULT ∧
        op.inputs.map Signal.width = [8, 8] ∧
        op.output.width = 8 ∧
        op.output.width ≠ (op.inputs.map Signal.width).sum := by
  decide

/-- Counterexample to C4 as stated: with two pipeline stages and
`max_depth = 2`, the finished graph's operation at index 1 has depth 1,
so the claimed stage would be `1 * 2 / 2 = 1`, but its actual stage is 0
(pipeline tagging ran before `assignDepths`, when all depths were 0). -/
theorem C4_counterexample :
    0 < cfgPipeline.num_pipeline_stages ∧
    ¬ (∀ op ∈ (generate cfgPipeline oraclePipeline).operations,
        op.stage = Int.tdiv (op.depth * cfgPipeline.num_pipeline_stages)
          cfgPipeline.max_depth) := by
  decide

/-- Counterexample to C5 as stated: with `num_inputs = 0`,
`num_operations = 2` and a positive mux weight, a failed 4-way-mux
attempt creates a fallback 2-bit selector wire, and the second attempt
then succeeds with an `add` over that wire — the final operation
sequence is not empty. -/
theorem C5_counterexample :
    cfgNoInputsMux.num_inputs = 0 ∧ 0 < cfgNoInputsMux.num_operations ∧
    (generate cfgNoInputsMux oracleNoInputsMux).operations ≠ [] := by
  decide

theorem withOracle_inputs (s : GenState) (o : List Nat) :
    (withOracle s o).inputs = s.inputs := rfl

theorem withOracle_outputs (s : GenState) (o : List Nat) :
    (withOracle s o).outputs = s.outputs := rfl

theorem withOracle_wires (s : GenState) (o : List Nat) :
    (withOracle s o).wires = s.wires := rfl

theorem withOracle_regs (s : GenState) (o : List Nat) :
    (withOracle s o).regs = s.regs := rfl

theorem withOracle_operations (s : GenState) (o : List Nat) :
    (withOracle s o).operations = s.operations := rfl

theorem withOracle_control_blocks (s : GenState) (o : List Nat) :
    (withOracle s o).control_blocks = s.control_blocks := rfl

theorem withOracle_stamp (s : GenState) (o : List Nat) :
    (withOracle s o).stamp = s.stamp := rfl

theorem withOracle_signal_counter (s : GenState) (o : List Nat) :
    (withOracle s o).signal_counter = s.signal_counter := rfl

theorem drawNat_snd (s : GenState) : (drawNat s).2 = withOracle s s.oracle.tail := rfl

theorem randomInt_snd (lo hi : Int) (s : GenState) :
    (randomInt lo hi s).2 = withOracle s s.oracle.tail := rfl

theorem randomBool_snd (p : ℚ) (s : GenState) :
    (randomBool p s).2 = withOracle s s.oracle.tail := rfl

theorem randomPick_snd (l : List OpType) (s : GenState) :
    (randomPick l s).2 = withOracle s s.oracle.tail := rfl

theorem generateRandomWidth_snd (cfg : GeneratorConfig) (s : GenState) :
    (generateRandomWidth cfg s).2 = withOracle s s.oracle.tail := rfl

theorem selectRandomSignal_oracleOnly (cand : List Signal) (s : GenState) :
    ∃ o, (selectRandomSignal cand s).2 = withOracle s o := by
  unfold selectRandomSignal drawNat
  split
  · exact ⟨s.oracle, rfl⟩
  · exact ⟨s.oracle.tail, rfl⟩

theorem weightedChoice_oracleOnly (pairs : List (ℚ × OpType)) (s : GenState) :
    ∃ o, (weightedChoice pairs s).2 = withOracle s o := by
  unfold weightedChoice drawNat
  split
  · exact ⟨s.oracle, rfl⟩
  · exact ⟨s.oracle.tail, rfl⟩

theorem selectRandomOpType_oracleOnly (cfg : GeneratorConfig) (s : GenState) :
    ∃ o, (selectRandomOpType cfg s).2 = withOracle s o :=
  weightedChoice_oracleOnly _ s

theorem selectArithmeticOpType_oracleOnly (cfg : GeneratorConfig) (s : GenState) :
    ∃ o, (selectArithmeticOpType cfg s).2 = withOracle s o :=
  weightedChoice_oracleOnly _ s

theorem selectShiftOpType_oracleOnly (cfg : GeneratorConfig) (s : GenState) :
    ∃ o, (selectShiftOpType cfg s).2 = withOracle s o :=
  weightedChoice_oracleOnly _ s

theorem selectRandomSignal_mem {cand : List Signal} {s : GenState} {sig : Signal}
    (h : (selectRandomSignal cand s).1 = some sig) : sig ∈ cand := by
  unfold selectRandomSignal drawNat at h
  split at h
  · simp at h
  · exact List.get?_mem h

theorem selectRandomSignal_nonempty (cand : List Signal) (hne : cand ≠ [])
    (s : GenState) :
    ∃ sig, (selectRandomSignal cand s).1 = some sig ∧ sig ∈ cand := by
  have hlen : 0 < cand.length := List.length_pos.mpr hne
  unfold selectRandomSignal drawNat
  rw [if_neg (by simpa [List.isEmpty_iff] using hne)]
  exact ⟨cand.get ⟨s.oracle.headD 0 % cand.length, Nat.mod_lt _ hlen⟩,
    List.get?_eq_get _, List.get_mem _ _ _⟩

theorem randomPick_mem_or (l : List OpType) (s : GenState) :
    (randomPick l s).1 ∈ l ∨ (randomPick l s).1 = OpType.ADD := by
  by_cases h : l = []
  · subst h; right; rfl
  · left
    have hlen : 0 < l.length := List.length_pos.mpr h
    unfold randomPick drawNat
    dsimp only
    rw [List.getD_eq_getElem?_getD, List.getElem?_eq_getElem (Nat.mod_lt _ hlen)]
    exact List.getElem_mem _

theorem weightedChoice_mem_filter (pairs : List (ℚ × OpType)) (s : GenState) :
    (weightedChoice pairs s).1 ∈ (pairs.filter (fun p => 0 < p.1)).map Prod.snd ∨
    (weightedChoice pairs s).1 = OpType.ADD := by
  unfold weightedChoice drawNat
  split
  · right; rfl
  · left
    rename_i hne
    have hlen : 0 < ((pairs.filter (fun p => 0 < p.1)).map Prod.snd).length := by
      rcases Nat.eq_zero_or_pos ((pairs.filter (fun p => 0 < p.1)).map Prod.snd).length
        with h0 | h0
      · exact absurd (List.isEmpty_iff.mpr (List.length_eq_zero.mp h0)) hne
      · exact h0
    dsimp only
    rw [List.getD_eq_getElem?_getD, List.getElem?_eq_getElem (Nat.mod_lt _ hlen)]
    exact List.getElem_mem _

theorem withOracle_withOracle (s : GenState) (o o' : List Nat) :
    withOracle (withOracle s o) o' = withOracle s o' := rfl

theorem getRequiredOperands_of_isBinary :
    ∀ t : OpType, Operation.isBinary t = true → Operation.getRequiredOperands t = 2 := by
  intro t
  cases t <;> decide

theorem ne_concat_of_isBinary :
    ∀ t : OpType, Operation.isBinary t = true → t ≠ OpType.CONCAT := by
  intro t
  cases t <;> decide

theorem getRequiredOperands_of_isUnary :
    ∀ t : OpType, Operation.isUnary t = true → Operation.getRequiredOperands t = 1 := by
  intro t
  cases t <;> decide

theorem ne_concat_of_isUnary :
    ∀ t : OpType, Operation.isUnary t = true → t ≠ OpType.CONCAT := by
  intro t
  cases t <;> decide

theorem requiredOperandsOk_of_isBinary {op : Operation}
    (ht : Operation.isBinary op.type = true) (hlen : op.inputs.length = 2) :
    requiredOperandsOk op := by
  unfold requiredOperandsOk
  rw [if_neg (ne_concat_of_isBinary _ ht), hlen, getRequiredOperands_of_isBinary _ ht]

theorem requiredOperandsOk_of_isUnary {op : Operation}
    (ht : Operation.isUnary op.type = true) (hlen : op.inputs.length = 1) :
    requiredOperandsOk op := by
  unfold requiredOperandsOk
  rw [if_neg (ne_concat_of_isUnary _ ht), hlen, getRequiredOperands_of_isUnary _ ht]

theorem selectArithmeticOpType_isBinary (cfg : GeneratorConfig) (s : GenState) :
    Operation.isBinary (selectArithmeticOpType cfg s).1 = true := by
  unfold selectArithmeticOpType
  rcases weightedChoice_mem_filter
    [(cfg.weight_add, OpType.ADD), (cfg.weight_sub, OpType.SUB),
     (cfg.weight_mult, OpType.MULT), (cfg.weight_div, OpType.DIV),
     (cfg.weight_mod, OpType.MOD)] s with h | h
  · rcases List.mem_map.mp h with ⟨p, hp, hsnd⟩
    rw [← hsnd]
    have hmem := List.mem_of_mem_filter hp
    fin_cases hmem <;> rfl
  · rw [h]; rfl

theorem selectShiftOpType_isBinary (cfg : GeneratorConfig) (s : GenState) :
    Operation.isBinary (selectShiftOpType cfg s).1 = true := by
  unfold selectShiftOpType
  rcases weightedChoice_mem_filter
    [(cfg.weight_sll, OpType.SLL), (cfg.weight_srl, OpType.SRL),
     (cfg.weight_sra, OpType.SRA)] s with h | h
  · rcases List.mem_map.mp h with ⟨p, hp, hsnd⟩
    rw [← hsnd]
    have hmem := List.mem_of_mem_filter hp
    fin_cases hmem <;> rfl
  · rw [h]; rfl

theorem generateArithmeticOp_spec (cfg : GeneratorConfig) (available : List Signal)
    (s : GenState) (hav : ∀ sig ∈ available, sig.uid < s.stamp) :
    GenOpSpec s (generateArithmeticOp cfg available s) := by
  have hbin := selectArithmeticOpType_isBinary cfg s
  obtain ⟨o1, ho1⟩ := selectArithmeticOpType_oracleOnly cfg s
  unfold generateArithmeticOp
  dsimp only
  rw [ho1]
  obtain ⟨o2, ho2⟩ := selectRandomSignal_oracleOnly available (withOracle s o1)
  rw [ho2, withOracle_withOracle]
  obtain ⟨o3, ho3⟩ := selectRandomSignal_oracleOnly available (withOracle s o2)
  rw [ho3, withOracle_withOracle]
  rcases hA : (selectRandomSignal available (withOracle s o1)).1 with _ | a <;>
    rcases hB : (selectRandomSignal available (withOracle s o2)).1 with _ | b
  · exact ⟨⟨rfl, rfl, le_refl _, fun w hw => Or.inl hw⟩, rfl, rfl, rfl,
      fun op hop => nomatch hop⟩
  · exact ⟨⟨rfl, rfl, le_refl _, fun w hw => Or.inl hw⟩, rfl, rfl, rfl,
      fun op hop => nomatch hop⟩
  · exact ⟨⟨rfl, rfl, le_refl _, fun w hw => Or.inl hw⟩, rfl, rfl, rfl,
      fun op hop => nomatch hop⟩
  · have ha : a ∈ available := selectRandomSignal_mem hA
    have hb : b ∈ available := selectRandomSignal_mem hB
    dsimp only [createWire, newOperation, Operation.addInput, withOracle]
    refine ⟨⟨rfl, rfl, by dsimp only; omega, ?_⟩, rfl, rfl, rfl, ?_⟩
    · intro w hw
      rcases List.mem_append.mp hw with hw | hw
      · exact Or.inl hw
      · right
        rcases List.mem_singleton.mp hw with rfl
        dsimp only
        omega
    · intro op hop
      injection hop with hop
      subst hop
      refine ⟨requiredOperandsOk_of_isBinary hbin rfl, rfl, ?_, rfl, rfl⟩
      intro sig hsig
      rcases List.mem_cons.mp hsig with rfl | hsig
      · exact Nat.lt_succ_of_lt (hav sig ha)
      · rcases List.mem_singleton.mp (by simpa using hsig) with rfl
        exact Nat.lt_succ_of_lt (hav sig hb)

theorem randomPick_mem (l : List OpType) (hne : l ≠ []) (s : GenState) :
    (randomPick l s).1 ∈ l := by
  have hlen : 0 < l.length := List.length_pos.mpr hne
  unfold randomPick drawNat
  dsimp only
  rw [List.getD_eq_getElem?_getD, List.getElem?_eq_getElem (Nat.mod_lt _ hlen)]
  exact List.getElem_mem _

theorem foldl_addInput (l : List Signal) : ∀ op : Operation,
    l.foldl (fun op d => op.addInput d) op = { op with inputs := op.inputs ++ l } := by
  induction l with
  | nil => intro op; simp
  | cons x xs ih =>
    intro op
    rw [List.foldl_cons, ih]
    simp [Operation.addInput]

theorem collectLoop_spec (available : List Signal) :
    ∀ (l : List Nat) (acc : List Signal) (s : GenState),
    ∃ o, ((l.foldl (fun (p : List Signal × GenState) _ =>
            let rD := selectRandomSignal available p.2
            match rD.1 with
            | some d => (p.1 ++ [d], rD.2)
            | none => (p.1, rD.2)) (acc, s)).2 = withOracle s o) ∧
      (∀ d ∈ (l.foldl (fun (p : List Signal × GenState) _ =>
            let rD := selectRandomSignal available p.2
            match rD.1 with
            | some d => (p.1 ++ [d], rD.2)
            | none => (p.1, rD.2)) (acc, s)).1, d ∈ acc ∨ d ∈ available) ∧
      (l.foldl (fun (p : List Signal × GenState) _ =>
            let rD := selectRandomSignal available p.2
            match rD.1 with
            | some d => (p.1 ++ [d], rD.2)
            | none => (p.1, rD.2)) (acc, s)).1.length ≤ acc.length + l.length
  | [], acc, s => ⟨s.oracle, rfl, fun d hd => Or.inl hd, by simp⟩
  | x :: xs, acc, s => by
    rw [List.foldl_cons]
    dsimp only
    obtain ⟨o2, ho2⟩ := selectRandomSignal_oracleOnly available s
    rw [ho2]
    rcases hD : (selectRandomSignal available s).1 with _ | d
    · obtain ⟨o, h1, h2, h3⟩ := collectLoop_spec available xs acc (withOracle s o2)
      refine ⟨o, by rw [h1]; rfl, h2, le_trans h3 (by simp only [List.length_cons]; omega)⟩
    · have hd : d ∈ available := selectRandomSignal_mem hD
      obtain ⟨o, h1, h2, h3⟩ := collectLoop_spec available xs (acc ++ [d]) (withOracle s o2)
      refine ⟨o, by rw [h1]; rfl, ?_, ?_⟩
      · intro e he
        rcases h2 e he with he2 | he2
        · rcases List.mem_append.mp he2 with he3 | he3
          · exact Or.inl he3
          · rcases List.mem_singleton.mp he3 with rfl
            exact Or.inr hd
        · exact Or.inr he2
      · refine le_trans h3 ?_
        simp only [List.length_append, List.length_singleton, List.length_cons, List.length_nil]
        omega

theorem generateComparisonOp_spec (available : List Signal) (s : GenState)
    (hav : ∀ sig ∈ available, sig.uid < s.stamp) :
    GenOpSpec s (generateComparisonOp available s) := by
  have hbin : Operation.isBinary ((randomPick
      [OpType.EQ, OpType.NEQ, OpType.LT, OpType.GT, OpType.LTE, OpType.GTE] s).1) = true := by
    have hk := randomPick_mem
      [OpType.EQ, OpType.NEQ, OpType.LT, OpType.GT, OpType.LTE, OpType.GTE] (by simp) s
    simp only [List.mem_cons, List.not_mem_nil, or_false] at hk
    rcases hk with hk | hk | hk | hk | hk | hk <;> rw [hk] <;> rfl
  unfold generateComparisonOp
  dsimp only
  rw [randomPick_snd]
  obtain ⟨o2, ho2⟩ := selectRandomSignal_oracleOnly available (withOracle s s.oracle.tail)
  rw [ho2, withOracle_withOracle]
  obtain ⟨o3, ho3⟩ := selectRandomSignal_oracleOnly available (withOracle s o2)
  rw [ho3, withOracle_withOracle]
  rcases hA : (selectRandomSignal available (withOracle s s.oracle.tail)).1 with _ | a <;>
    rcases hB : (selectRandomSignal available (withOracle s o2)).1 with _ | b
  · exact ⟨⟨rfl, rfl, le_refl _, fun w hw => Or.inl hw⟩, rfl, rfl, rfl,
      fun op hop => nomatch hop⟩
  · exact ⟨⟨rfl, rfl, le_refl _, fun w hw => Or.inl hw⟩, rfl, rfl, rfl,
      fun op hop => nomatch hop⟩
  · exact ⟨⟨rfl, rfl, le_refl _, fun w hw => Or.inl hw⟩, rfl, rfl, rfl,
      fun op hop => nomatch hop⟩
  · have ha : a ∈ available := selectRandomSignal_mem hA
    have hb : b ∈ available := selectRandomSignal_mem hB
    dsimp only [createWire, newOperation, Operation.addInput, withOracle]
    refine ⟨⟨rfl, rfl, by dsimp only; omega, ?_⟩, rfl, rfl, rfl, ?_⟩
    · intro w hw
      rcases List.mem_append.mp hw with hw | hw
      · exact Or.inl hw
      · right
        rcases List.mem_singleton.mp hw with rfl
        dsimp only
        omega
    · intro op hop
      injection hop with hop
      subst hop
      refine ⟨requiredOperandsOk_of_isBinary hbin rfl, rfl, ?_, rfl, rfl⟩
      intro sig hsig
      rcases List.mem_cons.mp hsig with rfl | hsig
      · exact Nat.lt_succ_of_lt (hav sig ha)
      · rcases List.mem_singleton.mp (by simpa using hsig) with rfl
        exact Nat.lt_succ_of_lt (hav sig hb)

theorem generateShiftOp_spec (cfg : GeneratorConfig) (available : List Signal)
    (s : GenState) (hav : ∀ sig ∈ available, sig.uid < s.stamp) :
    GenOpSpec s (generateShiftOp cfg available s) := by
  have hbin := selectShiftOpType_isBinary cfg s
  obtain ⟨o1, ho1⟩ := selectShiftOpType_oracleOnly cfg s
  unfold generateShiftOp
  dsimp only
  rw [ho1]
  obtain ⟨o2, ho2⟩ := selectRandomSignal_oracleOnly available (withOracle s o1)
  rw [ho2, withOracle_withOracle]
  obtain ⟨o3, ho3⟩ := selectRandomSignal_oracleOnly available (withOracle s o2)
  rw [ho3, withOracle_withOracle]
  rcases hA : (selectRandomSignal available (withOracle s o1)).1 with _ | a <;>
    rcases hB : (selectRandomSignal available (withOracle s o2)).1 with _ | b
  · exact ⟨⟨rfl, rfl, le_refl _, fun w hw => Or.inl hw⟩, rfl, rfl, rfl,
      fun op hop => nomatch hop⟩
  · exact ⟨⟨rfl, rfl, le_refl _, fun w hw => Or.inl hw⟩, rfl, rfl, rfl,
      fun op hop => nomatch hop⟩
  · exact ⟨⟨rfl, rfl, le_refl _, fun w hw => Or.inl hw⟩, rfl, rfl, rfl,
      fun op hop => nomatch hop⟩
  · have ha : a ∈ available := selectRandomSignal_mem hA
    have hb : b ∈ available := selectRandomSignal_mem hB
    dsimp only [createWire, newOperation, Operation.addInput, withOracle]
    refine ⟨⟨rfl, rfl, by dsimp only; omega, ?_⟩, rfl, rfl, rfl, ?_⟩
    · intro w hw
      rcases List.mem_append.mp hw with hw | hw
      · exact Or.inl hw
      · right
        rcases List.mem_singleton.mp hw with rfl
        dsimp only
        omega
    · intro op hop
      injection hop with hop
      subst hop
      refine ⟨requiredOperandsOk_of_isBinary hbin rfl, rfl, ?_, rfl, rfl⟩
      intro sig hsig
      rcases List.mem_cons.mp hsig with rfl | hsig
      · exact Nat.lt_succ_of_lt (hav sig ha)
      · rcases List.mem_singleton.mp (by simpa using hsig) with rfl
        exact Nat.lt_succ_of_lt (hav sig hb)

theorem generateReductionOp_spec (available : List Signal) (s : GenState)
    (hav : ∀ sig ∈ available, sig.uid < s.stamp) :
    GenOpSpec s (generateReductionOp available s) := by
  have huna : Operation.isUnary ((randomPick
      [OpType.RED_AND, OpType.RED_OR, OpType.RED_XOR,
       OpType.RED_NAND, OpType.RED_NOR, OpType.RED_XNOR] s).1) = true := by
    have hk := randomPick_mem
      [OpType.RED_AND, OpType.RED_OR, OpType.RED_XOR,
       OpType.RED_NAND, OpType.RED_NOR, OpType.RED_XNOR] (by simp) s
    simp only [List.mem_cons, List.not_mem_nil, or_false] at hk
    rcases hk with hk | hk | hk | hk | hk | hk <;> rw [hk] <;> rfl
  unfold generateReductionOp
  dsimp only
  rw [randomPick_snd]
  obtain ⟨o2, ho2⟩ := selectRandomSignal_oracleOnly available (withOracle s s.oracle.tail)
  rw [ho2, withOracle_withOracle]
  rcases hA : (selectRandomSignal available (withOracle s s.oracle.tail)).1 with _ | a
  · exact ⟨⟨rfl, rfl, le_refl _, fun w hw => Or.inl hw⟩, rfl, rfl, rfl,
      fun op hop => nomatch hop⟩
  · have ha : a ∈ available := selectRandomSignal_mem hA
    dsimp only [createWire, newOperation, Operation.addInput, withOracle]
    refine ⟨⟨rfl, rfl, by dsimp only; omega, ?_⟩, rfl, rfl, rfl, ?_⟩
    · intro w hw
      rcases List.mem_append.mp hw with hw | hw
      · exact Or.inl hw
      · right
        rcases List.mem_singleton.mp hw with rfl
        dsimp only
        omega
    · intro op hop
      injection hop with hop
      subst hop
      refine ⟨requiredOperandsOk_of_isUnary huna rfl, rfl, ?_, rfl, rfl⟩
      intro sig hsig
      rcases List.mem_singleton.mp hsig with rfl
      exact Nat.lt_succ_of_lt (hav sig ha)

theorem generateLogicalOp_spec (available : List Signal) (s : GenState)
    (hav : ∀ sig ∈ available, sig.uid < s.stamp) :
    GenOpSpec s (generateLogicalOp available s) := by
  have hk := randomPick_mem
    [OpType.AND, OpType.OR, OpType.XOR, OpType.NOT,
     OpType.NAND, OpType.NOR, OpType.XNOR] (by simp) s
  unfold generateLogicalOp
  dsimp only
  rw [randomPick_snd]
  by_cases hnot : (randomPick [OpType.AND, OpType.OR, OpType.XOR, OpType.NOT,
      OpType.NAND, OpType.NOR, OpType.XNOR] s).1 = OpType.NOT
  · rw [if_pos hnot]
    obtain ⟨o2, ho2⟩ := selectRandomSignal_oracleOnly available (withOracle s s.oracle.tail)
    rw [ho2, withOracle_withOracle]
    rcases hA : (selectRandomSignal available (withOracle s s.oracle.tail)).1 with _ | a
    · exact ⟨⟨rfl, rfl, le_refl _, fun w hw => Or.inl hw⟩, rfl, rfl, rfl,
        fun op hop => nomatch hop⟩
    · have ha : a ∈ available := selectRandomSignal_mem hA
      dsimp only [createWire, newOperation, Operation.addInput, withOracle]
      refine ⟨⟨rfl, rfl, by dsimp only; omega, ?_⟩, rfl, rfl, rfl, ?_⟩
      · intro w hw
        rcases List.mem_append.mp hw with hw | hw
        · exact Or.inl hw
        · right
          rcases List.mem_singleton.mp hw with rfl
          dsimp only
          omega
      · intro op hop
        injection hop with hop
        subst hop
        refine ⟨requiredOperandsOk_of_isUnary rfl rfl, rfl, ?_, rfl, rfl⟩
        intro sig hsig
        rcases List.mem_singleton.mp hsig with rfl
        exact Nat.lt_succ_of_lt (hav sig ha)
  · have hbin : Operation.isBinary ((randomPick
        [OpType.AND, OpType.OR, OpType.XOR, OpType.NOT,
         OpType.NAND, OpType.NOR, OpType.XNOR] s).1) = true := by
      simp only [List.mem_cons, List.not_mem_nil, or_false] at hk
      rcases hk with hk | hk | hk | hk | hk | hk | hk <;>
        first
        | exact absurd hk hnot
        | (rw [hk]; rfl)
    rw [if_neg hnot]
    obtain ⟨o2, ho2⟩ := selectRandomSignal_oracleOnly available (withOracle s s.oracle.tail)
    rw [ho2, withOracle_withOracle]
    obtain ⟨o3, ho3⟩ := selectRandomSignal_oracleOnly available (withOracle s o2)
    rw [ho3, withOracle_withOracle]
    rcases hA : (selectRandomSignal available (withOracle s s.oracle.tail)).1 with _ | a <;>
      rcases hB : (selectRandomSignal available (withOracle s o2)).1 with _ | b
    · exact ⟨⟨rfl, rfl, le_refl _, fun w hw => Or.inl hw⟩, rfl, rfl, rfl,
        fun op hop => nomatch hop⟩
    · exact ⟨⟨rfl, rfl, le_refl _, fun w hw => Or.inl hw⟩, rfl, rfl, rfl,
        fun op hop => nomatch hop⟩
    · exact ⟨⟨rfl, rfl, le_refl _, fun w hw => Or.inl hw⟩, rfl, rfl, rfl,
        fun op hop => nomatch hop⟩
    · have ha : a ∈ available := selectRandomSignal_mem hA
      have hb : b ∈ available := selectRandomSignal_mem hB
      dsimp only [createWire, newOperation, Operation.addInput, withOracle]
      refine ⟨⟨rfl, rfl, by dsimp only; omega, ?_⟩, rfl, rfl, rfl, ?_⟩
      · intro w hw
        rcases List.mem_append.mp hw with hw | hw
        · exact Or.inl hw
        · right
          rcases List.mem_singleton.mp hw with rfl
          dsimp only
          omega
      · intro op hop
        injection hop with hop
        subst hop
        refine ⟨requiredOperandsOk_of_isBinary hbin rfl, rfl, ?_, rfl, rfl⟩
        intro sig hsig
        rcases List.mem_cons.mp hsig with rfl | hsig
        · exact Nat.lt_succ_of_lt (hav sig ha)
        · rcases List.mem_singleton.mp (by simpa using hsig) with rfl
          exact Nat.lt_succ_of_lt (hav sig hb)

theorem generateConcatOp_spec (available : List Signal) (s : GenState)
    (hav : ∀ sig ∈ available, sig.uid < s.stamp) :
    GenOpSpec s (generateConcatOp available s) := by
  obtain ⟨o, ho, hmem, hlen⟩ := collectLoop_spec available
    (List.range (randomInt 2 4 s).1.toNat) [] (withOracle s s.oracle.tail)
  unfold generateConcatOp collectConcatInputs
  dsimp only
  rw [randomInt_snd]
  rw [ho, withOracle_withOracle]
  by_cases hl : ((List.range (randomInt 2 4 s).1.toNat).foldl
      (fun (p : List Signal × GenState) _ =>
        let rD := selectRandomSignal available p.2
        match rD.1 with
        | some d => (p.1 ++ [d], rD.2)
        | none => (p.1, rD.2)) ([], withOracle s s.oracle.tail)).1.length < 2
  · rw [if_pos hl]
    exact ⟨⟨rfl, rfl, le_refl _, fun w hw => Or.inl hw⟩, rfl, rfl, rfl,
      fun op hop => nomatch hop⟩
  · rw [if_neg hl]
    dsimp only [createWire, newOperation, withOracle]
    dsimp only [withOracle] at hl hmem
    rw [foldl_addInput]
    refine ⟨⟨rfl, rfl, by dsimp only; omega, ?_⟩, rfl, rfl, rfl, ?_⟩
    · intro w hw
      rcases List.mem_append.mp hw with hw | hw
      · exact Or.inl hw
      · right
        rcases List.mem_singleton.mp hw with rfl
        dsimp only
        omega
    · intro op hop
      injection hop with hop
      subst hop
      refine ⟨?_, rfl, ?_, rfl, rfl⟩
      · unfold requiredOperandsOk
        rw [if_pos rfl]
        dsimp only
        rw [List.nil_append]
        omega
      · intro sig hsig
        dsimp only at hsig
        rw [List.nil_append] at hsig
        rcases hmem sig hsig with h | h
        · simp at h
        · exact Nat.lt_succ_of_lt (hav sig h)

theorem requiredOperandsOk_mux4 {op : Operation} (ht : op.type = OpType.MUX4)
    (hlen : op.inputs.length = 5) : requiredOperandsOk op := by
  unfold requiredOperandsOk
  rw [ht, hlen]
  decide

theorem generateMuxOp_spec (available : List Signal) (s : GenState)
    (hav : ∀ sig ∈ available, sig.uid < s.stamp) :
    GenOpSpec s (generateMuxOp available s) := by
  unfold generateMuxOp collectMuxData
  dsimp only
  rw [randomBool_snd]
  by_cases hm : (randomBool (3 / 10) s).1 = false
  · rw [if_pos hm]
    obtain ⟨o1, ho1⟩ := selectRandomSignal_oracleOnly available (withOracle s s.oracle.tail)
    rw [ho1, withOracle_withOracle]
    obtain ⟨o2, ho2⟩ := selectRandomSignal_oracleOnly available (withOracle s o1)
    rw [ho2, withOracle_withOracle]
    obtain ⟨o3, ho3⟩ := selectRandomSignal_oracleOnly available (withOracle s o2)
    rw [ho3, withOracle_withOracle]
    rcases hS : (selectRandomSignal available (withOracle s s.oracle.tail)).1 with _ | sel <;>
      rcases hA : (selectRandomSignal available (withOracle s o1)).1 with _ | a <;>
        rcases hB : (selectRandomSignal available (withOracle s o2)).1 with _ | b
    · exact ⟨⟨rfl, rfl, le_refl _, fun w hw => Or.inl hw⟩, rfl, rfl, rfl,
        fun op hop => nomatch hop⟩
    · exact ⟨⟨rfl, rfl, le_refl _, fun w hw => Or.inl hw⟩, rfl, rfl, rfl,
        fun op hop => nomatch hop⟩
    · exact ⟨⟨rfl, rfl, le_refl _, fun w hw => Or.inl hw⟩, rfl, rfl, rfl,
        fun op hop => nomatch hop⟩
    · exact ⟨⟨rfl, rfl, le_refl _, fun w hw => Or.inl hw⟩, rfl, rfl, rfl,
        fun op hop => nomatch hop⟩
    · exact ⟨⟨rfl, rfl, le_refl _, fun w hw => Or.inl hw⟩, rfl, rfl, rfl,
        fun op hop => nomatch hop⟩
    · exact ⟨⟨rfl, rfl, le_refl _, fun w hw => Or.inl hw⟩, rfl, rfl, rfl,
        fun op hop => nomatch hop⟩
    · exact ⟨⟨rfl, rfl, le_refl _, fun w hw => Or.inl hw⟩, rfl, rfl, rfl,
        fun op hop => nomatch hop⟩
    · have hsel : sel ∈ available := selectRandomSignal_mem hS
      have ha : a ∈ available := selectRandomSignal_mem hA
      have hb : b ∈ available := selectRandomSignal_mem hB
      dsimp only [createWire, newOperation, Operation.addInput, withOracle]
      refine ⟨⟨rfl, rfl, by dsimp only; omega, ?_⟩, rfl, rfl, rfl, ?_⟩
      · intro w hw
        rcases List.mem_append.mp hw with hw | hw
        · exact Or.inl hw
        · right
          rcases List.mem_singleton.mp hw with rfl
          dsimp only
          omega
      · intro op hop
        injection hop with hop
        subst hop
        refine ⟨rfl, rfl, ?_, rfl, rfl⟩
        intro sig hsig
        rcases List.mem_cons.mp hsig with rfl | hsig
        · exact Nat.lt_succ_of_lt (hav sig hsel)
        · rcases List.mem_cons.mp hsig with rfl | hsig
          · exact Nat.lt_succ_of_lt (hav sig ha)
          · rcases List.mem_singleton.mp (by simpa using hsig) with rfl
            exact Nat.lt_succ_of_lt (hav sig hb)
  · rw [if_neg hm]
    obtain ⟨o1, ho1⟩ := selectRandomSignal_oracleOnly available (withOracle s s.oracle.tail)
    rw [ho1, withOracle_withOracle]
    rcases hS : (selectRandomSignal available (withOracle s s.oracle.tail)).1 with _ | sel
    · -- null selector: fresh 2-bit wire
      obtain ⟨o2, ho2, hmem, hlen⟩ := collectLoop_spec available (List.range 4) []
        (createWire 2 false (withOracle s o1)).2
      rw [ho2]
      by_cases hl : ((List.range 4).foldl
          (fun (p : List Signal × GenState) _ =>
            let rD := selectRandomSignal available p.2
            match rD.1 with
            | some d => (p.1 ++ [d], rD.2)
            | none => (p.1, rD.2)) ([], (createWire 2 false (withOracle s o1)).2)).1.length < 4
      · rw [if_pos hl]
        dsimp only [createWire, newOperation, withOracle]
        refine ⟨⟨rfl, rfl, by dsimp only; omega, ?_⟩, rfl, rfl, rfl,
          fun op hop => nomatch hop⟩
        intro w hw
        rcases List.mem_append.mp hw with hw | hw
        · exact Or.inl hw
        · right
          rcases List.mem_singleton.mp hw with rfl
          dsimp only
          omega
      · rw [if_neg hl]
        dsimp only [createWire, newOperation, withOracle]
        dsimp only [createWire, withOracle] at hl hmem hlen
        rw [foldl_addInput]
        refine ⟨⟨rfl, rfl, by dsimp only; omega, ?_⟩, rfl, rfl, rfl, ?_⟩
        · intro w hw
          rcases List.mem_append.mp hw with hw | hw
          · rcases List.mem_append.mp hw with hw | hw
            · exact Or.inl hw
            · right
              rcases List.mem_singleton.mp hw with rfl
              dsimp only
              omega
          · right
            rcases List.mem_singleton.mp hw with rfl
            dsimp only
            omega
        · intro op hop
          injection hop with hop
          subst hop
          refine ⟨?_, rfl, ?_, rfl, rfl⟩
          · refine requiredOperandsOk_mux4 rfl ?_
            dsimp only [Operation.addInput]
            simp only [List.length_append, List.nil_append, List.length_cons,
              List.length_nil, List.length_range] at hl hlen ⊢
            omega
          · intro sig hsig
            dsimp only [Operation.addInput] at hsig
            rw [List.nil_append] at hsig
            rcases List.mem_cons.mp hsig with rfl | hsig
            · dsimp only [Operation.addInput]
              omega
            · rcases hmem sig hsig with h | h
              · simp at h
              · have := hav sig h
                dsimp only [Operation.addInput]
                omega
    · -- selector drawn from the pool
      have hsel : sel ∈ available := selectRandomSignal_mem hS
      dsimp only
      by_cases hw2 : sel.width < 2
      · rw [if_pos hw2]
        obtain ⟨o2, ho2, hmem, hlen⟩ := collectLoop_spec available (List.range 4) []
          (createWire 2 false (withOracle s o1)).2
        rw [ho2]
        by_cases hl : ((List.range 4).foldl
            (fun (p : List Signal × GenState) _ =>
              let rD := selectRandomSignal available p.2
              match rD.1 with
              | some d => (p.1 ++ [d], rD.2)
              | none => (p.1, rD.2)) ([], (createWire 2 false (withOracle s o1)).2)).1.length < 4
        · rw [if_pos hl]
          dsimp only [createWire, newOperation, withOracle]
          refine ⟨⟨rfl, rfl, by dsimp only; omega, ?_⟩, rfl, rfl, rfl,
            fun op hop => nomatch hop⟩
          intro w hw
          rcases List.mem_append.mp hw with hw | hw
          · exact Or.inl hw
          · right
            rcases List.mem_singleton.mp hw with rfl
            dsimp only
            omega
        · rw [if_neg hl]
          dsimp only [createWire, newOperation, withOracle]
          dsimp only [createWire, withOracle] at hl hmem hlen
          rw [foldl_addInput]
          refine ⟨⟨rfl, rfl, by dsimp only; omega, ?_⟩, rfl, rfl, rfl, ?_⟩
          · intro w hw
            rcases List.mem_append.mp hw with hw | hw
            · rcases List.mem_append.mp hw with hw | hw
              · exact Or.inl hw
              · right
                rcases List.mem_singleton.mp hw with rfl
                dsimp only
                omega
            · right
              rcases List.mem_singleton.mp hw with rfl
              dsimp only
              omega
          · intro op hop
            injection hop with hop
            subst hop
            refine ⟨?_, rfl, ?_, rfl, rfl⟩
            · refine requiredOperandsOk_mux4 rfl ?_
              dsimp only [Operation.addInput]
              simp only [List.length_append, List.nil_append, List.length_cons,
                List.length_nil, List.length_range] at hl hlen ⊢
              omega
            · intro sig hsig
              dsimp only [Operation.addInput] at hsig
              rw [List.nil_append] at hsig
              rcases List.mem_cons.mp hsig with rfl | hsig
              · dsimp only [Operation.addInput]
                omega
              · rcases hmem sig hsig with h | h
                · simp at h
                · have := hav sig h
                  dsimp only [Operation.addInput]
                  omega
      · rw [if_neg hw2]
        dsimp only
        obtain ⟨o2, ho2, hmem, hlen⟩ := collectLoop_spec available (List.range 4) []
          (withOracle s o1)
        rw [ho2, withOracle_withOracle]
        by_cases hl : ((List.range 4).foldl
            (fun (p : List Signal × GenState) _ =>
              let rD := selectRandomSignal available p.2
              match rD.1 with
              | some d => (p.1 ++ [d], rD.2)
              | none => (p.1, rD.2)) ([], withOracle s o1)).1.length < 4
        · rw [if_pos hl]
          exact ⟨⟨rfl, rfl, le_refl _, fun w hw => Or.inl hw⟩, rfl, rfl, rfl,
            fun op hop => nomatch hop⟩
        · rw [if_neg hl]
          dsimp only [createWire, newOperation, withOracle]
          dsimp only [createWire, withOracle] at hl hmem hlen
          rw [foldl_addInput]
          refine ⟨⟨rfl, rfl, by dsimp only; omega, ?_⟩, rfl, rfl, rfl, ?_⟩
          · intro w hw
            rcases List.mem_append.mp hw with hw | hw
            · exact Or.inl hw
            · right
              rcases List.mem_singleton.mp hw with rfl
              dsimp only
              omega
          · intro op hop
            injection hop with hop
            subst hop
            refine ⟨?_, rfl, ?_, rfl, rfl⟩
            · refine requiredOperandsOk_mux4 rfl ?_
              dsimp only [Operation.addInput]
              simp only [List.length_append, List.nil_append, List.length_cons,
                List.length_nil, List.length_range] at hl hlen ⊢
              omega
            · intro sig hsig
              dsimp only [Operation.addInput] at hsig
              rw [List.nil_append] at hsig
              rcases List.mem_cons.mp hsig with rfl | hsig
              · exact Nat.lt_succ_of_lt (hav sig hsel)
              · rcases hmem sig hsig with h | h
                · simp at h
                · exact Nat.lt_succ_of_lt (hav sig h)

/-- `StateFrame` is reflexive. -/
theorem StateFrame_refl (s : GenState) : StateFrame s s :=
  ⟨rfl, rfl, le_refl _, fun w hw => Or.inl hw⟩

/-- `StateFrame` is transitive. -/
theorem StateFrame_trans {s s' s'' : GenState}
    (h1 : StateFrame s s') (h2 : StateFrame s' s'') : StateFrame s s'' := by
  obtain ⟨hi1, ho1, hs1, hw1⟩ := h1
  obtain ⟨hi2, ho2, hs2, hw2⟩ := h2
  refine ⟨hi2.trans hi1, ho2.trans ho1, hs1.trans hs2, ?_⟩
  intro w hw
  rcases hw2 w hw with h | h
  · rcases hw1 w h with h' | h'
    · exact Or.inl h'
    · exact Or.inr (lt_of_lt_of_le h' hs2)
  · exact Or.inr h

/-- The dispatch ladder of the datapath loop satisfies the single-attempt
contract whatever kind was drawn. -/
theorem dispatchOp_spec (cfg : GeneratorConfig) (t : OpType)
    (available : List Signal) (s : GenState)
    (hav : ∀ sig ∈ available, sig.uid < s.stamp) :
    GenOpSpec s (dispatchOp cfg t available s) := by
  unfold dispatchOp
  repeat' split
  · exact generateArithmeticOp_spec cfg available s hav
  · exact generateLogicalOp_spec available s hav
  · exact generateComparisonOp_spec available s hav
  · exact generateShiftOp_spec cfg available s hav
  · exact generateMuxOp_spec available s hav
  · exact generateConcatOp_spec available s hav
  · exact generateReductionOp_spec available s hav
  · exact ⟨StateFrame_refl s, rfl, rfl, rfl, fun op hop => nomatch hop⟩

/-- Appending the dispatched operation (when there is one) preserves the
frame and only extends the operation sequence with well-formed entries. -/
theorem pushOp_spec {s : GenState} {r : Option Operation × GenState}
    (h : GenOpSpec s r) :
    StateFrame s (pushOp r) ∧ (pushOp r).regs = s.regs ∧
    (pushOp r).control_blocks = s.control_blocks ∧
    ∃ new, (pushOp r).operations = s.operations ++ new ∧
      ∀ op ∈ new, OpGood op := by
  obtain ⟨hf, hregs, hops, hcbs, hnew⟩ := h
  unfold pushOp
  rcases hr : r.1 with _ | op
  · exact ⟨hf, hregs, hcbs, [], by rw [hops, List.append_nil], by simp⟩
  · refine ⟨⟨hf.1, hf.2.1, hf.2.2.1, hf.2.2.2⟩, hregs, hcbs, [op], by rw [hops], ?_⟩
    intro op' hop'
    rcases List.mem_singleton.mp hop' with rfl
    exact hnew _ hr

/-- The master monotonicity lemma: a state change that only grows the
pool with fresh signals, grows the operation list with well-formed
operations and grows the block list with well-formed blocks preserves
the run invariant. -/
theorem GenInv_mono {s s' : GenState}
    (hstamp : s.stamp ≤ s'.stamp)
    (hin : ∀ sig ∈ s'.inputs, sig ∈ s.inputs ∨ sig.uid < s'.stamp)
    (hw : ∀ sig ∈ s'.wires, sig ∈ s.wires ∨ sig.uid < s'.stamp)
    (hops : ∀ op ∈ s'.operations, op ∈ s.operations ∨ OpGood op)
    (hcbs : ∀ cb ∈ s'.control_blocks, cb ∈ s.control_blocks ∨
      ((∀ op ∈ blockOps cb, OpGood op) ∧ GoodBlock cb))
    (h : GenInv s) : GenInv s' := by
  obtain ⟨⟨hpin, hpw⟩, hop, hcb⟩ := h
  refine ⟨⟨?_, ?_⟩, ?_, ?_⟩
  · intro sig hsig
    rcases hin sig hsig with h' | h'
    · exact lt_of_lt_of_le (hpin sig h') hstamp
    · exact h'
  · intro sig hsig
    rcases hw sig hsig with h' | h'
    · exact lt_of_lt_of_le (hpw sig h') hstamp
    · exact h'
  · intro op hop'
    rcases hops op hop' with h' | h'
    · exact hop op h'
    · exact h'
  · intro cb hcb'
    rcases hcbs cb hcb' with h' | h'
    · exact hcb cb h'
    · exact h'

/-- A fold preserves any state predicate its body preserves. -/
theorem foldl_GenState_inv {α : Type} (P : GenState → Prop)
    (f : GenState → α → GenState)
    (hstep : ∀ s a, P s → P (f s a)) :
    ∀ (l : List α) (s : GenState), P s → P (l.foldl f s)
  | [], _, h => h
  | a :: l, s, h => foldl_GenState_inv P f hstep l (f s a) (hstep s a h)

/-- One datapath attempt preserves the run invariant. -/
theorem datapathStep_inv (cfg : GeneratorConfig) {s : GenState}
    (h : GenInv s) : GenInv (datapathStep cfg s) := by
  obtain ⟨o, ho⟩ := selectRandomOpType_oracleOnly cfg s
  unfold datapathStep
  dsimp only
  rw [ho]
  have hav : ∀ sig ∈ (if (getAvailableSignals (withOracle s o)).isEmpty
      then (withOracle s o).inputs else getAvailableSignals (withOracle s o)),
      sig.uid < (withOracle s o).stamp := by
    intro sig hsig
    obtain ⟨⟨hpin, hpw⟩, -, -⟩ := h
    by_cases he : (getAvailableSignals (withOracle s o)).isEmpty
    · rw [if_pos he] at hsig
      exact hpin sig hsig
    · rw [if_neg he] at hsig
      rcases List.mem_append.mp hsig with h' | h'
      · exact hpin sig h'
      · exact hpw sig h'
  have hpush := pushOp_spec
    (dispatchOp_spec cfg (selectRandomOpType cfg s).1 _ (withOracle s o) hav)
  obtain ⟨⟨hi, hob, hst, hwires⟩, hregs, hcbs, new, hops, hnew⟩ := hpush
  refine GenInv_mono hst ?_ ?_ ?_ ?_ h
  · intro sig hsig
    rw [hi] at hsig
    exact Or.inl hsig
  · exact hwires
  · intro op hop
    rw [hops] at hop
    rcases List.mem_append.mp hop with h' | h'
    · exact Or.inl h'
    · exact Or.inr (hnew op h')
  · intro cb hcb
    rw [hcbs] at hcb
    exact Or.inl hcb

/-- The whole datapath phase preserves the run invariant. -/
theorem generateDatapath_inv (cfg : GeneratorConfig) {s : GenState}
    (h : GenInv s) : GenInv (generateDatapath cfg s) := by
  unfold generateDatapath
  exact foldl_GenState_inv GenInv _ (fun s _ hs => datapathStep_inv cfg hs) _ s h

/-- The optional sign draw `use_signed && randomBool(0.5)` only advances
the oracle. -/
theorem signDraw_snd (c : Bool) (p : ℚ) (s : GenState) :
    (if c then randomBool p s else (false, s)).2 =
      withOracle s (if c then s.oracle.tail else s.oracle) := by
  cases c
  · rfl
  · rfl

/-- The input-declaration phase preserves the run invariant. -/
theorem generateInputs_inv (cfg : GeneratorConfig) {s : GenState}
    (h : GenInv s) : GenInv (generateInputs cfg s) := by
  unfold generateInputs
  refine foldl_GenState_inv GenInv _ ?_ _ s h
  intro s i hs
  dsimp only
  rw [generateRandomWidth_snd, signDraw_snd, withOracle_withOracle]
  refine GenInv_mono (by dsimp only [withOracle]; omega) ?_ ?_ ?_ ?_ hs
  · intro sig hsig
    dsimp only [withOracle] at hsig ⊢
    rcases List.mem_append.mp hsig with h' | h'
    · exact Or.inl h'
    · right
      rcases List.mem_singleton.mp h' with rfl
      dsimp only
      omega
  · intro sig hsig
    exact Or.inl hsig
  · intro op hop
    exact Or.inl hop
  · intro cb hcb
    exact Or.inl hcb

/-- The output-declaration phase preserves the run invariant. -/
theorem generateOutputs_inv (cfg : GeneratorConfig) {s : GenState}
    (h : GenInv s) : GenInv (generateOutputs cfg s) := by
  unfold generateOutputs
  refine foldl_GenState_inv GenInv _ ?_ _ s h
  intro s i hs
  dsimp only
  rw [randomInt_snd, signDraw_snd, withOracle_withOracle]
  refine GenInv_mono (by dsimp only [withOracle]; omega) ?_ ?_ ?_ ?_ hs
  · intro sig hsig
    exact Or.inl hsig
  · intro sig hsig
    exact Or.inl hsig
  · intro op hop
    exact Or.inl hop
  · intro cb hcb
    exact Or.inl hcb

/-- Pipeline tagging preserves the run invariant: every retained
operation still has depth `0` at tagging time, so the freshly computed
stage is `0 * num_pipeline_stages / max_depth = 0`. -/
theorem generatePipeline_inv (cfg : GeneratorConfig) {s : GenState}
    (h : GenInv s) : GenInv (generatePipeline cfg s) := by
  refine GenInv_mono ?_ ?_ ?_ ?_ ?_ h
  · exact le_refl _
  · intro sig hs
    exact Or.inl hs
  · intro sig hs
    exact Or.inl hs
  · intro op hop
    obtain ⟨-, hops, -⟩ := h
    unfold generatePipeline at hop
    dsimp only at hop
    rcases List.mem_map.mp hop with ⟨op₀, hmem, rfl⟩
    obtain ⟨hreq, hout, hin, hdepth, hstage⟩ := hops op₀ hmem
    right
    refine ⟨?_, hout, hin, hdepth, ?_⟩
    · unfold requiredOperandsOk at hreq ⊢
      exact hreq
    · dsimp only
      rw [hdepth, zero_mul, Int.zero_tdiv]
  · intro cb hcb
    exact Or.inl hcb

/-- The output-connection phase preserves the run invariant: each
iteration only advances the oracle and the stamp (the connecting
operation is dropped). -/
theorem connectOutputs_inv {s : GenState} (h : GenInv s) :
    GenInv (connectOutputs s) := by
  unfold connectOutputs
  dsimp only
  refine foldl_GenState_inv GenInv _ ?_ _ s h
  intro s' out hs'
  dsimp only
  by_cases he : (getAvailableSignals s).isEmpty
  · rw [if_pos he]
    exact hs'
  · rw [if_neg he]
    obtain ⟨o, ho⟩ := selectRandomSignal_oracleOnly (getAvailableSignals s) s'
    rw [ho]
    rcases hS : (selectRandomSignal (getAvailableSignals s) s').1 with _ | src
    · exact hs'
    · dsimp only [newOperation]
      refine GenInv_mono (by dsimp only [withOracle]; omega) ?_ ?_ ?_ ?_ hs'
      · intro sig hsig
        exact Or.inl hsig
      · intro sig hsig
        exact Or.inl hsig
      · intro op hop
        exact Or.inl hop
      · intro cb hcb
        exact Or.inl hcb

/-- A fresh generator satisfies the run invariant. -/
theorem initState_inv (oracle : List Nat) : GenInv (initState oracle) := by
  refine ⟨⟨?_, ?_⟩, ?_, ?_⟩ <;> intro x hx <;> simp [initState] at hx

/-- One standalone sharing operation preserves the invariant and keeps
the captured pool fresh. -/
theorem sharingOpStep_inv (cfg : GeneratorConfig) (available : List Signal)
    {s : GenState} (h : GenInv s)
    (hav : ∀ sig ∈ available, sig.uid < s.stamp) :
    GenInv (sharingOpStep cfg available s) ∧
      ∀ sig ∈ available, sig.uid < (sharingOpStep cfg available s).stamp := by
  unfold sharingOpStep
  dsimp only
  obtain ⟨o1, ho1⟩ := selectRandomSignal_oracleOnly available s
  rw [ho1]
  obtain ⟨o2, ho2⟩ := selectRandomSignal_oracleOnly available (withOracle s o1)
  rw [ho2, withOracle_withOracle]
  rcases hA : (selectRandomSignal available s).1 with _ | a
  · exact ⟨h, hav⟩
  · rcases hB : (selectRandomSignal available (withOracle s o1)).1 with _ | b
    · exact ⟨h, hav⟩
    · have ha : a ∈ available := selectRandomSignal_mem hA
      have hb : b ∈ available := selectRandomSignal_mem hB
      rw [randomBool_snd, withOracle_withOracle]
      by_cases hm : (randomBool (7 / 10) (withOracle s o2)).1 = true
      · rw [if_pos hm]
        dsimp only [createWire, newOperation, withOracle]
        constructor
        · refine GenInv_mono ?_ ?_ ?_ ?_ ?_ h
          · dsimp only
            omega
          · intro sig hsig
            exact Or.inl hsig
          · intro sig hsig
            rcases List.mem_append.mp hsig with h' | h'
            · exact Or.inl h'
            · right
              rcases List.mem_singleton.mp h' with rfl
              dsimp only
              omega
          · intro op hop
            rcases List.mem_append.mp hop with h' | h'
            · exact Or.inl h'
            · right
              rcases List.mem_singleton.mp h' with rfl
              refine ⟨?_, rfl, ?_, rfl, rfl⟩
              · exact requiredOperandsOk_of_isBinary rfl rfl
              · intro sig hsig
                dsimp only [Operation.addInput] at hsig
                rw [List.nil_append] at hsig
                rcases List.mem_cons.mp hsig with rfl | hsig
                · exact Nat.lt_succ_of_lt (hav sig ha)
                · rcases List.mem_singleton.mp hsig with rfl
                  exact Nat.lt_succ_of_lt (hav sig hb)
          · intro cb hcb
            exact Or.inl hcb
        · intro sig hsig
          have := hav sig hsig
          omega
      · rw [if_neg hm]
        dsimp only [createWire, newOperation, withOracle]
        constructor
        · refine GenInv_mono ?_ ?_ ?_ ?_ ?_ h
          · dsimp only
            omega
          · intro sig hsig
            exact Or.inl hsig
          · intro sig hsig
            rcases List.mem_append.mp hsig with h' | h'
            · exact Or.inl h'
            · right
              rcases List.mem_singleton.mp h' with rfl
              dsimp only
              omega
          · intro op hop
            rcases List.mem_append.mp hop with h' | h'
            · exact Or.inl h'
            · right
              rcases List.mem_singleton.mp h' with rfl
              refine ⟨?_, rfl, ?_, rfl, rfl⟩
              · exact requiredOperandsOk_of_isBinary rfl rfl
              · intro sig hsig
                dsimp only [Operation.addInput] at hsig
                rw [List.nil_append] at hsig
                rcases List.mem_cons.mp hsig with rfl | hsig
                · exact Nat.lt_succ_of_lt (hav sig ha)
                · rcases List.mem_singleton.mp hsig with rfl
                  exact Nat.lt_succ_of_lt (hav sig hb)
          · intro cb hcb
            exact Or.inl hcb
        · intro sig hsig
          have := hav sig hsig
          omega

/-- One sharing group preserves the invariant and keeps the captured
pool fresh. -/
theorem sharingGroupStep_inv (cfg : GeneratorConfig) (available : List Signal)
    {s : GenState} (h : GenInv s)
    (hav : ∀ sig ∈ available, sig.uid < s.stamp) :
    GenInv (sharingGroupStep cfg available s) ∧
      ∀ sig ∈ available, sig.uid < (sharingGroupStep cfg available s).stamp := by
  unfold sharingGroupStep
  dsimp only
  obtain ⟨o1, ho1⟩ := selectRandomSignal_oracleOnly available s
  rw [ho1]
  rcases hE : (selectRandomSignal available s).1 with _ | e
  · exact ⟨h, hav⟩
  · rw [randomInt_snd, withOracle_withOracle]
    refine foldl_GenState_inv
      (fun s' => GenInv s' ∧ ∀ sig ∈ available, sig.uid < s'.stamp) _ ?_ _ _ ⟨h, hav⟩
    intro s' _ hp
    exact sharingOpStep_inv cfg available hp.1 hp.2

/-- The sharing-opportunity phase preserves the run invariant. -/
theorem generateSharingOpportunities_inv (cfg : GeneratorConfig) {s : GenState}
    (h : GenInv s) : GenInv (generateSharingOpportunities cfg s) := by
  unfold generateSharingOpportunities
  dsimp only
  by_cases hl : (getAvailableSignals s).length < 4
  · rw [if_pos hl]
    exact h
  · rw [if_neg hl, randomInt_snd]
    have hav : ∀ sig ∈ getAvailableSignals s, sig.uid < s.stamp := by
      intro sig hsig
      obtain ⟨⟨hpin, hpw⟩, -, -⟩ := h
      rcases List.mem_append.mp hsig with h' | h'
      · exact hpin sig h'
      · exact hpw sig h'
    have hstart : GenInv (withOracle s s.oracle.tail) ∧
        ∀ sig ∈ getAvailableSignals s, sig.uid < (withOracle s s.oracle.tail).stamp :=
      ⟨h, hav⟩
    exact (foldl_GenState_inv
      (fun s' => GenInv s' ∧ ∀ sig ∈ getAvailableSignals s, sig.uid < s'.stamp) _
      (fun s' _ hp => sharingGroupStep_inv cfg (getAvailableSignals s) hp.1 hp.2)
      _ _ hstart).1

/-- Existential form of `signDraw_snd`. -/
theorem signDraw_oracleOnly (c : Bool) (p : ℚ) (s : GenState) :
    ∃ o, (if c then randomBool p s else (false, s)).2 = withOracle s o :=
  ⟨_, signDraw_snd c p s⟩

/-- Appending an operation to the unique case holding the target value:
the accumulating `addCaseOpAux` walk leaves the earlier cases intact. -/
theorem addCaseOpAux_append :
    ∀ (pre : List CaseItem) (c : CaseItem) (v : Int) (op : Operation),
      c.value = v → (∀ c' ∈ pre, c'.value ≠ v) →
      addCaseOpAux (pre ++ [c]) v op =
        pre ++ [{ c with operations := c.operations ++ [op] }]
  | [], c, v, op, hv, _ => by
    dsimp [addCaseOpAux]
    rw [if_pos hv]
  | c'' :: pre, c, v, op, hv, hpre => by
    dsimp [addCaseOpAux]
    rw [if_neg (hpre c'' (List.mem_cons_self _ _)),
      addCaseOpAux_append pre c v op hv
        (fun c' h => hpre c' (List.mem_cons_of_mem _ h))]

/-- The analogous fact for `addCaseAsgAux`. -/
theorem addCaseAsgAux_append :
    ∀ (pre : List CaseItem) (c : CaseItem) (v : Int) (o i : Signal),
      c.value = v → (∀ c' ∈ pre, c'.value ≠ v) →
      addCaseAsgAux (pre ++ [c]) v o i =
        pre ++ [{ c with assignments := c.assignments ++ [(o, i)] }]
  | [], c, v, o, i, hv, _ => by
    dsimp [addCaseAsgAux]
    rw [if_pos hv]
  | c'' :: pre, c, v, o, i, hv, hpre => by
    dsimp [addCaseAsgAux]
    rw [if_neg (hpre c'' (List.mem_cons_self _ _)),
      addCaseAsgAux_append pre c v o i hv
        (fun c' h => hpre c' (List.mem_cons_of_mem _ h))]

/-- One register-output iteration appends one fresh register and touches
nothing else but the oracle, the counters and the register table. -/
theorem blockOutputsBody_spec (cfg : GeneratorConfig)
    (p : List Signal × GenState) (x : Nat) :
    ∃ r, (blockOutputsBody cfg p x).1 = p.1 ++ [r] ∧
      r.type = SignalType.REG ∧
      (blockOutputsBody cfg p x).2.inputs = p.2.inputs ∧
      (blockOutputsBody cfg p x).2.outputs = p.2.outputs ∧
      (blockOutputsBody cfg p x).2.wires = p.2.wires ∧
      (blockOutputsBody cfg p x).2.operations = p.2.operations ∧
      (blockOutputsBody cfg p x).2.control_blocks = p.2.control_blocks ∧
      p.2.stamp ≤ (blockOutputsBody cfg p x).2.stamp := by
  unfold blockOutputsBody
  dsimp only
  rw [generateRandomWidth_snd, signDraw_snd, withOracle_withOracle]
  exact ⟨_, rfl, rfl, rfl, rfl, rfl, rfl, rfl,
    by dsimp only [createReg, withOracle]; omega⟩

/-- The register-output loop produces registers only and leaves the rest
of the state (up to oracle, counters and register table) unchanged. -/
theorem blockOutputsFold_spec (cfg : GeneratorConfig) :
    ∀ (l : List Nat) (p : List Signal × GenState),
      ∃ new, (l.foldl (blockOutputsBody cfg) p).1 = p.1 ++ new ∧
        (∀ r ∈ new, r.type = SignalType.REG) ∧
        (l.foldl (blockOutputsBody cfg) p).2.inputs = p.2.inputs ∧
        (l.foldl (blockOutputsBody cfg) p).2.outputs = p.2.outputs ∧
        (l.foldl (blockOutputsBody cfg) p).2.wires = p.2.wires ∧
        (l.foldl (blockOutputsBody cfg) p).2.operations = p.2.operations ∧
        (l.foldl (blockOutputsBody cfg) p).2.control_blocks = p.2.control_blocks ∧
        p.2.stamp ≤ (l.foldl (blockOutputsBody cfg) p).2.stamp
  | [], p => ⟨[], by simp, by simp, rfl, rfl, rfl, rfl, rfl, le_refl _⟩
  | x :: l, p => by
    rw [List.foldl_cons]
    obtain ⟨r, hr1, hrty, hi, ho, hw, hop, hcb, hst⟩ := blockOutputsBody_spec cfg p x
    obtain ⟨new, h1, h2, h3, h4, h5, h6, h7, h8⟩ :=
      blockOutputsFold_spec cfg l (blockOutputsBody cfg p x)
    refine ⟨r :: new, ?_, ?_, h3.trans hi, h4.trans ho, h5.trans hw, h6.trans hop,
      h7.trans hcb, le_trans hst h8⟩
    · rw [h1, hr1, List.append_assoc]
      rfl
    · intro r' hr'
      rcases List.mem_cons.mp hr' with rfl | hr'
      · exact hrty
      · exact h2 r' hr'

/-- Specification of `createBlockOutputs`: a list of registers, and a
state change confined to oracle, counters and the register table. -/
theorem createBlockOutputs_spec (cfg : GeneratorConfig) (n : Nat) (s : GenState) :
    (∀ r ∈ (createBlockOutputs cfg n s).1, r.type = SignalType.REG) ∧
    (createBlockOutputs cfg n s).2.inputs = s.inputs ∧
    (createBlockOutputs cfg n s).2.outputs = s.outputs ∧
    (createBlockOutputs cfg n s).2.wires = s.wires ∧
    (createBlockOutputs cfg n s).2.operations = s.operations ∧
    (createBlockOutputs cfg n s).2.control_blocks = s.control_blocks ∧
    s.stamp ≤ (createBlockOutputs cfg n s).2.stamp := by
  unfold createBlockOutputs
  obtain ⟨new, h1, h2, h3, h4, h5, h6, h7, h8⟩ :=
    blockOutputsFold_spec cfg (List.range n) ([], s)
  refine ⟨?_, h3, h4, h5, h6, h7, h8⟩
  intro r hr
  rw [h1] at hr
  exact h2 r (by simpa using hr)

/-- One default-assignment iteration on a non-empty pool records exactly
one assignment for the given output and only advances the oracle. -/
theorem defaultAssignBody_spec (available : List Signal) (hne : available ≠ [])
    (p : List (Signal × Signal) × GenState) (output : Signal) :
    ∃ inp o, defaultAssignBody available p output =
      (p.1 ++ [(output, inp)], withOracle p.2 o) := by
  unfold defaultAssignBody
  dsimp only
  obtain ⟨o, ho⟩ := selectRandomSignal_oracleOnly available p.2
  obtain ⟨inp, hI, hmem⟩ := selectRandomSignal_nonempty available hne p.2
  rw [ho, hI]
  exact ⟨inp, o, rfl⟩

/-- The default-assignment loop on a non-empty pool records one
assignment per output, in order, and only advances the oracle. -/
theorem defaultAssignFold_spec (available : List Signal) (hne : available ≠ []) :
    ∀ (outs : List Signal) (p : List (Signal × Signal) × GenState),
      ∃ l o, outs.foldl (defaultAssignBody available) p = (p.1 ++ l, withOracle p.2 o) ∧
        l.map Prod.fst = outs
  | [], p => ⟨[], p.2.oracle, by rw [List.append_nil]; rfl, rfl⟩
  | out :: outs, p => by
    rw [List.foldl_cons]
    obtain ⟨inp, o1, hbody⟩ := defaultAssignBody_spec available hne p out
    rw [hbody]
    obtain ⟨l, o2, hfold, hmap⟩ :=
      defaultAssignFold_spec available hne outs (p.1 ++ [(out, inp)], withOracle p.2 o1)
    rw [hfold]
    refine ⟨(out, inp) :: l, o2, ?_, ?_⟩
    · rw [withOracle_withOracle, List.append_assoc]
      rfl
    · simp [hmap]

/-- Combined effect of `addCaseOperation` followed by
`addCaseAssignment` on the unique case holding the target value. -/
theorem addCaseOpAsg_append (pre : List CaseItem) (c : CaseItem) (v : Int)
    (op : Operation) (o i : Signal) (hv : c.value = v)
    (hpre : ∀ c' ∈ pre, c'.value ≠ v) :
    addCaseAsgAux (addCaseOpAux (pre ++ [c]) v op) v o i =
      pre ++ [{ c with
        operations := c.operations ++ [op],
        assignments := c.assignments ++ [(o, i)] }] := by
  rw [addCaseOpAux_append pre c v op hv hpre,
    addCaseAsgAux_append pre { c with operations := c.operations ++ [op] } v o i hv hpre]

/-- One per-output iteration of a case body: on a non-empty pool it
appends exactly one assignment (and possibly one well-formed operation)
to the unique case holding the current value, and touches only the
oracle, the wire table and the stamp. -/
theorem caseOutputStep_spec (cfg : GeneratorConfig) (available : List Signal)
    (hne : available ≠ []) (v : Int) (output : Signal) (cb : ControlBlock)
    (s : GenState) (hav : ∀ sig ∈ available, sig.uid < s.stamp)
    (pre : List CaseItem) (c : CaseItem)
    (hcases : cb.cases = pre ++ [c]) (hv : c.value = v)
    (hpre : ∀ c' ∈ pre, c'.value ≠ v) :
    ∃ newops src s',
      caseOutputStep cfg available v output (cb, s) =
        ({ cb with cases := pre ++ [{ c with
             operations := c.operations ++ newops,
             assignments := c.assignments ++ [(output, src)] }] }, s') ∧
      (∀ op ∈ newops, OpGood op) ∧
      StateFrame s s' ∧ s'.regs = s.regs ∧ s'.operations = s.operations ∧
      s'.control_blocks = s.control_blocks := by
  unfold caseOutputStep
  dsimp only
  obtain ⟨oS, hoS⟩ := signDraw_oracleOnly cfg.generate_sharing_opportunities (7 / 10) s
  rw [hoS]
  by_cases hsh : (if cfg.generate_sharing_opportunities then randomBool (7 / 10) s
      else (false, s)).1 = true
  · rw [if_pos hsh]
    obtain ⟨a, hA, haMem⟩ := selectRandomSignal_nonempty available hne (withOracle s oS)
    obtain ⟨o1, ho1⟩ := selectRandomSignal_oracleOnly available (withOracle s oS)
    rw [ho1, withOracle_withOracle, hA]
    obtain ⟨b, hB, hbMem⟩ := selectRandomSignal_nonempty available hne (withOracle s o1)
    obtain ⟨o2, ho2⟩ := selectRandomSignal_oracleOnly available (withOracle s o1)
    rw [ho2, withOracle_withOracle, hB]
    dsimp only
    obtain ⟨o3, ho3⟩ := selectArithmeticOpType_oracleOnly cfg (withOracle s o2)
    rw [ho3, withOracle_withOracle]
    dsimp only [ControlBlock.addCaseOperation, ControlBlock.addCaseAssignment]
    rw [hcases, addCaseOpAsg_append pre c v _ output _ hv hpre]
    dsimp only [createWire, newOperation, withOracle]
    refine ⟨_, _, _, rfl, ?_, ?_, rfl, rfl, rfl⟩
    · intro op hop
      rcases List.mem_singleton.mp hop with rfl
      refine ⟨?_, rfl, ?_, rfl, rfl⟩
      · exact requiredOperandsOk_of_isBinary (selectArithmeticOpType_isBinary cfg _) rfl
      · intro sig hsig
        dsimp only [Operation.addInput] at hsig
        rw [List.nil_append] at hsig
        rcases List.mem_cons.mp hsig with rfl | hsig
        · exact Nat.lt_succ_of_lt (hav sig haMem)
        · rcases List.mem_singleton.mp hsig with rfl
          exact Nat.lt_succ_of_lt (hav sig hbMem)
    · refine ⟨rfl, rfl, by dsimp only; omega, ?_⟩
      intro w hw
      rcases List.mem_append.mp hw with hw | hw
      · exact Or.inl hw
      · right
        rcases List.mem_singleton.mp hw with rfl
        dsimp only
        omega
  · rw [if_neg hsh]
    obtain ⟨inp, hI, hiMem⟩ := selectRandomSignal_nonempty available hne (withOracle s oS)
    obtain ⟨o1, ho1⟩ := selectRandomSignal_oracleOnly available (withOracle s oS)
    rw [ho1, withOracle_withOracle, hI]
    dsimp only [ControlBlock.addCaseAssignment]
    rw [hcases, addCaseAsgAux_append pre c v output inp hv hpre]
    refine ⟨[], inp, withOracle s o1, ?_, by simp, ?_, rfl, rfl, rfl⟩
    · rw [List.append_nil]
    · exact ⟨rfl, rfl, le_refl _, fun w hw => Or.inl hw⟩

/-- The per-case output loop on a non-empty pool: the unique case holding
the current value receives one assignment per output (in order, with the
output register as the written side) plus only well-formed operations;
the state change is confined to oracle, wires and stamp. -/
theorem caseFold_spec (cfg : GeneratorConfig) (available : List Signal)
    (hne : available ≠ []) (v : Int) :
    ∀ (outs : List Signal) (cb : ControlBlock) (s : GenState)
      (pre : List CaseItem) (c : CaseItem),
      cb.cases = pre ++ [c] → c.value = v → (∀ c' ∈ pre, c'.value ≠ v) →
      (∀ sig ∈ available, sig.uid < s.stamp) →
      ∃ newops newasg s',
        outs.foldl (fun q output => caseOutputStep cfg available v output q) (cb, s) =
          ({ cb with cases := pre ++ [{ c with
               operations := c.operations ++ newops,
               assignments := c.assignments ++ newasg }] }, s') ∧
        newasg.map Prod.fst = outs ∧ (∀ op ∈ newops, OpGood op) ∧
        StateFrame s s' ∧ s'.regs = s.regs ∧ s'.operations = s.operations ∧
        s'.control_blocks = s.control_blocks
  | [], cb, s, pre, c, hcases, hv, hpre, hav => by
    refine ⟨[], [], s, ?_, rfl, by simp, StateFrame_refl s, rfl, rfl, rfl⟩
    dsimp only [List.foldl_nil]
    rw [List.append_nil, List.append_nil, ← hcases]
  | out :: outs, cb, s, pre, c, hcases, hv, hpre, hav => by
    rw [List.foldl_cons]
    obtain ⟨newops1, src, s1, hstep, hgood1, hframe1, hregs1, hops1, hcbs1⟩ :=
      caseOutputStep_spec cfg available hne v out cb s hav pre c hcases hv hpre
    rw [hstep]
    obtain ⟨newopsR, newasgR, s', hfold, hmap, hgoodR, hframeR, hregsR, hopsR, hcbsR⟩ :=
      caseFold_spec cfg available hne v outs
        { cb with cases := pre ++ [{ c with
            operations := c.operations ++ newops1,
            assignments := c.assignments ++ [(out, src)] }] } s1 pre
        { c with operations := c.operations ++ newops1,
                 assignments := c.assignments ++ [(out, src)] }
        rfl hv hpre
        (fun sig hs => lt_of_lt_of_le (hav sig hs) hframe1.2.2.1)
    rw [hfold]
    refine ⟨newops1 ++ newopsR, (out, src) :: newasgR, s', ?_, ?_, ?_,
      StateFrame_trans hframe1 hframeR, hregsR.trans hregs1, hopsR.trans hops1,
      hcbsR.trans hcbs1⟩
    · dsimp only
      rw [List.append_assoc, List.append_assoc, List.singleton_append]
    · simp [hmap]
    · intro op hop
      rcases List.mem_append.mp hop with h' | h'
      · exact hgood1 op h'
      · exact hgoodR op h'

/-- The per-statement case loop: starting from a block with no cases, it
builds one case per value `0 … m-1` (in order), each writing the same
output list, holding only well-formed operations. -/
theorem casesLoop_spec (cfg : GeneratorConfig) (available : List Signal)
    (hne : available ≠ []) (outs : List Signal) :
    ∀ (m : Nat) (cb : ControlBlock) (s : GenState),
      cb.cases = [] →
      (∀ sig ∈ available, sig.uid < s.stamp) →
      ∃ cs s',
        (List.range m).foldl
          (fun (p : ControlBlock × GenState) case_val =>
            outs.foldl
              (fun q output => caseOutputStep cfg available (Int.ofNat case_val) output q)
              (p.1.addCase (Int.ofNat case_val), p.2)) (cb, s) =
          ({ cb with cases := cs }, s') ∧
        cs.map CaseItem.value = (List.range m).map Int.ofNat ∧
        (∀ ci ∈ cs, ci.assignments.map Prod.fst = outs ∧
          ∀ op ∈ ci.operations, OpGood op) ∧
        StateFrame s s' ∧ s'.regs = s.regs ∧ s'.operations = s.operations ∧
        s'.control_blocks = s.control_blocks := by
  intro m
  induction m with
  | zero =>
    intro cb s hcb0 hav
    refine ⟨[], s, ?_, by simp, by simp, StateFrame_refl s, rfl, rfl, rfl⟩
    dsimp only [List.range_zero, List.foldl_nil]
    rw [← hcb0]
  | succ m ih =>
    intro cb s hcb0 hav
    rw [List.range_succ, List.foldl_append]
    obtain ⟨cs, s1, hfold1, hvals, hprops, hframe1, hregs1, hops1, hcbs1⟩ := ih cb s hcb0 hav
    rw [hfold1]
    dsimp only [List.foldl_cons, List.foldl_nil]
    have hpre : ∀ c' ∈ cs, c'.value ≠ Int.ofNat m := by
      intro c' hc' heq
      have hmem : c'.value ∈ cs.map CaseItem.value := List.mem_map_of_mem _ hc'
      rw [hvals] at hmem
      rcases List.mem_map.mp hmem with ⟨j, hj, hje⟩
      rw [← hje] at heq
      have hjm : j = m := Int.ofNat.inj heq
      have hj' := List.mem_range.mp hj
      omega
    obtain ⟨newops, newasg, s', hfold2, hmap, hgood, hframe2, hregs2, hops2, hcbs2⟩ :=
      caseFold_spec cfg available hne (Int.ofNat m) outs
        (({ cb with cases := cs } : ControlBlock).addCase (Int.ofNat m)) s1 cs
        ⟨Int.ofNat m, [], []⟩ rfl rfl hpre
        (fun sig hs => lt_of_lt_of_le (hav sig hs) hframe1.2.2.1)
    rw [hfold2]
    refine ⟨cs ++ [⟨Int.ofNat m, newops, newasg⟩], s', ?_, ?_, ?_,
      StateFrame_trans hframe1 hframe2, hregs2.trans hregs1, hops2.trans hops1,
      hcbs2.trans hcbs1⟩
    · dsimp only [ControlBlock.addCase]
      rfl
    · simp [hvals]
    · intro ci hci
      rcases List.mem_append.mp hci with h' | h'
      · exact hprops ci h'
      · rcases List.mem_singleton.mp h' with rfl
        exact ⟨by simpa using hmap, by simpa using hgood⟩

/-- One case-statement construction preserves the run invariant, and the
pushed block is well-formed. -/
theorem caseStatementStep_inv (cfg : GeneratorConfig) {s : GenState}
    (h : GenInv s) : GenInv (caseStatementStep cfg s) := by
  unfold caseStatementStep
  dsimp only
  by_cases he : (getAvailableSignals s).isEmpty
  · rw [if_pos he]
    exact h
  · rw [if_neg he]
    have hne : getAvailableSignals s ≠ [] := by
      simpa [List.isEmpty_iff] using he
    have hav0 : ∀ sig ∈ getAvailableSignals s, sig.uid < s.stamp := by
      intro sig hsig
      obtain ⟨⟨hpin, hpw⟩, -, -⟩ := h
      rcases List.mem_append.mp hsig with h' | h'
      · exact hpin sig h'
      · exact hpw sig h'
    obtain ⟨selector, hSel, hselMem⟩ :=
      selectRandomSignal_nonempty (getAvailableSignals s) hne s
    obtain ⟨o1, ho1⟩ := selectRandomSignal_oracleOnly (getAvailableSignals s) s
    rw [hSel]
    dsimp only
    rw [ho1, randomInt_snd, withOracle_withOracle]
    obtain ⟨hOutsReg, hOi, hOo, hOw, hOop, hOcb, hOst⟩ :=
      createBlockOutputs_spec cfg
        (randomInt 1 3 (withOracle s o1)).1.toNat
        (withOracle s (withOracle s o1).oracle.tail)
    have hav1 : ∀ sig ∈ getAvailableSignals s,
        sig.uid < (createBlockOutputs cfg
          (randomInt 1 3 (withOracle s o1)).1.toNat
          (withOracle s (withOracle s o1).oracle.tail)).2.stamp :=
      fun sig hs => lt_of_lt_of_le (hav0 sig hs) hOst
    obtain ⟨cs, s2, hfold, hvals, hprops, hframe, hregs, hops, hcbs⟩ :=
      casesLoop_spec cfg (getAvailableSignals s) hne
        (createBlockOutputs cfg
          (randomInt 1 3 (withOracle s o1)).1.toNat
          (withOracle s (withOracle s o1).oracle.tail)).1
        (min (2 ^ (min selector.width 4).toNat) cfg.cases_per_statement).toNat
        ⟨ControlType.CASE_STATEMENT, some selector, [], [], []⟩
        (createBlockOutputs cfg
          (randomInt 1 3 (withOracle s o1)).1.toNat
          (withOracle s (withOracle s o1).oracle.tail)).2
        rfl hav1
    rw [hfold]
    unfold collectDefaultAssigns
    obtain ⟨dl, oD, hdef, hdmap⟩ := defaultAssignFold_spec (getAvailableSignals s) hne
      (createBlockOutputs cfg
        (randomInt 1 3 (withOracle s o1)).1.toNat
        (withOracle s (withOracle s o1).oracle.tail)).1
      ([], s2)
    rw [hdef]
    dsimp only [ControlBlock.setDefaultCase, withOracle]
    refine GenInv_mono ?_ ?_ ?_ ?_ ?_ h
    · exact le_trans hOst hframe.2.2.1
    · intro sig hsig
      left
      have h1 : sig ∈ s2.inputs := hsig
      rw [hframe.1, hOi] at h1
      exact h1
    · intro w hw
      have h1 : w ∈ s2.wires := hw
      rcases hframe.2.2.2 w h1 with h' | h'
      · left
        rw [hOw] at h'
        exact h'
      · right
        exact h'
    · intro op hop
      left
      have h1 : op ∈ s2.operations := hop
      rw [hops, hOop] at h1
      exact h1
    · intro cb hcb
      rcases List.mem_append.mp hcb with h' | h'
      · left
        have h1 : cb ∈ s2.control_blocks := h'
        rw [hcbs, hOcb] at h1
        exact h1
      · right
        rcases List.mem_singleton.mp h' with rfl
        constructor
        · intro op hop
          unfold blockOps at hop
          rcases List.mem_flatMap.mp (by simpa using hop) with ⟨ci, hci, hop2⟩
          exact (hprops ci hci).2 op hop2
        · refine ⟨(createBlockOutputs cfg
            (randomInt 1 3 (withOracle s o1)).1.toNat
            (withOracle s (withOracle s o1).oracle.tail)).1,
            hOutsReg, ?_, ?_, ?_⟩
          · intro c hc
            exact (hprops c hc).1
          · intro _
            simpa using hdmap
          · intro b hb
            simp at hb

/-- The case-statement phase preserves the run invariant. -/
theorem generateCaseStatements_inv (cfg : GeneratorConfig) {s : GenState}
    (h : GenInv s) : GenInv (generateCaseStatements cfg s) := by
  unfold generateCaseStatements
  exact foldl_GenState_inv GenInv _ (fun s _ hs => caseStatementStep_inv cfg hs) _ s h

/-- Mutating the branch at index `pre.length` of `pre ++ [b]` rewrites
exactly the final branch. -/
theorem setBranchAux_last (f : ConditionalBranch → ConditionalBranch) :
    ∀ (pre : List ConditionalBranch) (b : ConditionalBranch),
      setBranchAux f (pre ++ [b]) pre.length = pre ++ [f b]
  | [], b => rfl
  | b'' :: pre, b => by
    dsimp [setBranchAux]
    rw [setBranchAux_last f pre b]

/-- Combined effect of `addBranchOperation` followed by
`addBranchAssignment` on the final branch. -/
theorem addBranchOpAsg_last (pre : List ConditionalBranch)
    (b : ConditionalBranch) (op : Operation) (o i : Signal) :
    setBranchAux (fun br => { br with assignments := br.assignments ++ [(o, i)] })
      (setBranchAux (fun br => { br with operations := br.operations ++ [op] })
        (pre ++ [b]) pre.length) pre.length =
      pre ++ [{ b with
        operations := b.operations ++ [op],
        assignments := b.assignments ++ [(o, i)] }] := by
  rw [setBranchAux_last, setBranchAux_last]

/-- One per-output iteration of a branch body: on a non-empty pool it
appends exactly one assignment (and possibly one well-formed `MULT`) to
the final branch, and touches only oracle, wires and stamp. -/
theorem branchOutputStep_spec (cfg : GeneratorConfig) (available : List Signal)
    (hne : available ≠ []) (idx : Nat) (output : Signal) (cb : ControlBlock)
    (s : GenState) (hav : ∀ sig ∈ available, sig.uid < s.stamp)
    (pre : List ConditionalBranch) (b : ConditionalBranch)
    (hbr : cb.branches = pre ++ [b]) (hidx : idx = pre.length) :
    ∃ newops src s',
      branchOutputStep cfg available idx output (cb, s) =
        ({ cb with branches := pre ++ [{ b with
             operations := b.operations ++ newops,
             assignments := b.assignments ++ [(output, src)] }] }, s') ∧
      (∀ op ∈ newops, OpGood op) ∧
      StateFrame s s' ∧ s'.regs = s.regs ∧ s'.operations = s.operations ∧
      s'.control_blocks = s.control_blocks := by
  subst hidx
  unfold branchOutputStep
  dsimp only
  obtain ⟨oS, hoS⟩ := signDraw_oracleOnly cfg.generate_sharing_opportunities (4 / 5) s
  rw [hoS]
  by_cases hsh : (if cfg.generate_sharing_opportunities then randomBool (4 / 5) s
      else (false, s)).1 = true
  · rw [if_pos hsh]
    obtain ⟨a, hA, haMem⟩ := selectRandomSignal_nonempty available hne (withOracle s oS)
    obtain ⟨o1, ho1⟩ := selectRandomSignal_oracleOnly available (withOracle s oS)
    rw [ho1, withOracle_withOracle, hA]
    obtain ⟨b', hB, hbMem⟩ := selectRandomSignal_nonempty available hne (withOracle s o1)
    obtain ⟨o2, ho2⟩ := selectRandomSignal_oracleOnly available (withOracle s o1)
    rw [ho2, withOracle_withOracle, hB]
    dsimp only
    dsimp only [ControlBlock.addBranchOperation, ControlBlock.addBranchAssignment]
    rw [hbr, addBranchOpAsg_last pre b _ output _]
    dsimp only [createWire, newOperation, withOracle]
    refine ⟨_, _, _, rfl, ?_, ?_, rfl, rfl, rfl⟩
    · intro op hop
      rcases List.mem_singleton.mp hop with rfl
      refine ⟨?_, rfl, ?_, rfl, rfl⟩
      · exact requiredOperandsOk_of_isBinary rfl rfl
      · intro sig hsig
        dsimp only [Operation.addInput] at hsig
        rw [List.nil_append] at hsig
        rcases List.mem_cons.mp hsig with rfl | hsig
        · exact Nat.lt_succ_of_lt (hav sig haMem)
        · rcases List.mem_singleton.mp hsig with rfl
          exact Nat.lt_succ_of_lt (hav sig hbMem)
    · refine ⟨rfl, rfl, by dsimp only; omega, ?_⟩
      intro w hw
      rcases List.mem_append.mp hw with hw | hw
      · exact Or.inl hw
      · right
        rcases List.mem_singleton.mp hw with rfl
        dsimp only
        omega
  · rw [if_neg hsh]
    obtain ⟨inp, hI, hiMem⟩ := selectRandomSignal_nonempty available hne (withOracle s oS)
    obtain ⟨o1, ho1⟩ := selectRandomSignal_oracleOnly available (withOracle s oS)
    rw [ho1, withOracle_withOracle, hI]
    dsimp only [ControlBlock.addBranchAssignment]
    rw [hbr, setBranchAux_last]
    refine ⟨[], inp, withOracle s o1, ?_, by simp, ?_, rfl, rfl, rfl⟩
    · rw [List.append_nil]
    · exact ⟨rfl, rfl, le_refl _, fun w hw => Or.inl hw⟩

/-- The per-branch output loop on a non-empty pool: the final branch
receives one assignment per output (in order) plus only well-formed
operations; the state change is confined to oracle, wires and stamp. -/
theorem branchFold_spec (cfg : GeneratorConfig) (available : List Signal)
    (hne : available ≠ []) :
    ∀ (outs : List Signal) (idx : Nat) (cb : ControlBlock) (s : GenState)
      (pre : List ConditionalBranch) (b : ConditionalBranch),
      cb.branches = pre ++ [b] → idx = pre.length →
      (∀ sig ∈ available, sig.uid < s.stamp) →
      ∃ newops newasg s',
        outs.foldl (fun q output => branchOutputStep cfg available idx output q) (cb, s) =
          ({ cb with branches := pre ++ [{ b with
               operations := b.operations ++ newops,
               assignments := b.assignments ++ newasg }] }, s') ∧
        newasg.map Prod.fst = outs ∧ (∀ op ∈ newops, OpGood op) ∧
        StateFrame s s' ∧ s'.regs = s.regs ∧ s'.operations = s.operations ∧
        s'.control_blocks = s.control_blocks
  | [], idx, cb, s, pre, b, hbr, hidx, hav => by
    refine ⟨[], [], s, ?_, rfl, by simp, StateFrame_refl s, rfl, rfl, rfl⟩
    dsimp only [List.foldl_nil]
    rw [List.append_nil, List.append_nil, ← hbr]
  | out :: outs, idx, cb, s, pre, b, hbr, hidx, hav => by
    rw [List.foldl_cons]
    obtain ⟨newops1, src, s1, hstep, hgood1, hframe1, hregs1, hops1, hcbs1⟩ :=
      branchOutputStep_spec cfg available hne idx out cb s hav pre b hbr hidx
    rw [hstep]
    obtain ⟨newopsR, newasgR, s', hfold, hmap, hgoodR, hframeR, hregsR, hopsR, hcbsR⟩ :=
      branchFold_spec cfg available hne outs idx
        { cb with branches := pre ++ [{ b with
            operations := b.operations ++ newops1,
            assignments := b.assignments ++ [(out, src)] }] } s1 pre
        { b with operations := b.operations ++ newops1,
                 assignments := b.assignments ++ [(out, src)] }
        rfl hidx
        (fun sig hs => lt_of_lt_of_le (hav sig hs) hframe1.2.2.1)
    rw [hfold]
    refine ⟨newops1 ++ newopsR, (out, src) :: newasgR, s', ?_, ?_, ?_,
      StateFrame_trans hframe1 hframeR, hregsR.trans hregs1, hopsR.trans hops1,
      hcbsR.trans hcbs1⟩
    · dsimp only
      rw [List.append_assoc, List.append_assoc, List.singleton_append]
    · simp [hmap]
    · intro op hop
      rcases List.mem_append.mp hop with h' | h'
      · exact hgood1 op h'
      · exact hgoodR op h'

/-- One branch construction (conditional or final else) on a non-empty
pool appends exactly one branch writing the shared outputs in order. -/
theorem branchStep_spec (cfg : GeneratorConfig) (available : List Signal)
    (hne : available ≠ []) (n : Nat) (outs : List Signal) (branch : Nat)
    (cb : ControlBlock) (s : GenState)
    (hbranch : branch = cb.branches.length)
    (hav : ∀ sig ∈ available, sig.uid < s.stamp) :
    ∃ nb s',
      branchStep cfg available n outs branch (cb, s) =
        ({ cb with branches := cb.branches ++ [nb] }, s') ∧
      nb.assignments.map Prod.fst = outs ∧ (∀ op ∈ nb.operations, OpGood op) ∧
      StateFrame s s' ∧ s'.regs = s.regs ∧ s'.operations = s.operations ∧
      s'.control_blocks = s.control_blocks := by
  subst hbranch
  unfold branchStep
  dsimp only
  by_cases hlt : cb.branches.length < n - 1
  · rw [if_pos hlt]
    obtain ⟨cond, hC, hcMem⟩ := selectRandomSignal_nonempty available hne s
    obtain ⟨o1, ho1⟩ := selectRandomSignal_oracleOnly available s
    rw [hC, ho1]
    dsimp only
    obtain ⟨newops, newasg, s', hfold, hmap, hgood, hframe, hregs, hops, hcbs⟩ :=
      branchFold_spec cfg available hne outs cb.branches.length (cb.addBranch cond)
        (withOracle s o1) cb.branches ⟨some cond, [], []⟩ rfl rfl
        (fun sig hs => hav sig hs)
    rw [hfold]
    refine ⟨⟨some cond, newops, newasg⟩, s', ?_, by simpa using hmap,
      by simpa using hgood, hframe, hregs, hops, hcbs⟩
    dsimp only [ControlBlock.addBranch]
    rfl
  · rw [if_neg hlt]
    obtain ⟨newops, newasg, s', hfold, hmap, hgood, hframe, hregs, hops, hcbs⟩ :=
      branchFold_spec cfg available hne outs cb.branches.length cb.addElseBranch
        s cb.branches ⟨none, [], []⟩ rfl rfl hav
    rw [hfold]
    refine ⟨⟨none, newops, newasg⟩, s', ?_, by simpa using hmap,
      by simpa using hgood, hframe, hregs, hops, hcbs⟩
    dsimp only [ControlBlock.addElseBranch]
    rfl

/-- The branch loop: starting from a block with no branches, it appends
one branch per index `0 … k-1`, each writing the shared outputs. -/
theorem branchesLoop_spec (cfg : GeneratorConfig) (available : List Signal)
    (hne : available ≠ []) (n : Nat) (outs : List Signal) :
    ∀ (k : Nat) (cb : ControlBlock) (s : GenState),
      cb.branches = [] →
      (∀ sig ∈ available, sig.uid < s.stamp) →
      ∃ bs s',
        (List.range k).foldl
          (fun (p : ControlBlock × GenState) branch =>
            branchStep cfg available n outs branch p) (cb, s) =
          ({ cb with branches := bs }, s') ∧
        bs.length = k ∧
        (∀ b ∈ bs, b.assignments.map Prod.fst = outs ∧
          ∀ op ∈ b.operations, OpGood op) ∧
        StateFrame s s' ∧ s'.regs = s.regs ∧ s'.operations = s.operations ∧
        s'.control_blocks = s.control_blocks := by
  intro k
  induction k with
  | zero =>
    intro cb s hcb0 hav
    refine ⟨[], s, ?_, rfl, by simp, StateFrame_refl s, rfl, rfl, rfl⟩
    dsimp only [List.range_zero, List.foldl_nil]
    rw [← hcb0]
  | succ k ih =>
    intro cb s hcb0 hav
    rw [List.range_succ, List.foldl_append]
    obtain ⟨bs, s1, hfold1, hlen, hprops, hframe1, hregs1, hops1, hcbs1⟩ := ih cb s hcb0 hav
    rw [hfold1]
    dsimp only [List.foldl_cons, List.foldl_nil]
    obtain ⟨nb, s', hstep, hmap, hgood, hframe2, hregs2, hops2, hcbs2⟩ :=
      branchStep_spec cfg available hne n outs k { cb with branches := bs } s1
        hlen.symm
        (fun sig hs => lt_of_lt_of_le (hav sig hs) hframe1.2.2.1)
    rw [hstep]
    refine ⟨bs ++ [nb], s', ?_, ?_, ?_, StateFrame_trans hframe1 hframe2,
      hregs2.trans hregs1, hops2.trans hops1, hcbs2.trans hcbs1⟩
    · rfl
    · simp [hlen]
    · intro b hb
      rcases List.mem_append.mp hb with h' | h'
      · exact hprops b h'
      · rcases List.mem_singleton.mp h' with rfl
        exact ⟨hmap, hgood⟩

/-- One if/else chain construction preserves the run invariant, and the
pushed block is well-formed. -/
theorem ifElseChainStep_inv (cfg : GeneratorConfig) {s : GenState}
    (h : GenInv s) : GenInv (ifElseChainStep cfg s) := by
  unfold ifElseChainStep
  dsimp only
  by_cases hl : (getAvailableSignals s).length < 3
  · rw [if_pos hl]
    exact h
  · rw [if_neg hl]
    have hne : getAvailableSignals s ≠ [] := by
      intro hh
      rw [hh] at hl
      simp at hl
    have hav0 : ∀ sig ∈ getAvailableSignals s, sig.uid < s.stamp := by
      intro sig hsig
      obtain ⟨⟨hpin, hpw⟩, -, -⟩ := h
      rcases List.mem_append.mp hsig with h' | h'
      · exact hpin sig h'
      · exact hpw sig h'
    rw [randomInt_snd, randomInt_snd]
    obtain ⟨hOutsReg, hOi, hOo, hOw, hOop, hOcb, hOst⟩ :=
      createBlockOutputs_spec cfg (randomInt 1 3 s).1.toNat
        (withOracle s s.oracle.tail)
    have hav1 : ∀ sig ∈ getAvailableSignals s,
        sig.uid < (withOracle (createBlockOutputs cfg (randomInt 1 3 s).1.toNat
          (withOracle s s.oracle.tail)).2
          (createBlockOutputs cfg (randomInt 1 3 s).1.toNat
            (withOracle s s.oracle.tail)).2.oracle.tail).stamp :=
      fun sig hs => lt_of_lt_of_le (hav0 sig hs) hOst
    obtain ⟨bs, s2, hfold, hblen, hprops, hframe, hregs, hops, hcbs⟩ :=
      branchesLoop_spec cfg (getAvailableSignals s) hne
        (randomInt 2 4 (createBlockOutputs cfg (randomInt 1 3 s).1.toNat
          (withOracle s s.oracle.tail)).2).1.toNat
        (createBlockOutputs cfg (randomInt 1 3 s).1.toNat
          (withOracle s s.oracle.tail)).1
        (randomInt 2 4 (createBlockOutputs cfg (randomInt 1 3 s).1.toNat
          (withOracle s s.oracle.tail)).2).1.toNat
        ⟨ControlType.IF_ELSE_CHAIN, none, [], [], []⟩
        (withOracle (createBlockOutputs cfg (randomInt 1 3 s).1.toNat
          (withOracle s s.oracle.tail)).2
          (createBlockOutputs cfg (randomInt 1 3 s).1.toNat
            (withOracle s s.oracle.tail)).2.oracle.tail)
        rfl hav1
    rw [hfold]
    have hframe' : StateFrame (createBlockOutputs cfg (randomInt 1 3 s).1.toNat
        (withOracle s s.oracle.tail)).2 s2 := hframe
    have hregs' : s2.regs = (createBlockOutputs cfg (randomInt 1 3 s).1.toNat
        (withOracle s s.oracle.tail)).2.regs := hregs
    have hops' : s2.operations = (createBlockOutputs cfg (randomInt 1 3 s).1.toNat
        (withOracle s s.oracle.tail)).2.operations := hops
    have hcbs' : s2.control_blocks = (createBlockOutputs cfg (randomInt 1 3 s).1.toNat
        (withOracle s s.oracle.tail)).2.control_blocks := hcbs
    refine GenInv_mono ?_ ?_ ?_ ?_ ?_ h
    · exact le_trans hOst hframe'.2.2.1
    · intro sig hsig
      left
      have h1 : sig ∈ s2.inputs := hsig
      rw [hframe'.1, hOi] at h1
      exact h1
    · intro w hw
      have h1 : w ∈ s2.wires := hw
      rcases hframe'.2.2.2 w h1 with h' | h'
      · left
        rw [hOw] at h'
        exact h'
      · right
        exact h'
    · intro op hop
      left
      have h1 : op ∈ s2.operations := hop
      rw [hops', hOop] at h1
      exact h1
    · intro cb hcb
      rcases List.mem_append.mp hcb with h' | h'
      · left
        have h1 : cb ∈ s2.control_blocks := h'
        rw [hcbs', hOcb] at h1
        exact h1
      · right
        rcases List.mem_singleton.mp h' with rfl
        constructor
        · intro op hop
          unfold blockOps at hop
          rcases List.mem_flatMap.mp (by simpa using hop) with ⟨b, hb, hop2⟩
          exact (hprops b hb).2 op hop2
        · refine ⟨(createBlockOutputs cfg (randomInt 1 3 s).1.toNat
            (withOracle s s.oracle.tail)).1, hOutsReg, ?_, ?_, ?_⟩
          · intro c hc
            simp at hc
          · intro hty
            simp at hty
          · intro b hb
            exact (hprops b hb).1

/-- The if/else-chain phase preserves the run invariant. -/
theorem generateIfElseChains_inv (cfg : GeneratorConfig) {s : GenState}
    (h : GenInv s) : GenInv (generateIfElseChains cfg s) := by
  unfold generateIfElseChains
  exact foldl_GenState_inv GenInv _ (fun s _ hs => ifElseChainStep_inv cfg hs) _ s h

/-- The control-block phase preserves the run invariant. -/
theorem generateControlBlocks_inv (cfg : GeneratorConfig) {s : GenState}
    (h : GenInv s) : GenInv (generateControlBlocks cfg s) := by
  unfold generateControlBlocks
  dsimp only
  by_cases h1 : cfg.generate_case_statements = true ∨ 0 < cfg.num_case_statements
  · rw [if_pos h1]
    by_cases h2 : cfg.generate_if_else_chains = true ∨ 0 < cfg.num_if_else_chains
    · rw [if_pos h2]
      by_cases h3 : cfg.generate_sharing_opportunities = true
      · rw [if_pos h3]
        exact generateSharingOpportunities_inv cfg
          (generateIfElseChains_inv cfg (generateCaseStatements_inv cfg h))
      · rw [if_neg h3]
        exact generateIfElseChains_inv cfg (generateCaseStatements_inv cfg h)
    · rw [if_neg h2]
      by_cases h3 : cfg.generate_sharing_opportunities = true
      · rw [if_pos h3]
        exact generateSharingOpportunities_inv cfg (generateCaseStatements_inv cfg h)
      · rw [if_neg h3]
        exact generateCaseStatements_inv cfg h
  · rw [if_neg h1]
    by_cases h2 : cfg.generate_if_else_chains = true ∨ 0 < cfg.num_if_else_chains
    · rw [if_pos h2]
      by_cases h3 : cfg.generate_sharing_opportunities = true
      · rw [if_pos h3]
        exact generateSharingOpportunities_inv cfg (generateIfElseChains_inv cfg h)
      · rw [if_neg h3]
        exact generateIfElseChains_inv cfg h
    · rw [if_neg h2]
      by_cases h3 : cfg.generate_sharing_opportunities = true
      · rw [if_pos h3]
        exact generateSharingOpportunities_inv cfg h
      · rw [if_neg h3]
        exact h

/-- Everything of `OpGood` except the depth survives. -/
theorem OpGoodFinal_of_OpGood {op : Operation} (h : OpGood op) : OpGoodFinal op :=
  ⟨h.1, h.2.1, h.2.2.1, h.2.2.2.2⟩

/-- The final depth pass only rewrites depths, so a state satisfying the
run invariant yields a fully well-formed graph. -/
theorem assignDepths_good {cfg : GeneratorConfig} {s : GenState} (h : GenInv s) :
    (∀ op ∈ (assignDepths cfg s).operations, OpGoodFinal op) ∧
    (∀ cb ∈ (assignDepths cfg s).control_blocks,
      (∀ op ∈ blockOps cb, OpGoodFinal op) ∧ GoodBlock cb) := by
  obtain ⟨-, hops, hcbs⟩ := h
  constructor
  · intro op hop
    unfold assignDepths at hop
    dsimp only at hop
    rcases List.mem_map.mp hop with ⟨pq, hmem, rfl⟩
    rw [List.enum_eq_zip_range] at hmem
    have hsnd := (List.of_mem_zip hmem).2
    obtain ⟨hreq, hout, hin, hdepth, hstage⟩ := hops pq.2 hsnd
    exact ⟨hreq, hout, hin, hstage⟩
  · intro cb hcb
    have h1 : cb ∈ s.control_blocks := hcb
    obtain ⟨hopsb, hgood⟩ := hcbs cb h1
    exact ⟨fun op hop => OpGoodFinal_of_OpGood (hopsb op hop), hgood⟩

/-- Master well-formedness theorem for a complete run: every retained
operation (main sequence or control-block body) is well formed, and
every control block writes one shared register list across all of its
cases, its default case and its branches. -/
theorem generate_good (cfg : GeneratorConfig) (oracle : List Nat) :
    (∀ op ∈ (generate cfg oracle).operations, OpGoodFinal op) ∧
    (∀ cb ∈ (generate cfg oracle).control_blocks,
      (∀ op ∈ blockOps cb, OpGoodFinal op) ∧ GoodBlock cb) := by
  unfold generate
  dsimp only
  refine assignDepths_good (connectOutputs_inv (generateControlBlocks_inv cfg ?_))
  by_cases hp : 0 < cfg.num_pipeline_stages
  · rw [if_pos hp]
    exact generatePipeline_inv cfg (generateDatapath_inv cfg
      (generateOutputs_inv cfg (generateInputs_inv cfg (initState_inv oracle))))
  · rw [if_neg hp]
    exact generateDatapath_inv cfg
      (generateOutputs_inv cfg (generateInputs_inv cfg (initState_inv oracle)))

/-- On an empty candidate list the signal draw is a no-op `nullptr`. -/
theorem selectRandomSignal_nil (s : GenState) :
    selectRandomSignal [] s = (none, s) := rfl

/-- With a non-positive mux weight the category draw never lands on the
mux category sentinel (and `MUX4` is never a sentinel at all). -/
theorem selectRandomOpType_no_mux (cfg : GeneratorConfig) (s : GenState)
    (hw : cfg.weight_mux ≤ 0) :
    (selectRandomOpType cfg s).1 ≠ OpType.MUX2 ∧
    (selectRandomOpType cfg s).1 ≠ OpType.MUX4 := by
  unfold selectRandomOpType
  rcases weightedChoice_mem_filter
    [(cfg.weight_arithmetic, OpType.ADD),
     (cfg.weight_logical, OpType.AND),
     (cfg.weight_comparison, OpType.EQ),
     (cfg.weight_shift, OpType.SLL),
     (cfg.weight_mux, OpType.MUX2),
     (cfg.weight_concat, OpType.CONCAT),
     (cfg.weight_reduction, OpType.RED_AND)] s with h | h
  · rcases List.mem_map.mp h with ⟨p, hp, hsnd⟩
    have hmem := List.mem_of_mem_filter hp
    have hpos : (0 : ℚ) < p.1 := of_decide_eq_true (List.mem_filter.mp hp).2
    rw [← hsnd]
    fin_cases hmem
    · exact ⟨fun hh => (nomatch hh), fun hh => (nomatch hh)⟩
    · exact ⟨fun hh => (nomatch hh), fun hh => (nomatch hh)⟩
    · exact ⟨fun hh => (nomatch hh), fun hh => (nomatch hh)⟩
    · exact ⟨fun hh => (nomatch hh), fun hh => (nomatch hh)⟩
    · exact absurd hpos (not_lt.mpr hw)
    · exact ⟨fun hh => (nomatch hh), fun hh => (nomatch hh)⟩
    · exact ⟨fun hh => (nomatch hh), fun hh => (nomatch hh)⟩
  · rw [h]
    exact ⟨by decide, by decide⟩

/-- Arithmetic attempt on an empty pool: skipped, oracle only. -/
theorem generateArithmeticOp_empty (cfg : GeneratorConfig) (s : GenState) :
    ∃ o, generateArithmeticOp cfg [] s = (none, withOracle s o) := by
  obtain ⟨o1, ho1⟩ := selectArithmeticOpType_oracleOnly cfg s
  refine ⟨o1, ?_⟩
  unfold generateArithmeticOp
  dsimp only
  rw [ho1, selectRandomSignal_nil, selectRandomSignal_nil]

/-- Logical attempt on an empty pool: skipped, oracle only. -/
theorem generateLogicalOp_empty (s : GenState) :
    ∃ o, generateLogicalOp [] s = (none, withOracle s o) := by
  refine ⟨s.oracle.tail, ?_⟩
  unfold generateLogicalOp
  dsimp only
  rw [randomPick_snd, selectRandomSignal_nil]
  split <;> rfl

/-- Comparison attempt on an empty pool: skipped, oracle only. -/
theorem generateComparisonOp_empty (s : GenState) :
    ∃ o, generateComparisonOp [] s = (none, withOracle s o) := by
  refine ⟨s.oracle.tail, ?_⟩
  unfold generateComparisonOp
  dsimp only
  rw [randomPick_snd, selectRandomSignal_nil, selectRandomSignal_nil]

/-- Shift attempt on an empty pool: skipped, oracle only. -/
theorem generateShiftOp_empty (cfg : GeneratorConfig) (s : GenState) :
    ∃ o, generateShiftOp cfg [] s = (none, withOracle s o) := by
  obtain ⟨o1, ho1⟩ := selectShiftOpType_oracleOnly cfg s
  refine ⟨o1, ?_⟩
  unfold generateShiftOp
  dsimp only
  rw [ho1, selectRandomSignal_nil, selectRandomSignal_nil]

/-- Reduction attempt on an empty pool: skipped, oracle only. -/
theorem generateReductionOp_empty (s : GenState) :
    ∃ o, generateReductionOp [] s = (none, withOracle s o) := by
  refine ⟨s.oracle.tail, ?_⟩
  unfold generateReductionOp
  dsimp only
  rw [randomPick_snd, selectRandomSignal_nil]

/-- Concatenation attempt on an empty pool: nothing collected, skipped,
oracle only. -/
theorem generateConcatOp_empty (s : GenState) :
    ∃ o, generateConcatOp [] s = (none, withOracle s o) := by
  obtain ⟨o, ho, hmem, hlen⟩ := collectLoop_spec []
    (List.range (randomInt 2 4 s).1.toNat) [] (withOracle s s.oracle.tail)
  unfold generateConcatOp collectConcatInputs
  dsimp only
  rw [randomInt_snd]
  have hnil : ((List.range (randomInt 2 4 s).1.toNat).foldl
      (fun (p : List Signal × GenState) _ =>
        let rD := selectRandomSignal [] p.2
        match rD.1 with
        | some d => (p.1 ++ [d], rD.2)
        | none => (p.1, rD.2)) ([], withOracle s s.oracle.tail)).1 = [] := by
    refine List.eq_nil_iff_forall_not_mem.mpr ?_
    intro d hd
    rcases hmem d hd with h | h <;> simp at h
  rw [hnil, ho, withOracle_withOracle]
  rw [if_pos (by decide)]
  exact ⟨o, rfl⟩

/-- Dispatch on an empty pool with the mux kinds excluded: every attempt
is skipped, and only the oracle advances. -/
theorem dispatchOp_empty (cfg : GeneratorConfig) (t : OpType) (s : GenState)
    (h2 : t ≠ OpType.MUX2) (h4 : t ≠ OpType.MUX4) :
    ∃ o, dispatchOp cfg t [] s = (none, withOracle s o) := by
  unfold dispatchOp
  repeat' split
  · exact generateArithmeticOp_empty cfg s
  · exact generateLogicalOp_empty s
  · exact generateComparisonOp_empty s
  · exact generateShiftOp_empty cfg s
  · rename_i hmux
    rcases hmux with h | h
    · exact absurd h h2
    · exact absurd h h4
  · exact generateConcatOp_empty s
  · exact generateReductionOp_empty s
  · exact ⟨s.oracle, rfl⟩

/-- A fold whose body ignores its accumulator argument change is the
identity. -/
theorem foldl_id {α : Type} {β : Type} :
    ∀ (l : List β) (a : α), l.foldl (fun a _ => a) a = a
  | [], _ => rfl
  | _ :: l, a => foldl_id l a

/-- With no inputs declared, input generation is a no-op. -/
theorem generateInputs_zero (cfg : GeneratorConfig) (hin : cfg.num_inputs ≤ 0)
    (s : GenState) : generateInputs cfg s = s := by
  unfold generateInputs
  rw [Int.toNat_of_nonpos hin]
  rfl

/-- Output generation never touches inputs, wires or operations. -/
theorem generateOutputs_empty (cfg : GeneratorConfig) {s : GenState}
    (h : s.inputs = [] ∧ s.wires = [] ∧ s.operations = []) :
    (generateOutputs cfg s).inputs = [] ∧ (generateOutputs cfg s).wires = [] ∧
    (generateOutputs cfg s).operations = [] := by
  unfold generateOutputs
  refine foldl_GenState_inv
    (fun s' => s'.inputs = [] ∧ s'.wires = [] ∧ s'.operations = []) _ ?_ _ s h
  intro s' i hs'
  dsimp only
  rw [randomInt_snd, signDraw_snd, withOracle_withOracle]
  exact hs'

/-- One datapath attempt on a no-input, no-mux-weight configuration
leaves the pool and the operation sequence empty. -/
theorem datapathStep_empty (cfg : GeneratorConfig) (hmux : cfg.weight_mux ≤ 0)
    {s : GenState} (h : s.inputs = [] ∧ s.wires = [] ∧ s.operations = []) :
    (datapathStep cfg s).inputs = [] ∧ (datapathStep cfg s).wires = [] ∧
    (datapathStep cfg s).operations = [] := by
  obtain ⟨hi, hwr, hop⟩ := h
  obtain ⟨o, ho⟩ := selectRandomOpType_oracleOnly cfg s
  obtain ⟨h2, h4⟩ := selectRandomOpType_no_mux cfg s hmux
  unfold datapathStep
  dsimp only
  rw [ho]
  have hga : getAvailableSignals (withOracle s o) = [] := by
    unfold getAvailableSignals
    show s.inputs ++ s.wires = []
    rw [hi, hwr]
    rfl
  rw [hga, if_pos (by decide)]
  rw [show (withOracle s o).inputs = [] from hi]
  obtain ⟨o2, hd⟩ := dispatchOp_empty cfg (selectRandomOpType cfg s).1 (withOracle s o) h2 h4
  rw [hd]
  unfold pushOp
  dsimp only
  exact ⟨hi, hwr, hop⟩

/-- The datapath phase on a no-input, no-mux-weight configuration emits
nothing at all. -/
theorem generateDatapath_empty (cfg : GeneratorConfig) (hmux : cfg.weight_mux ≤ 0)
    {s : GenState} (h : s.inputs = [] ∧ s.wires = [] ∧ s.operations = []) :
    (generateDatapath cfg s).inputs = [] ∧ (generateDatapath cfg s).wires = [] ∧
    (generateDatapath cfg s).operations = [] := by
  unfold generateDatapath
  exact foldl_GenState_inv
    (fun s' => s'.inputs = [] ∧ s'.wires = [] ∧ s'.operations = []) _
    (fun s' _ hs' => datapathStep_empty cfg hmux hs') _ s h

/-- Pipeline tagging never touches inputs, wires, or the emptiness of
the operation sequence. -/
theorem generatePipeline_empty (cfg : GeneratorConfig) {s : GenState}
    (h : s.inputs = [] ∧ s.wires = [] ∧ s.operations = []) :
    (generatePipeline cfg s).inputs = [] ∧ (generatePipeline cfg s).wires = [] ∧
    (generatePipeline cfg s).operations = [] := by
  refine ⟨h.1, h.2.1, ?_⟩
  unfold generatePipeline
  dsimp only
  rw [h.2.2]
  rfl

/-- A case-statement attempt on an empty pool is a no-op. -/
theorem caseStatementStep_empty (cfg : GeneratorConfig) {s : GenState}
    (hi : s.inputs = []) (hwr : s.wires = []) :
    caseStatementStep cfg s = s := by
  unfold caseStatementStep
  dsimp only
  have hga : getAvailableSignals s = [] := by
    unfold getAvailableSignals
    rw [hi, hwr]
    rfl
  rw [hga, if_pos (by decide)]

/-- An if/else-chain attempt on an empty pool is a no-op. -/
theorem ifElseChainStep_empty (cfg : GeneratorConfig) {s : GenState}
    (hi : s.inputs = []) (hwr : s.wires = []) :
    ifElseChainStep cfg s = s := by
  unfold ifElseChainStep
  dsimp only
  have hga : getAvailableSignals s = [] := by
    unfold getAvailableSignals
    rw [hi, hwr]
    rfl
  rw [hga, if_pos (by decide)]

/-- A sharing-opportunity phase on an empty pool is a no-op. -/
theorem generateSharingOpportunities_empty (cfg : GeneratorConfig) {s : GenState}
    (hi : s.inputs = []) (hwr : s.wires = []) :
    generateSharingOpportunities cfg s = s := by
  unfold generateSharingOpportunities
  dsimp only
  have hga : getAvailableSignals s = [] := by
    unfold getAvailableSignals
    rw [hi, hwr]
    rfl
  rw [hga, if_pos (by decide)]

/-- The control-block phase on an empty pool leaves the state pool and
operation sequence empty. -/
theorem generateControlBlocks_empty (cfg : GeneratorConfig) {s : GenState}
    (h : s.inputs = [] ∧ s.wires = [] ∧ s.operations = []) :
    (generateControlBlocks cfg s).inputs = [] ∧
    (generateControlBlocks cfg s).wires = [] ∧
    (generateControlBlocks cfg s).operations = [] := by
  have hcase : ∀ s' : GenState,
      s'.inputs = [] ∧ s'.wires = [] ∧ s'.operations = [] →
      (generateCaseStatements cfg s').inputs = [] ∧
      (generateCaseStatements cfg s').wires = [] ∧
      (generateCaseStatements cfg s').operations = [] := by
    intro s' hs'
    unfold generateCaseStatements
    refine foldl_GenState_inv
      (fun t => t.inputs = [] ∧ t.wires = [] ∧ t.operations = []) _ ?_ _ s' hs'
    intro t _ ht
    rw [caseStatementStep_empty cfg ht.1 ht.2.1]
    exact ht
  have hif : ∀ s' : GenState,
      s'.inputs = [] ∧ s'.wires = [] ∧ s'.operations = [] →
      (generateIfElseChains cfg s').inputs = [] ∧
      (generateIfElseChains cfg s').wires = [] ∧
      (generateIfElseChains cfg s').operations = [] := by
    intro s' hs'
    unfold generateIfElseChains
    refine foldl_GenState_inv
      (fun t => t.inputs = [] ∧ t.wires = [] ∧ t.operations = []) _ ?_ _ s' hs'
    intro t _ ht
    rw [ifElseChainStep_empty cfg ht.1 ht.2.1]
    exact ht
  unfold generateControlBlocks
  dsimp only
  by_cases h1 : cfg.generate_case_statements = true ∨ 0 < cfg.num_case_statements
  · rw [if_pos h1]
    by_cases h2 : cfg.generate_if_else_chains = true ∨ 0 < cfg.num_if_else_chains
    · rw [if_pos h2]
      by_cases h3 : cfg.generate_sharing_opportunities = true
      · rw [if_pos h3]
        have hmid := hif _ (hcase _ h)
        rw [generateSharingOpportunities_empty cfg hmid.1 hmid.2.1]
        exact hmid
      · rw [if_neg h3]
        exact hif _ (hcase _ h)
    · rw [if_neg h2]
      by_cases h3 : cfg.generate_sharing_opportunities = true
      · rw [if_pos h3]
        have hmid := hcase _ h
        rw [generateSharingOpportunities_empty cfg hmid.1 hmid.2.1]
        exact hmid
      · rw [if_neg h3]
        exact hcase _ h
  · rw [if_neg h1]
    by_cases h2 : cfg.generate_if_else_chains = true ∨ 0 < cfg.num_if_else_chains
    · rw [if_pos h2]
      by_cases h3 : cfg.generate_sharing_opportunities = true
      · rw [if_pos h3]
        have hmid := hif _ h
        rw [generateSharingOpportunities_empty cfg hmid.1 hmid.2.1]
        exact hmid
      · rw [if_neg h3]
        exact hif _ h
    · rw [if_neg h2]
      by_cases h3 : cfg.generate_sharing_opportunities = true
      · rw [if_pos h3]
        rw [generateSharingOpportunities_empty cfg h.1 h.2.1]
        exact h
      · rw [if_neg h3]
        exact h

/-- Output connection on an empty pool is a no-op. -/
theorem connectOutputs_empty {s : GenState}
    (hi : s.inputs = []) (hwr : s.wires = []) :
    connectOutputs s = s := by
  unfold connectOutputs
  dsimp only
  have hga : getAvailableSignals s = [] := by
    unfold getAvailableSignals
    rw [hi, hwr]
    rfl
  rw [hga]
  simp only [List.isEmpty_nil, if_true]
  exact foldl_id _ _

/-- C2: the output-connection phase never records the driving
relationship it builds.  Universally, every operation retained anywhere
in the exposed graph drives a fresh `WIRE` — never a declared `OUTPUT` —
and in the spec's concrete scenario (two 8-bit inputs, one 8-bit output,
one `add`) the run ends with exactly one `add` operation, one declared
output, no control blocks, and no retained structure whose output is the
declared output signal: the connection drawn by `connectOutputs` is
dropped on the floor. -/
theorem C2_outputs_never_driven :
    (∀ (cfg : GeneratorConfig) (oracle : List Nat) (op : Operation),
      inGraph (generate cfg oracle) op → op.output.type = SignalType.WIRE) ∧
    (generate cfgScenario oracleScenario).operations.length = 1 ∧
    (∀ op ∈ (generate cfgScenario oracleScenario).operations,
      op.type = OpType.ADD ∧ op.inputs.map Signal.width = [8, 8] ∧
      op.output.width = 8 ∧ op.output.is_signed = false) ∧
    (generate cfgScenario oracleScenario).outputs.length = 1 ∧
    (generate cfgScenario oracleScenario).control_blocks = [] ∧
    (∀ op ∈ (generate cfgScenario oracleScenario).operations,
      ∀ out ∈ (generate cfgScenario oracleScenario).outputs,
        op.output ≠ out) := by
  refine ⟨?_, by decide, by decide, by decide, by decide, by decide⟩
  intro cfg oracle op h
  rcases h with hmem | ⟨cb, hcb, hop⟩
  · exact ((generate_good cfg oracle).1 op hmem).2.1
  · exact (((generate_good cfg oracle).2 cb hcb).1 op hop).2.1

/-- Witness for C2 at a concrete run: the sole generated operation's
output is a `WIRE`. -/
theorem C2_outputs_never_driven_witness :
    ((generate cfgScenario oracleScenario).operations.headD default).output.type
      = SignalType.WIRE :=
  C2_outputs_never_driven.1 cfgScenario oracleScenario _ (Or.inl (by decide))

/-- C3: every generated control block writes one shared register list:
all cases, the default case (for case statements) and all branches
assign exactly the same list of freshly created `REG` outputs. -/
theorem C3_blocks_write_shared_registers :
    ∀ (cfg : GeneratorConfig) (oracle : List Nat),
      ∀ cb ∈ (generate cfg oracle).control_blocks, GoodBlock cb :=
  fun cfg oracle cb hcb => ((generate_good cfg oracle).2 cb hcb).2

/-- Witness for C3 at a concrete run with one case statement. -/
theorem C3_blocks_write_shared_registers_witness :
    GoodBlock ((generate cfgCaseMult oracleCaseMult).control_blocks.headD default) :=
  C3_blocks_write_shared_registers cfgCaseMult oracleCaseMult _ (by decide)

/-- C4 (amended): pipeline tagging runs before `assignDepths`, when
every operation still has depth `0`, so with `num_pipeline_stages > 0`
every operation in the finished graph carries pipeline stage
`0 * num_pipeline_stages / max_depth = 0` — not a stage computed from
its final depth. -/
theorem C4_all_stages_zero :
    ∀ (cfg : GeneratorConfig) (oracle : List Nat),
      0 < cfg.num_pipeline_stages →
      ∀ op, inGraph (generate cfg oracle) op → op.stage = 0 := by
  intro cfg oracle hp op h
  rcases h with hmem | ⟨cb, hcb, hop⟩
  · exact ((generate_good cfg oracle).1 op hmem).2.2.2
  · exact (((generate_good cfg oracle).2 cb hcb).1 op hop).2.2.2

/-- Witness for C4 at a concrete two-stage pipeline run. -/
theorem C4_all_stages_zero_witness :
    0 < cfgPipeline.num_pipeline_stages ∧
    ((generate cfgPipeline oraclePipeline).operations.headD default).stage = 0 :=
  ⟨by decide,
    C4_all_stages_zero cfgPipeline oraclePipeline (by decide) _ (Or.inl (by decide))⟩

/-- C5 (amended): with no inputs, a positive operation budget and a
non-positive mux weight, every datapath attempt is skipped (no fallback
mux selector wire is ever created) and the final operation sequence of
the whole run is empty, for every seed. -/
theorem C5_no_inputs_empty_graph :
    ∀ (cfg : GeneratorConfig) (oracle : List Nat),
      cfg.num_inputs ≤ 0 → 0 < cfg.num_operations → cfg.weight_mux ≤ 0 →
      (generate cfg oracle).operations = [] := by
  intro cfg oracle hin hops hmux
  unfold generate
  dsimp only
  rw [generateInputs_zero cfg hin]
  have h0 : (initState oracle).inputs = [] ∧ (initState oracle).wires = [] ∧
      (initState oracle).operations = [] := ⟨rfl, rfl, rfl⟩
  have h1 := generateOutputs_empty cfg h0
  have h2 := generateDatapath_empty cfg hmux h1
  have h3 : (if 0 < cfg.num_pipeline_stages then
        generatePipeline cfg (generateDatapath cfg (generateOutputs cfg (initState oracle)))
      else generateDatapath cfg (generateOutputs cfg (initState oracle))).inputs = [] ∧
      (if 0 < cfg.num_pipeline_stages then
        generatePipeline cfg (generateDatapath cfg (generateOutputs cfg (initState oracle)))
      else generateDatapath cfg (generateOutputs cfg (initState oracle))).wires = [] ∧
      (if 0 < cfg.num_pipeline_stages then
        generatePipeline cfg (generateDatapath cfg (generateOutputs cfg (initState oracle)))
      else generateDatapath cfg (generateOutputs cfg (initState oracle))).operations = [] := by
    by_cases hp : 0 < cfg.num_pipeline_stages
    · rw [if_pos hp]
      exact generatePipeline_empty cfg h2
    · rw [if_neg hp]
      exact h2
  have h4 := generateControlBlocks_empty cfg h3
  rw [connectOutputs_empty h4.1 h4.2.1]
  unfold assignDepths
  dsimp only
  rw [h4.2.2]
  rfl

/-- Witness for C5 at the concrete no-input configuration. -/
theorem C5_no_inputs_empty_graph_witness :
    cfgNoInputs.num_inputs ≤ 0 ∧ 0 < cfgNoInputs.num_operations ∧
    cfgNoInputs.weight_mux ≤ 0 ∧
    (generate cfgNoInputs [0, 1, 2, 3, 4, 5]).operations = [] :=
  ⟨by decide, by decide, by decide,
    C5_no_inputs_empty_graph cfgNoInputs [0, 1, 2, 3, 4, 5]
      (by decide) (by decide) (by decide)⟩

/-- C7: every operation retained anywhere in the exposed graph has
exactly the operand count its kind requires (unary kinds 1, binary kinds
2, `MUX2` 3, `MUX4` 5, and at least 2 for `CONCAT`). -/
theorem C7_arity :
    ∀ (cfg : GeneratorConfig) (oracle : List Nat) (op : Operation),
      inGraph (generate cfg oracle) op → requiredOperandsOk op := by
  intro cfg oracle op h
  rcases h with hmem | ⟨cb, hcb, hop⟩
  · exact ((generate_good cfg oracle).1 op hmem).1
  · exact (((generate_good cfg oracle).2 cb hcb).1 op hop).1

/-- Witness for C7 at a concrete run. -/
theorem C7_arity_witness :
    requiredOperandsOk ((generate cfgScenario oracleScenario).operations.headD default) :=
  C7_arity cfgScenario oracleScenario _ (Or.inl (by decide))

/-- C8: every operand of every operation retained anywhere in the
exposed graph was created strictly before the operation (its signal uid
is below the operation's creation stamp). -/
theorem C8_no_dangling_operands :
    ∀ (cfg : GeneratorConfig) (oracle : List Nat) (op : Operation),
      inGraph (generate cfg oracle) op →
      ∀ sig ∈ op.inputs, sig.uid < op.stamp := by
  intro cfg oracle op h
  rcases h with hmem | ⟨cb, hcb, hop⟩
  · exact ((generate_good cfg oracle).1 op hmem).2.2.1
  · exact (((generate_good cfg oracle).2 cb hcb).1 op hop).2.2.1

/-- Witness for C8 at a concrete run: the first operand of the sole
generated operation predates the operation. -/
theorem C8_no_dangling_operands_witness :
    (((generate cfgScenario oracleScenario).operations.headD default).inputs.headD
        default).uid <
      ((generate cfgScenario oracleScenario).operations.headD default).stamp :=
  C8_no_dangling_operands cfgScenario oracleScenario _ (Or.inl (by decide)) _ (by decide)
